import Mathlib

/-!
CHIP-8 interpreter (`src/chip8.h`, `src/chip8.cpp`)

A shallow embedding of the `CHIP8` class.  Arrays are total functions from an
index to a cell, and every access the C++ code makes outside an array's bounds
is a failure (`none`) of the operation that makes it.  Unsigned machine
integers are naturals, reduced modulo `2^8` or `2^16` wherever the C++ value is
stored into a `uint8_t` or `uint16_t`; `int` values are integers.  A `float`
is its binary32 bit pattern, with the arithmetic of `CHIP8::Advance` computed
exactly and rounded to nearest, ties to even; `CHIP8::Step`, which divides
floats, is not embedded.
-/

namespace CHIP8

/-! ## Data model -/

/-- A `float` of the source, kept as its IEEE-754 binary32 bit pattern. -/
structure F32 where
  bits : Nat
deriving DecidableEq

/-- The value `0.0`, whose bit pattern is all zeroes. -/
def F32.zero : F32 := ⟨0⟩

/-- The anonymous enum of `keyWaitState`. -/
inductive KeyWaitState where
  | NotWaiting
  | Waiting
  | KeyRecieved
deriving DecidableEq

/-- Size of `uint8_t memory[4096]`. -/
def MEMORY_SIZE : Nat := 4096

/-- Address at which programs start. -/
def PROGRAM_START : Nat := 512

/-- Capacity of the return-address stack. -/
def STACK_MAX : Nat := 128

/-- Width of the display in pixels. -/
def DISPLAY_WIDTH : Nat := 64

/-- Height of the display in pixels. -/
def DISPLAY_HEIGHT : Nat := 32

/-- The private data members of `class CHIP8`, in declaration order. -/
structure State where
  cyclesPerSecond : F32
  tickTimeAccumulator : F32
  cyclesAccumulator : F32
  memory : Nat → Nat
  V : Nat → Nat
  I : Nat
  PC : Nat
  stack : Nat → Nat
  SP : Int
  delayTimer : Nat
  soundTimer : Nat
  keys : Nat → Bool
  recievedKey : Nat
  keyWaitState : KeyWaitState
  display : Nat → Nat → Nat

/-- Array store `a[i] = v`. -/
def write {α : Type} (a : Nat → α) (i : Nat) (v : α) : Nat → α :=
  fun j => if j = i then v else a j

/-- Store into the two-dimensional `display[x][y]`. -/
def write2 (d : Nat → Nat → Nat) (x y v : Nat) : Nat → Nat → Nat :=
  fun a b => if a = x ∧ b = y then v else d a b

/-- Conversion of an `int` to `size_t` (64 bits). -/
def toSizeT (n : Int) : Nat := (n % (2 : Int) ^ 64).toNat

/-- Truncation of an `int` result to `uint8_t`. -/
def toU8 (n : Int) : Nat := (n % 256).toNat

/-- Truncation of an `int` result to `uint16_t`. -/
def toU16 (n : Int) : Nat := (n % 65536).toNat

/-! ## Reset, font and program loading -/

/-- `CHIP8::ClearDisplay`: `memset(display, 0, sizeof(display))`. -/
def ClearDisplay (s : State) : State :=
  { s with display := fun x y =>
      if x < DISPLAY_WIDTH ∧ y < DISPLAY_HEIGHT then 0 else s.display x y }

/-- `CHIP8::Reset`. -/
def Reset (s : State) : State :=
  let s1 : State :=
    { s with
      memory := fun a => if PROGRAM_START ≤ a ∧ a < MEMORY_SIZE then 0 else s.memory a
      V := fun i => if i < 16 then 0 else s.V i
      I := 0
      PC := PROGRAM_START
      SP := 0
      delayTimer := 0
      soundTimer := 0
      keys := fun k => if k < 16 then false else s.keys k
      keyWaitState := KeyWaitState.NotWaiting }
  let s2 := ClearDisplay s1
  { s2 with tickTimeAccumulator := F32.zero, cyclesAccumulator := F32.zero }

/-- The table `fontData` of `CHIP8::LoadFont`. -/
def fontData : List Nat :=
  [0xF0, 0x90, 0x90, 0x90, 0xF0,
   0x20, 0x60, 0x20, 0x20, 0x70,
   0xF0, 0x10, 0xF0, 0x80, 0xF0,
   0xF0, 0x10, 0xF0, 0x10, 0xF0,
   0x90, 0x90, 0xF0, 0x10, 0x10,
   0xF0, 0x80, 0xF0, 0x10, 0xF0,
   0xF0, 0x80, 0xF0, 0x90, 0xF0,
   0xF0, 0x10, 0x20, 0x40, 0x40,
   0xF0, 0x90, 0xF0, 0x90, 0xF0,
   0xF0, 0x90, 0xF0, 0x10, 0xF0,
   0xF0, 0x90, 0xF0, 0x90, 0x90,
   0xE0, 0x90, 0xE0, 0x90, 0xE0,
   0xF0, 0x80, 0x80, 0x80, 0xF0,
   0xE0, 0x90, 0x90, 0x90, 0xE0,
   0xF0, 0x80, 0xF0, 0x80, 0xF0,
   0xF0, 0x80, 0xF0, 0x80, 0x80]

/-- `CHIP8::LoadFont`: `memcpy(memory, fontData, 5 * 16)`. -/
def LoadFont (s : State) : State :=
  { s with memory := fun a => if a < 5 * 16 then fontData.getD a 0 else s.memory a }

/-- The constructor `CHIP8::CHIP8`, run on the storage `s` of the new object;
seeding the C library random generator changes no member. -/
def construct (cyclesPerSecond : F32) (s : State) : State :=
  LoadFont (Reset { s with cyclesPerSecond := cyclesPerSecond })

/-- `CHIP8::LoadROM`.  `romData` is the buffer behind the pointer, by offset.
The comparison is made in `size_t`, as is the length handed to `memcpy`. -/
def LoadROM (romData : Nat → Nat) (romSize : Int) (s : State) : State :=
  if toSizeT romSize > MEMORY_SIZE - PROGRAM_START then s
  else
    let s1 := Reset s
    { s1 with memory := fun a =>
        if PROGRAM_START ≤ a ∧ a < PROGRAM_START + toSizeT romSize
        then romData (a - PROGRAM_START) else s1.memory a }

/-! ## Input -/

/-- `CHIP8::KeyPressed`; a `key` outside `keys[16]` is an out-of-bounds store. -/
def KeyPressed (key : Int) (s : State) : Option State :=
  if 0 ≤ key ∧ key < 16 then
    let s1 := { s with keys := write s.keys key.toNat true }
    match s1.keyWaitState with
    | KeyWaitState.Waiting =>
      some { s1 with keyWaitState := KeyWaitState.KeyRecieved, recievedKey := toU8 key }
    | _ => some s1
  else none

/-- `CHIP8::KeyReleased`; a `key` outside `keys[16]` is an out-of-bounds store. -/
def KeyReleased (key : Int) (s : State) : Option State :=
  if 0 ≤ key ∧ key < 16 then some { s with keys := write s.keys key.toNat false }
  else none

/-- `CHIP8::GetPixel`; coordinates outside the display are out of bounds. -/
def GetPixel (x y : Int) (s : State) : Option Bool :=
  if 0 ≤ x ∧ x < 64 ∧ 0 ≤ y ∧ y < 32 then some (s.display x.toNat y.toNat != 0)
  else none

/-- `CHIP8::TickTimers`. -/
def TickTimers (s : State) : State :=
  let s1 := if s.delayTimer > 0 then { s with delayTimer := s.delayTimer - 1 } else s
  if s1.soundTimer > 0 then { s1 with soundTimer := s1.soundTimer - 1 } else s1

/-! ## Opcodes -/

/-- `CHIP8::_0NNN`: does nothing. -/
def _0NNN (_inst : Nat) (s : State) : State := s

/-- `CHIP8::_00E0`. -/
def _00E0 (_inst : Nat) (s : State) : State := ClearDisplay s

/-- `CHIP8::_00EE`: `PC = stack[--SP]` unless `SP <= 0`. -/
def _00EE (_inst : Nat) (s : State) : Option State :=
  if s.SP ≤ 0 then some s
  else
    let sp := s.SP - 1
    if sp < STACK_MAX then some { s with SP := sp, PC := s.stack sp.toNat } else none

/-- `CHIP8::_1NNN`. -/
def _1NNN (inst : Nat) (s : State) : State :=
  let nnn := inst &&& 0xFFF
  { s with PC := nnn }

/-- `CHIP8::_2NNN`: `stack[SP++] = PC; PC = nnn` unless `SP >= STACK_MAX`. -/
def _2NNN (inst : Nat) (s : State) : Option State :=
  if s.SP ≥ STACK_MAX then some s
  else
    let nnn := inst &&& 0xFFF
    if 0 ≤ s.SP then
      some { s with stack := write s.stack s.SP.toNat s.PC, SP := s.SP + 1, PC := nnn }
    else none

/-- `CHIP8::_3XNN`. -/
def _3XNN (inst : Nat) (s : State) : State :=
  let x := (inst &&& 0x0F00) >>> 8
  let nn := inst &&& 0xFF
  if s.V x = nn then { s with PC := (s.PC + 2) % 65536 } else s

/-- `CHIP8::_4XNN`. -/
def _4XNN (inst : Nat) (s : State) : State :=
  let x := (inst &&& 0x0F00) >>> 8
  let nn := inst &&& 0xFF
  if s.V x ≠ nn then { s with PC := (s.PC + 2) % 65536 } else s

/-- `CHIP8::_5XY0`. -/
def _5XY0 (inst : Nat) (s : State) : State :=
  let x := (inst &&& 0x0F00) >>> 8
  let y := (inst &&& 0x00F0) >>> 4
  if s.V x = s.V y then { s with PC := (s.PC + 2) % 65536 } else s

/-- `CHIP8::_6XNN`. -/
def _6XNN (inst : Nat) (s : State) : State :=
  let x := (inst &&& 0x0F00) >>> 8
  let nn := inst &&& 0xFF
  { s with V := write s.V x nn }

/-- `CHIP8::_7XNN`. -/
def _7XNN (inst : Nat) (s : State) : State :=
  let x := (inst &&& 0x0F00) >>> 8
  let nn := inst &&& 0xFF
  { s with V := write s.V x ((s.V x + nn) % 256) }

/-- `CHIP8::_8XY0`. -/
def _8XY0 (inst : Nat) (s : State) : State :=
  let x := (inst &&& 0x0F00) >>> 8
  let y := (inst &&& 0x00F0) >>> 4
  { s with V := write s.V x (s.V y) }

/-- `CHIP8::_8XY1`. -/
def _8XY1 (inst : Nat) (s : State) : State :=
  let x := (inst &&& 0x0F00) >>> 8
  let y := (inst &&& 0x00F0) >>> 4
  { s with V := write s.V x (s.V x ||| s.V y) }

/-- `CHIP8::_8XY2`. -/
def _8XY2 (inst : Nat) (s : State) : State :=
  let x := (inst &&& 0x0F00) >>> 8
  let y := (inst &&& 0x00F0) >>> 4
  { s with V := write s.V x (s.V x &&& s.V y) }

/-- `CHIP8::_8XY3`. -/
def _8XY3 (inst : Nat) (s : State) : State :=
  let x := (inst &&& 0x0F00) >>> 8
  let y := (inst &&& 0x00F0) >>> 4
  { s with V := write s.V x (s.V x ^^^ s.V y) }

/-- `CHIP8::_8XY4`: `VF = (V[x] + V[y]) > 255; V[x] += V[y];`, where `VF` is
`V[15]`.  The second statement reads the registers after the first has stored
the flag. -/
def _8XY4 (inst : Nat) (s : State) : State :=
  let x := (inst &&& 0x0F00) >>> 8
  let y := (inst &&& 0x00F0) >>> 4
  let s1 := { s with V := write s.V 15 (if s.V x + s.V y > 255 then 1 else 0) }
  { s1 with V := write s1.V x ((s1.V x + s1.V y) % 256) }

/-- `CHIP8::_8XY5`: `VF = V[y] > V[x]; V[x] -= V[y];`. -/
def _8XY5 (inst : Nat) (s : State) : State :=
  let x := (inst &&& 0x0F00) >>> 8
  let y := (inst &&& 0x00F0) >>> 4
  let s1 := { s with V := write s.V 15 (if s.V y > s.V x then 1 else 0) }
  { s1 with V := write s1.V x (toU8 ((s1.V x : Int) - (s1.V y : Int))) }

/-- `CHIP8::_8XY6`: `VF = V[x] & 1; V[x] >>= 1;`. -/
def _8XY6 (inst : Nat) (s : State) : State :=
  let x := (inst &&& 0x0F00) >>> 8
  let s1 := { s with V := write s.V 15 (s.V x &&& 1) }
  { s1 with V := write s1.V x (s1.V x >>> 1) }

/-- `CHIP8::_8XY7`: `VF = V[x] > V[y]; V[x] = V[y] - V[x];`. -/
def _8XY7 (inst : Nat) (s : State) : State :=
  let x := (inst &&& 0x0F00) >>> 8
  let y := (inst &&& 0x00F0) >>> 4
  let s1 := { s with V := write s.V 15 (if s.V x > s.V y then 1 else 0) }
  { s1 with V := write s1.V x (toU8 ((s1.V y : Int) - (s1.V x : Int))) }

/-- `CHIP8::_8XYE`: `VF = V[x] & 0x80; V[x] <<= 1;`. -/
def _8XYE (inst : Nat) (s : State) : State :=
  let x := (inst &&& 0x0F00) >>> 8
  let s1 := { s with V := write s.V 15 (s.V x &&& 0x80) }
  { s1 with V := write s1.V x ((s1.V x <<< 1) % 256) }

/-- `CHIP8::_9XY0`. -/
def _9XY0 (inst : Nat) (s : State) : State :=
  let x := (inst &&& 0x0F00) >>> 8
  let y := (inst &&& 0x00F0) >>> 4
  if s.V x ≠ s.V y then { s with PC := (s.PC + 2) % 65536 } else s

/-- `CHIP8::_ANNN`. -/
def _ANNN (inst : Nat) (s : State) : State :=
  let nnn := inst &&& 0xFFF
  { s with I := nnn }

/-- `CHIP8::_BNNN`: `PC = V0 + nnn`, where `V0` is `V[0]`. -/
def _BNNN (inst : Nat) (s : State) : State :=
  let nnn := inst &&& 0xFFF
  { s with PC := (s.V 0 + nnn) % 65536 }

/-- `CHIP8::_CXNN`; `r` is the value `rand()` returns. -/
def _CXNN (r : Nat) (inst : Nat) (s : State) : State :=
  let x := (inst &&& 0x0F00) >>> 8
  let nn := inst &&& 0xFF
  { s with V := write s.V x ((r % 255) &&& nn) }

/-- Body of the inner loop of `CHIP8::_DXYN` for sprite column `j`, on screen
row `screenY`. -/
def drawPixel (x screenY spriteRow j : Nat) (s : State) : State :=
  let screenX := (s.V x + j) % 256
  if screenX ≥ DISPLAY_WIDTH then s
  else
    let spritePixel := spriteRow &&& (0x80 >>> j)
    if spritePixel ≠ 0 then
      let s1 := { s with V := write s.V 15 (s.V 15 ||| s.display screenX screenY) }
      { s1 with display :=
          write2 s1.display screenX screenY (if s1.display screenX screenY = 0 then 1 else 0) }
    else s

/-- The inner loop of `CHIP8::_DXYN`, `for (j = 0; j < k; ++j)`, by the number
of passes made. -/
def drawCols (x screenY spriteRow : Nat) : Nat → State → State
  | 0, s => s
  | k + 1, s => drawPixel x screenY spriteRow k (drawCols x screenY spriteRow k s)

/-- Body of the outer loop of `CHIP8::_DXYN` for sprite row `i`; the sprite
byte is read only for a row that is not skipped. -/
def drawRow (x y i : Nat) (s : State) : Option State :=
  let screenY := (s.V y + i) % 256
  if screenY ≥ DISPLAY_HEIGHT then some s
  else if s.I + i < MEMORY_SIZE then
    let spriteRow := s.memory (s.I + i)
    some (drawCols x screenY spriteRow 8 s)
  else none

/-- The outer loop of `CHIP8::_DXYN`, `for (i = 0; i < k; ++i)`, by the number
of passes made. -/
def drawRows (x y : Nat) : Nat → State → Option State
  | 0, s => some s
  | k + 1, s => (drawRows x y k s).bind (drawRow x y k)

/-- `CHIP8::_DXYN`. -/
def _DXYN (inst : Nat) (s : State) : Option State :=
  let x := (inst &&& 0x0F00) >>> 8
  let y := (inst &&& 0x00F0) >>> 4
  let n := inst &&& 0xF
  drawRows x y n { s with V := write s.V 15 0 }

/-- `CHIP8::_EX9E`. -/
def _EX9E (inst : Nat) (s : State) : State :=
  let x := (inst &&& 0x0F00) >>> 8
  if s.V x < 16 ∧ s.keys (s.V x) = true then { s with PC := (s.PC + 2) % 65536 } else s

/-- `CHIP8::_EXA1`. -/
def _EXA1 (inst : Nat) (s : State) : State :=
  let x := (inst &&& 0x0F00) >>> 8
  if s.V x < 16 ∧ s.keys (s.V x) = false then { s with PC := (s.PC + 2) % 65536 } else s

/-- `CHIP8::_FX07`. -/
def _FX07 (inst : Nat) (s : State) : State :=
  let x := (inst &&& 0x0F00) >>> 8
  { s with V := write s.V x s.delayTimer }

/-- `CHIP8::_FX0A`; the case `NotWaiting` falls through to `Waiting`. -/
def _FX0A (inst : Nat) (s : State) : State :=
  let x := (inst &&& 0x0F00) >>> 8
  match s.keyWaitState with
  | KeyWaitState.NotWaiting =>
    { s with keyWaitState := KeyWaitState.Waiting, PC := toU16 ((s.PC : Int) - 2) }
  | KeyWaitState.Waiting => { s with PC := toU16 ((s.PC : Int) - 2) }
  | KeyWaitState.KeyRecieved =>
    { s with V := write s.V x s.recievedKey, keyWaitState := KeyWaitState.NotWaiting }

/-- `CHIP8::_FX15`. -/
def _FX15 (inst : Nat) (s : State) : State :=
  let x := (inst &&& 0x0F00) >>> 8
  { s with delayTimer := s.V x }

/-- `CHIP8::_FX18`. -/
def _FX18 (inst : Nat) (s : State) : State :=
  let x := (inst &&& 0x0F00) >>> 8
  { s with soundTimer := s.V x }

/-- `CHIP8::_FX1E`. -/
def _FX1E (inst : Nat) (s : State) : State :=
  let x := (inst &&& 0x0F00) >>> 8
  { s with I := (s.I + s.V x) % 65536 }

/-- `CHIP8::_FX29`. -/
def _FX29 (inst : Nat) (s : State) : State :=
  let x := (inst &&& 0x0F00) >>> 8
  { s with I := (s.V x &&& 0xF) * 5 }

/-- `CHIP8::_FX33`. -/
def _FX33 (inst : Nat) (s : State) : Option State :=
  let x := (inst &&& 0x0F00) >>> 8
  let hundreds := (s.V x / 100) % 10
  let tens := (s.V x / 10) % 10
  let ones := s.V x % 10
  if s.I + 2 < MEMORY_SIZE then
    some { s with
      memory := write (write (write s.memory s.I hundreds) (s.I + 1) tens) (s.I + 2) ones }
  else none

/-- The loop of `CHIP8::_FX55`, `memory[I + i] = V[i]` for `i = 0 .. k - 1`. -/
def dumpRegs : Nat → State → Option State
  | 0, s => some s
  | k + 1, s => (dumpRegs k s).bind fun s1 =>
      if s1.I + k < MEMORY_SIZE then
        some { s1 with memory := write s1.memory (s1.I + k) (s1.V k) }
      else none

/-- `CHIP8::_FX55`: the loop runs while `i <= x`. -/
def _FX55 (inst : Nat) (s : State) : Option State :=
  let x := (inst &&& 0x0F00) >>> 8
  dumpRegs (x + 1) s

/-- The loop of `CHIP8::_FX65`, `V[i] = memory[I + i]` for `i = 0 .. k - 1`. -/
def loadRegs : Nat → State → Option State
  | 0, s => some s
  | k + 1, s => (loadRegs k s).bind fun s1 =>
      if s1.I + k < MEMORY_SIZE then
        some { s1 with V := write s1.V k (s1.memory (s1.I + k)) }
      else none

/-- `CHIP8::_FX65`: the loop runs while `i <= x`. -/
def _FX65 (inst : Nat) (s : State) : Option State :=
  let x := (inst &&& 0x0F00) >>> 8
  loadRegs (x + 1) s

/-- `CHIP8::InvalidOpcode`: prints a diagnostic and changes nothing. -/
def InvalidOpcode (_inst : Nat) (s : State) : State := s

/-! ## Decode and execute -/

/-- `CHIP8::DecodeAndExecute0`. -/
def DecodeAndExecute0 (inst : Nat) (s : State) : Option State :=
  let d := inst &&& 0xFF
  if d = 0xE0 then some (_00E0 inst s)
  else if d = 0xEE then _00EE inst s
  else some (_0NNN inst s)

/-- `CHIP8::DecodeAndExecute8`. -/
def DecodeAndExecute8 (inst : Nat) (s : State) : Option State :=
  let d := inst &&& 0xF
  if d = 0x0 then some (_8XY0 inst s)
  else if d = 0x1 then some (_8XY1 inst s)
  else if d = 0x2 then some (_8XY2 inst s)
  else if d = 0x3 then some (_8XY3 inst s)
  else if d = 0x4 then some (_8XY4 inst s)
  else if d = 0x5 then some (_8XY5 inst s)
  else if d = 0x6 then some (_8XY6 inst s)
  else if d = 0x7 then some (_8XY7 inst s)
  else if d = 0xE then some (_8XYE inst s)
  else some (InvalidOpcode inst s)

/-- `CHIP8::DecodeAndExecuteE`. -/
def DecodeAndExecuteE (inst : Nat) (s : State) : Option State :=
  let d := inst &&& 0xFF
  if d = 0x9E then some (_EX9E inst s)
  else if d = 0xA1 then some (_EXA1 inst s)
  else some (InvalidOpcode inst s)

/-- `CHIP8::DecodeAndExecuteF`. -/
def DecodeAndExecuteF (inst : Nat) (s : State) : Option State :=
  let d := inst &&& 0xFF
  if d = 0x07 then some (_FX07 inst s)
  else if d = 0x0A then some (_FX0A inst s)
  else if d = 0x15 then some (_FX15 inst s)
  else if d = 0x18 then some (_FX18 inst s)
  else if d = 0x1E then some (_FX1E inst s)
  else if d = 0x29 then some (_FX29 inst s)
  else if d = 0x33 then _FX33 inst s
  else if d = 0x55 then _FX55 inst s
  else if d = 0x65 then _FX65 inst s
  else some (InvalidOpcode inst s)

/-- `CHIP8::DecodeAndExecute`; `r` is the value `rand()` returns if the
instruction calls it. -/
def DecodeAndExecute (r : Nat) (inst : Nat) (s : State) : Option State :=
  let op := (inst &&& 0xF000) >>> 12
  if op = 0x0 then DecodeAndExecute0 inst s
  else if op = 0x1 then some (_1NNN inst s)
  else if op = 0x2 then _2NNN inst s
  else if op = 0x3 then some (_3XNN inst s)
  else if op = 0x4 then some (_4XNN inst s)
  else if op = 0x5 then some (_5XY0 inst s)
  else if op = 0x6 then some (_6XNN inst s)
  else if op = 0x7 then some (_7XNN inst s)
  else if op = 0x8 then DecodeAndExecute8 inst s
  else if op = 0x9 then some (_9XY0 inst s)
  else if op = 0xA then some (_ANNN inst s)
  else if op = 0xB then some (_BNNN inst s)
  else if op = 0xC then some (_CXNN r inst s)
  else if op = 0xD then _DXYN inst s
  else if op = 0xE then DecodeAndExecuteE inst s
  else if op = 0xF then DecodeAndExecuteF inst s
  else some s

/-- `CHIP8::ExecuteNextInstruction`: one cycle.  The two instruction bytes are
read at `memory[PC]` and `memory[PC + 1]`. -/
def ExecuteNextInstruction (r : Nat) (s : State) : Option State :=
  if s.PC + 1 < MEMORY_SIZE then
    let inst := ((s.memory s.PC <<< 8) ||| s.memory (s.PC + 1)) % 65536
    DecodeAndExecute r inst { s with PC := (s.PC + 2) % 65536 }
  else none

/-! ## Concrete machines used as test inputs -/

/-- Storage with every byte zero. -/
def zeroState : State :=
  { cyclesPerSecond := F32.zero
    tickTimeAccumulator := F32.zero
    cyclesAccumulator := F32.zero
    memory := fun _ => 0
    V := fun _ => 0
    I := 0
    PC := 0
    stack := fun _ => 0
    SP := 0
    delayTimer := 0
    soundTimer := 0
    keys := fun _ => false
    recievedKey := 0
    keyWaitState := KeyWaitState.NotWaiting
    display := fun _ _ => 0 }

/-- A machine as the constructor leaves it, with the default `cyclesPerSecond`
of `1000` (bit pattern `0x447A0000`). -/
def powerOn : State := construct ⟨0x447A0000⟩ zeroState

/-- A buffer holding the bytes of a list, by offset. -/
def romOfList (l : List Nat) : Nat → Nat := fun i => l.getD i 0

/-- The machine after a program given as a list of bytes is loaded into a
fresh machine. -/
def loaded (l : List Nat) : State := LoadROM (romOfList l) l.length powerOn

/-- A machine whose registers `V[a]` and `V[b]` hold `va` and `vb`. -/
def withRegs (a va b vb : Nat) : State :=
  { powerOn with V := write (write powerOn.V a va) b vb }

/-- A machine with a one-byte program `0xFF` loaded, `I` pointing at that byte
and `V[0] = vx`, `V[1] = vy`: the sprite is one row of eight set pixels. -/
def spriteState (vx vy : Nat) : State :=
  { loaded [0xFF] with
    V := write (write (loaded [0xFF]).V 0 vx) 1 vy
    I := 0x200 }

/-- A freshly loaded machine whose stack has been filled: `SP = 128`. -/
def fullStack (l : List Nat) : State := { loaded l with SP := 128 }

/-! ## Vocabulary of the statements -/

/-- The state after a draw: only `V[15]` and the display differ. -/
def setDraw (s : State) (vf : Nat) (d : Nat → Nat → Nat) : State :=
  { s with V := write s.V 15 vf, display := d }

/-- The value `!v` of a display cell. -/
def flipPix (v : Nat) : Nat := if v = 0 then 1 else 0

/-- Column `px` is reached by one of the first `k` bits of sprite row `r` drawn
from column register value `vx`. -/
def colHit (vx r k px : Nat) : Prop :=
  ∃ j, j < k ∧ (vx + j) % 256 = px ∧ px < 64 ∧ r &&& (0x80 >>> j) ≠ 0

/-- Pixel `(px, py)` is reached by a set bit of one of the first `k` rows of
the sprite at `mem[i0 ..]` drawn from register values `(vx, vy)`. -/
def spriteHit (mem : Nat → Nat) (i0 vx vy k px py : Nat) : Prop :=
  ∃ i, i < k ∧ (vy + i) % 256 = py ∧ py < 32 ∧ colHit vx (mem (i0 + i)) 8 px

/-- Every display cell holds 0 or 1, as after `ClearDisplay` and after every
draw. -/
def DisplayBool (d : Nat → Nat → Nat) : Prop :=
  ∀ px py, px < 64 → py < 32 → d px py ≤ 1

/-- A call the host makes on the machine: one instruction cycle (with the value
`rand()` would return in it), a key press or a key release. -/
inductive HostCall where
  | cycle (r : Nat)
  | pressed (key : Int)
  | released (key : Int)

/-- The effect of one host call. -/
def HostCall.apply : HostCall → State → Option State
  | HostCall.cycle r, s => ExecuteNextInstruction r s
  | HostCall.pressed key, s => KeyPressed key s
  | HostCall.released key, s => KeyReleased key s

/-- The effect of a sequence of host calls, first call first. -/
def runCalls : List HostCall → State → Option State
  | [], s => some s
  | c :: cs, s => (c.apply s).bind (runCalls cs)

/-- A call that is a cycle or the release of a key 0..15. -/
def HostCall.noPress : HostCall → Prop
  | HostCall.cycle _ => True
  | HostCall.pressed _ => False
  | HostCall.released key => 0 ≤ key ∧ key < 16

/-- A call that is the press or the release of a key 0..15. -/
def HostCall.keyOnly : HostCall → Prop
  | HostCall.cycle _ => False
  | HostCall.pressed key => 0 ≤ key ∧ key < 16
  | HostCall.released key => 0 ≤ key ∧ key < 16

/-- The machine is about to fetch the instruction `FX0A` at address `p`. -/
def AtKeyWait (X p : Nat) (s : State) : Prop :=
  s.PC = p ∧ s.memory p = 0xF0 + X ∧ s.memory (p + 1) = 0x0A

/-- A freshly loaded machine whose program is the key instruction `E0nn` and
whose `V[0]` holds `v`. -/
def keyProbe (nn v : Nat) : State :=
  { loaded [0xE0, nn] with V := write (loaded [0xE0, nn]).V 0 v }

/-- The standard CHIP-8 hexadecimal font: the five rows of the 4×5 glyph of
digit `d`, one byte per row, the pixels in the high nibble. -/
def canonicalGlyph : Nat → List Nat
  | 0x0 => [0xF0, 0x90, 0x90, 0x90, 0xF0]
  | 0x1 => [0x20, 0x60, 0x20, 0x20, 0x70]
  | 0x2 => [0xF0, 0x10, 0xF0, 0x80, 0xF0]
  | 0x3 => [0xF0, 0x10, 0xF0, 0x10, 0xF0]
  | 0x4 => [0x90, 0x90, 0xF0, 0x10, 0x10]
  | 0x5 => [0xF0, 0x80, 0xF0, 0x10, 0xF0]
  | 0x6 => [0xF0, 0x80, 0xF0, 0x90, 0xF0]
  | 0x7 => [0xF0, 0x10, 0x20, 0x40, 0x40]
  | 0x8 => [0xF0, 0x90, 0xF0, 0x90, 0xF0]
  | 0x9 => [0xF0, 0x90, 0xF0, 0x10, 0xF0]
  | 0xA => [0xF0, 0x90, 0xF0, 0x90, 0x90]
  | 0xB => [0xE0, 0x90, 0xE0, 0x90, 0xE0]
  | 0xC => [0xF0, 0x80, 0x80, 0x80, 0xF0]
  | 0xD => [0xE0, 0x90, 0x90, 0x90, 0xE0]
  | 0xE => [0xF0, 0x80, 0xF0, 0x80, 0xF0]
  | 0xF => [0xF0, 0x80, 0xF0, 0x80, 0x80]
  | _ => []

/-- A freshly loaded machine with `V[a] = va` and `I = i`. -/
def withRegI (a va i : Nat) : State :=
  { powerOn with V := write powerOn.V a va, I := i }

/-- An instruction word of a sub-dispatch group `8XYn`, `EXnn` or `FXnn`
whose low-order field is none of the codes listed for the group. -/
def InvalidWord (inst : Nat) : Prop :=
  (inst / 4096 = 0x8 ∧ inst % 16 ∈ [0x8, 0x9, 0xA, 0xB, 0xC, 0xD, 0xF]) ∨
  (inst / 4096 = 0xE ∧ inst % 256 ∉ [0x9E, 0xA1]) ∨
  (inst / 4096 = 0xF ∧ inst % 256 ∉ [0x07, 0x0A, 0x15, 0x18, 0x1E, 0x29, 0x33, 0x55, 0x65])

/-- A freshly loaded machine on which the program `A100 6007 F055` has run:
it has stored `V[0] = 7` at address `0x100`. -/
def afterLowWrite : Option State :=
  ((ExecuteNextInstruction 0 (loaded [0xA1, 0x00, 0x60, 0x07, 0xF0, 0x55])).bind
    (ExecuteNextInstruction 0)).bind (ExecuteNextInstruction 0)

/-- A freshly loaded machine on which the first five instructions of the
program `AFFF 60FF F01E 6116 F11E F055` have run: `I` is
`0xFFF + 0xFF + 0x16 = 0x1114`, past the end of `memory`, and `V[0]` is `0xFF`. -/
def afterIndexAdds : Option State :=
  ((((ExecuteNextInstruction 0
    (loaded [0xAF, 0xFF, 0x60, 0xFF, 0xF0, 0x1E, 0x61, 0x16, 0xF1, 0x1E, 0xF0, 0x55])).bind
    (ExecuteNextInstruction 0)).bind (ExecuteNextInstruction 0)).bind
    (ExecuteNextInstruction 0)).bind (ExecuteNextInstruction 0)

/-- The stack index lies in `[0, STACK_MAX]`. -/
def StackOk (s : State) : Prop := 0 ≤ s.SP ∧ s.SP ≤ 128

/-- The members owned by the timing driver are the same in `t` as in `s`. -/
def Timing (s t : State) : Prop :=
  t.cyclesPerSecond = s.cyclesPerSecond ∧ t.tickTimeAccumulator = s.tickTimeAccumulator ∧
  t.cyclesAccumulator = s.cyclesAccumulator

/-- The stack index and the timing members are the same in `t` as in `s`. -/
def Kept (s t : State) : Prop := t.SP = s.SP ∧ Timing s t

/-! ## Binary32 arithmetic

The `float` operations the timing driver uses, on finite values: every
operation is the exact result rounded to the nearest binary32 value, ties to
even (IEEE-754 default rounding, each `float` expression evaluated in
binary32).  An operand or a result that is an infinity or a NaN is outside
this model: the operation then yields `none`. -/

/-- The sign bit. -/
def F32.sign (x : F32) : Bool := x.bits / 2 ^ 31 % 2 == 1

/-- The biased exponent field. -/
def F32.expField (x : F32) : Nat := x.bits / 2 ^ 23 % 256

/-- The fraction field. -/
def F32.fracField (x : F32) : Nat := x.bits % 2 ^ 23

/-- A 32-bit pattern that is neither an infinity nor a NaN. -/
def F32.isFinite (x : F32) : Bool := decide (x.bits < 2 ^ 32) && decide (x.expField < 255)

/-- The significand as an integer: the value of a finite `x` is
`± mant x * 2 ^ expo x`. -/
def F32.mant (x : F32) : Nat :=
  if x.expField = 0 then x.fracField else 2 ^ 23 + x.fracField

/-- The exponent of the unit in the last place. -/
def F32.expo (x : F32) : Int :=
  if x.expField = 0 then -149 else (x.expField : Int) - 150

/-- The signed significand. -/
def F32.signedMant (x : F32) : Int :=
  if x.sign then -(x.mant : Int) else (x.mant : Int)

/-- A zero of the given sign. -/
def F32.signedZero (neg : Bool) : F32 := ⟨if neg then 2 ^ 31 else 0⟩

/-- The number of binary digits of `m`, searched with at most `fuel` halvings. -/
def bitLengthAux : Nat → Nat → Nat
  | 0, _ => 0
  | fuel + 1, m => if m = 0 then 0 else bitLengthAux fuel (m / 2) + 1

/-- The number of binary digits of `m`: `2 ^ (bitLength m - 1) ≤ m < 2 ^ bitLength m`
for `m > 0`. -/
def bitLength (m : Nat) : Nat := bitLengthAux m m

/-- The bits, sign apart, of the binary32 value nearest to `m * 2 ^ e` for
`m > 0`, ties to even.  `q` is the exponent of the unit in the last place of
the result; a carry out of the significand moves into the exponent field. -/
def F32.roundBits (m : Nat) (e : Int) : Nat :=
  let q : Int := max ((bitLength m : Int) + e - 24) (-149)
  let M : Nat :=
    if q ≤ e then m * 2 ^ (e - q).toNat
    else
      let sh := (q - e).toNat
      let M0 := m / 2 ^ sh
      let rest := m % 2 ^ sh
      let half := 2 ^ (sh - 1)
      if rest > half ∨ (rest = half ∧ M0 % 2 = 1) then M0 + 1 else M0
  (q + 149).toNat * 2 ^ 23 + M

/-- The binary32 value nearest to `± m * 2 ^ e`; `none` when it rounds to an
infinity. -/
def F32.ofDyadic (neg : Bool) (m : Nat) (e : Int) : Option F32 :=
  if m = 0 then some (F32.signedZero neg)
  else
    let b := F32.roundBits m e
    if b < 255 * 2 ^ 23 then some ⟨(if neg then 2 ^ 31 else 0) + b⟩ else none

/-- Addition `a + b`. -/
def F32.add (a b : F32) : Option F32 :=
  if a.isFinite && b.isFinite then
    let e := min a.expo b.expo
    let v : Int :=
      a.signedMant * 2 ^ (a.expo - e).toNat + b.signedMant * 2 ^ (b.expo - e).toNat
    if v = 0 then some (F32.signedZero (a.sign && b.sign))
    else F32.ofDyadic (decide (v < 0)) v.natAbs e
  else none

/-- Negation: the sign bit flipped. -/
def F32.neg (x : F32) : F32 :=
  ⟨if x.sign then x.bits - 2 ^ 31 else x.bits + 2 ^ 31⟩

/-- Subtraction `a - b`. -/
def F32.sub (a b : F32) : Option F32 := F32.add a (F32.neg b)

/-- Multiplication `a * b`. -/
def F32.mul (a b : F32) : Option F32 :=
  if a.isFinite && b.isFinite then
    F32.ofDyadic (xor a.sign b.sign) (a.mant * b.mant) (a.expo + b.expo)
  else none

/-- Comparison `a > b`. -/
def F32.gt (a b : F32) : Option Bool :=
  if a.isFinite && b.isFinite then
    let e := min a.expo b.expo
    some (decide (a.signedMant * 2 ^ (a.expo - e).toNat > b.signedMant * 2 ^ (b.expo - e).toNat))
  else none

/-- Conversion of a `float` to `int`: the value truncated towards zero; a value
that does not fit an `int` has no defined conversion. -/
def F32.toInt (x : F32) : Option Int :=
  if x.isFinite then
    let n : Nat := if 0 ≤ x.expo then x.mant * 2 ^ x.expo.toNat else x.mant / 2 ^ (-x.expo).toNat
    let v : Int := if x.sign then -(n : Int) else (n : Int)
    if -(2 : Int) ^ 31 ≤ v ∧ v < (2 : Int) ^ 31 then some v else none
  else none

/-- Conversion of an `int` to `float`. -/
def F32.ofInt (n : Int) : Option F32 := F32.ofDyadic (decide (n < 0)) n.natAbs 0

/-! ## Timing driver -/

/-- The constant `tickInterval` of `CHIP8::Advance`: the `double` quotient
`1 / 60.0` narrowed to `float`, the binary32 value `0x3C888889`. -/
def tickInterval : F32 := ⟨0x3C888889⟩

/-- The inner loop of `CHIP8::Advance`, `for (i = 0; i < n; ++i)
ExecuteNextInstruction()`, by the number of passes made; `rnd i` is the value
`rand()` returns in pass `i`. -/
def runCycles (rnd : Nat → Nat) : Nat → State → Option State
  | 0, s => some s
  | n + 1, s => (runCycles rnd n s).bind (ExecuteNextInstruction (rnd n))

/-- The body of the tick loop of `CHIP8::Advance`: `TickTimers()`, then
`cyclesAccumulator += cyclesPerTick; int cycleCount = cyclesAccumulator;
cyclesAccumulator -= cycleCount;` and `cycleCount` cycles (none when
`cycleCount` is negative). -/
def advanceBody (cyclesPerTick : F32) (rnd : Nat → Nat) (s : State) : Option State :=
  let s1 := TickTimers s
  (F32.add s1.cyclesAccumulator cyclesPerTick).bind fun c1 =>
  (F32.toInt c1).bind fun cycleCount =>
  (F32.ofInt cycleCount).bind fun fc =>
  (F32.sub c1 fc).bind fun c2 =>
  runCycles rnd cycleCount.toNat { s1 with cyclesAccumulator := c2 }

/-- The tick loop of `CHIP8::Advance`,
`for (; tickTimeAccumulator > tickInterval; tickTimeAccumulator -= tickInterval)`.
`fuel` bounds the number of times the condition is evaluated: the loop does
not end for every accumulator, and `none` is the result when the bound is
reached.  `rnd fuel` gives the values of `rand()` in one pass. -/
def advanceLoop (cyclesPerTick : F32) (rnd : Nat → Nat → Nat) : Nat → State → Option State
  | 0, _ => none
  | fuel + 1, s =>
    match F32.gt s.tickTimeAccumulator tickInterval with
    | none => none
    | some false => some s
    | some true =>
      (advanceBody cyclesPerTick (rnd fuel) s).bind fun s1 =>
      (F32.sub s1.tickTimeAccumulator tickInterval).bind fun a =>
      advanceLoop cyclesPerTick rnd fuel { s1 with tickTimeAccumulator := a }

/-- `CHIP8::Advance`. -/
def Advance (fuel : Nat) (rnd : Nat → Nat → Nat) (dt : F32) (s : State) : Option State :=
  (F32.mul s.cyclesPerSecond tickInterval).bind fun cyclesPerTick =>
  (F32.add s.tickTimeAccumulator dt).bind fun a =>
  advanceLoop cyclesPerTick rnd fuel { s with tickTimeAccumulator := a }

/-- The host calling `Advance(dt)` `k` times in a row; `rnd j` gives the
values of `rand()` in call `j`. -/
def AdvanceRepeat (fuel : Nat) (rnd : Nat → Nat → Nat → Nat) (dt : F32) :
    Nat → State → Option State
  | 0, s => some s
  | k + 1, s => (AdvanceRepeat fuel rnd dt k s).bind (Advance fuel (rnd k) dt)

/-- A machine with `cyclesPerSecond = 600` (`0x44160000`), an empty program
(every instruction fetched from `0x200` on is the no-op `0000`) and the timers
at 200 and 30. -/
def timed : State :=
  { loaded [] with cyclesPerSecond := ⟨0x44160000⟩, delayTimer := 200, soundTimer := 30 }

/-- One pass of the tick loop as the arithmetic of the driver decides it: the
number of cycles run after the tick and the two accumulators as the pass
leaves them. -/
structure TickPass where
  cycles : Nat
  cyclesAccumulator : F32
  tickTimeAccumulator : F32
deriving DecidableEq

/-- The passes the tick loop makes from given accumulators: the arithmetic of
`advanceLoop` and `advanceBody` without the machine. -/
def tickPlan (cyclesPerTick : F32) : Nat → F32 → F32 → Option (List TickPass)
  | 0, _, _ => none
  | fuel + 1, acc, cyc =>
    match F32.gt acc tickInterval with
    | none => none
    | some false => some []
    | some true =>
      (F32.add cyc cyclesPerTick).bind fun c1 =>
      (F32.toInt c1).bind fun cycleCount =>
      (F32.ofInt cycleCount).bind fun fc =>
      (F32.sub c1 fc).bind fun c2 =>
      (F32.sub acc tickInterval).bind fun a =>
      (tickPlan cyclesPerTick fuel a c2).map fun l => ⟨cycleCount.toNat, c2, a⟩ :: l

/-- The machine run that a list of passes describes: for each pass one
`TickTimers`, then its cycles, with the accumulators set as the pass says. -/
def runPlan (rnd : Nat → Nat → Nat) : Nat → List TickPass → State → Option State
  | _, [], s => some s
  | fuel, p :: l, s =>
    (runCycles (rnd (fuel - 1)) p.cycles
      { TickTimers s with cyclesAccumulator := p.cyclesAccumulator }).bind fun t =>
    runPlan rnd (fuel - 1) l { t with tickTimeAccumulator := p.tickTimeAccumulator }

/-- The accumulators after a list of passes. -/
def planEnd (acc cyc : F32) : List TickPass → F32 × F32
  | [] => (acc, cyc)
  | p :: l => planEnd p.tickTimeAccumulator p.cyclesAccumulator l

/-- The passes one call `Advance(dt)` makes, and the accumulators it leaves. -/
def advancePlan (fuel : Nat) (cps acc cyc dt : F32) : Option (List TickPass × F32 × F32) :=
  (F32.mul cps tickInterval).bind fun cyclesPerTick =>
  (F32.add acc dt).bind fun a =>
  (tickPlan cyclesPerTick fuel a cyc).map fun l => (l, planEnd a cyc l)

/-- The accumulators after `k` calls `Advance(dt)`. -/
def repeatAcc (fuel : Nat) (cps dt acc cyc : F32) : Nat → Option (F32 × F32)
  | 0 => some (acc, cyc)
  | k + 1 => (repeatAcc fuel cps dt acc cyc k).bind fun ac =>
      (advancePlan fuel cps ac.1 ac.2 dt).map fun r => r.2

/-! ## Program loading -/

theorem toSizeT_of_nonneg (n : Int) (h0 : 0 ≤ n) (h1 : n < (2 : Int) ^ 64) :
    toSizeT n = n.toNat := by
  unfold toSizeT
  rw [Int.emod_eq_of_lt h0 h1]

/-- C1: `LoadROM` performs the load (a full `Reset`, then the copy of the
`romSize` bytes to `memory + 0x200`) for every length from `0` to `3584`, and
returns with every member of the machine unchanged for every length above
`3584`. -/
theorem LoadROM_loads_iff_fits (romData : Nat → Nat) (romSize : Int) (s : State)
    (hlo : 0 ≤ romSize) (hhi : romSize < (2 : Int) ^ 31) :
    (romSize ≤ 3584 →
      LoadROM romData romSize s =
        { Reset s with memory := fun a =>
            if 512 ≤ a ∧ a < 512 + romSize.toNat then romData (a - 512)
            else (Reset s).memory a }) ∧
    (3584 < romSize → LoadROM romData romSize s = s) := by
  have hsz : toSizeT romSize = romSize.toNat :=
    toSizeT_of_nonneg romSize hlo (lt_trans hhi (by norm_num))
  constructor
  · intro h
    have : ¬ romSize.toNat > 3584 := by omega
    simp [LoadROM, hsz, MEMORY_SIZE, PROGRAM_START, this]
  · intro h
    have : romSize.toNat > 3584 := by omega
    simp [LoadROM, hsz, MEMORY_SIZE, PROGRAM_START, this]

/-- Witness of C1 on a fresh machine: a program of exactly 3584 bytes is
loaded, one of 3585 bytes leaves the machine as it was. -/
theorem LoadROM_loads_iff_fits_witness :
    ((0 : Int) ≤ 3584 ∧ (3584 : Int) < (2 : Int) ^ 31 ∧ (3584 : Int) ≤ 3584 ∧
      LoadROM (romOfList [0x12, 0x00]) 3584 powerOn =
        { Reset powerOn with memory := fun a =>
            if 512 ≤ a ∧ a < 512 + (3584 : Int).toNat then romOfList [0x12, 0x00] (a - 512)
            else (Reset powerOn).memory a }) ∧
    ((3584 : Int) < 3585 ∧ LoadROM (romOfList [0x12, 0x00]) 3585 powerOn = powerOn) :=
  ⟨⟨by norm_num, by norm_num, by norm_num,
    (LoadROM_loads_iff_fits (romOfList [0x12, 0x00]) 3584 powerOn
      (by norm_num) (by norm_num)).1 (by norm_num)⟩,
   ⟨by norm_num,
    (LoadROM_loads_iff_fits (romOfList [0x12, 0x00]) 3585 powerOn
      (by norm_num) (by norm_num)).2 (by norm_num)⟩⟩

/-- C2: after `LoadROM` of a program of `romSize ≤ 3584` bytes the program is
in memory from `0x200` on and the machine is reset: `PC = 0x200`, `I = 0`,
the sixteen registers are 0, `SP = 0`, both timers are 0, the sixteen keys are
released, the key-wait state is `NotWaiting`, every pixel is off and both
timing accumulators are `0.0`. -/
theorem LoadROM_state (romData : Nat → Nat) (romSize : Int) (s : State)
    (hlo : 0 ≤ romSize) (hhi : romSize ≤ 3584) :
    (∀ i : Nat, (i : Int) < romSize →
      (LoadROM romData romSize s).memory (0x200 + i) = romData i) ∧
    (LoadROM romData romSize s).PC = 0x200 ∧
    (LoadROM romData romSize s).I = 0 ∧
    (∀ i : Nat, i < 16 → (LoadROM romData romSize s).V i = 0) ∧
    (LoadROM romData romSize s).SP = 0 ∧
    (LoadROM romData romSize s).delayTimer = 0 ∧
    (LoadROM romData romSize s).soundTimer = 0 ∧
    (∀ k : Nat, k < 16 → (LoadROM romData romSize s).keys k = false) ∧
    (LoadROM romData romSize s).keyWaitState = KeyWaitState.NotWaiting ∧
    (∀ x y : Nat, x < 64 → y < 32 → (LoadROM romData romSize s).display x y = 0) ∧
    (LoadROM romData romSize s).tickTimeAccumulator = F32.zero ∧
    (LoadROM romData romSize s).cyclesAccumulator = F32.zero := by
  have hsz : toSizeT romSize = romSize.toNat :=
    toSizeT_of_nonneg romSize hlo (by omega)
  have hfit : ¬ romSize.toNat > 3584 := by omega
  simp only [LoadROM, hsz, MEMORY_SIZE, PROGRAM_START, Reset, ClearDisplay,
    DISPLAY_WIDTH, DISPLAY_HEIGHT]
  simp only [show (4096 - 512 : Nat) = 3584 from rfl, hfit, if_false]
  refine ⟨?_, trivial, trivial, ?_, trivial, trivial, trivial, ?_, trivial, ?_, trivial, trivial⟩
  · intro i hi
    have : 512 ≤ 0x200 + i ∧ 0x200 + i < 512 + romSize.toNat := by omega
    simp [this]
  · intro i hi
    simp [hi]
  · intro k hk
    simp [hk]
  · intro x y hx hy
    simp [hx, hy]

/-- Witness of C2: a two-byte program loaded into a fresh machine. -/
theorem LoadROM_state_witness :
    (loaded [0x12, 0x00]).memory 0x200 = 0x12 ∧ (loaded [0x12, 0x00]).memory 0x201 = 0x00 ∧
    (loaded [0x12, 0x00]).PC = 0x200 ∧ (loaded [0x12, 0x00]).V 3 = 0 := by
  have h := LoadROM_state (romOfList [0x12, 0x00]) 2 powerOn (by norm_num) (by norm_num)
  exact ⟨h.1 0 (by norm_num), h.1 1 (by norm_num), h.2.1, h.2.2.2.1 3 (by norm_num)⟩

/-! ## Instruction fields -/

theorem and_shiftLeft_shiftRight (a m k : Nat) : (a &&& (m <<< k)) >>> k = (a >>> k) &&& m := by
  apply Nat.eq_of_testBit_eq
  intro i
  simp [Nat.testBit_shiftRight, Nat.testBit_shiftLeft, Nat.testBit_and]

theorem field_op (inst : Nat) : (inst &&& 0xF000) >>> 12 = inst / 4096 % 16 := by
  have h := and_shiftLeft_shiftRight inst 15 12
  rw [show (15 <<< 12 : Nat) = 0xF000 from by decide] at h
  rw [h, Nat.shiftRight_eq_div_pow]
  exact Nat.and_pow_two_sub_one_eq_mod _ 4

theorem field_x (inst : Nat) : (inst &&& 0x0F00) >>> 8 = inst / 256 % 16 := by
  have h := and_shiftLeft_shiftRight inst 15 8
  rw [show (15 <<< 8 : Nat) = 0x0F00 from by decide] at h
  rw [h, Nat.shiftRight_eq_div_pow]
  exact Nat.and_pow_two_sub_one_eq_mod _ 4

theorem field_y (inst : Nat) : (inst &&& 0x00F0) >>> 4 = inst / 16 % 16 := by
  have h := and_shiftLeft_shiftRight inst 15 4
  rw [show (15 <<< 4 : Nat) = 0x00F0 from by decide] at h
  rw [h, Nat.shiftRight_eq_div_pow]
  exact Nat.and_pow_two_sub_one_eq_mod _ 4

theorem field_n (inst : Nat) : inst &&& 0xF = inst % 16 :=
  Nat.and_pow_two_sub_one_eq_mod _ 4

theorem field_nn (inst : Nat) : inst &&& 0xFF = inst % 256 :=
  Nat.and_pow_two_sub_one_eq_mod _ 8

theorem field_nnn (inst : Nat) : inst &&& 0xFFF = inst % 4096 :=
  Nat.and_pow_two_sub_one_eq_mod _ 12

/-! ## Arithmetic with flags -/

/-- C3, as the code has it: for `X` in 0..14 and `Y` in 0..15 the instruction
`8XY4` stores the carry of `V[X] + V[Y]` in `V[15]`, and for `Y` in 0..14 it
leaves `V[X]` equal to the sum of the two old values modulo 256. -/
theorem add_8XY4 (r X Y : Nat) (s : State) (hX : X ≤ 14) (hY : Y ≤ 15) :
    ∃ t, DecodeAndExecute r (0x8004 + 0x100 * X + 0x10 * Y) s = some t ∧
      t.V 15 = (if s.V X + s.V Y > 255 then 1 else 0) ∧
      (Y ≤ 14 → t.V X = (s.V X + s.V Y) % 256) := by
  have hop : ((0x8004 + 0x100 * X + 0x10 * Y) &&& 0xF000) >>> 12 = 8 := by
    rw [field_op]; omega
  have hn : (0x8004 + 0x100 * X + 0x10 * Y) &&& 0xF = 4 := by
    rw [field_n]; omega
  have hx : ((0x8004 + 0x100 * X + 0x10 * Y) &&& 0x0F00) >>> 8 = X := by
    rw [field_x]; omega
  have hy : ((0x8004 + 0x100 * X + 0x10 * Y) &&& 0x00F0) >>> 4 = Y := by
    rw [field_y]; omega
  refine ⟨_8XY4 (0x8004 + 0x100 * X + 0x10 * Y) s, ?_, ?_, ?_⟩
  · simp [DecodeAndExecute, DecodeAndExecute8, hop, hn]
  · have h15 : (15 : Nat) ≠ X := by omega
    simp [_8XY4, hx, hy, write, h15]
  · intro hY14
    have hX15 : X ≠ 15 := by omega
    have hY15 : Y ≠ 15 := by omega
    simp [_8XY4, hx, hy, write, hX15, hY15]

/-- Witness of C3: `200 + 100` in `V[0]` and `V[1]` gives 44 with carry 1. -/
theorem add_8XY4_witness :
    ∃ t, DecodeAndExecute 0 0x8014 (withRegs 0 200 1 100) = some t ∧
      t.V 15 = 1 ∧ t.V 0 = 44 := by
  obtain ⟨t, h1, h2, h3⟩ :=
    add_8XY4 0 0 1 (withRegs 0 200 1 100) (by decide) (by decide)
  exact ⟨t, h1, by rw [h2]; decide, by rw [h3 (by decide)]; decide⟩

/-- C3 as stated fails for `Y = 15`: with `V[0] = 200` and `V[15] = 100` the
instruction `80F4` leaves `V[0] = 201`, the old `V[0]` plus the carry just
stored in `V[15]`, and not `(200 + 100) mod 256 = 44`. -/
theorem add_8XY4_flag_operand :
    (_8XY4 0x80F4 (withRegs 0 200 15 100)).V 0 = 201 ∧
    DecodeAndExecute 0 0x80F4 (withRegs 0 200 15 100) =
      some (_8XY4 0x80F4 (withRegs 0 200 15 100)) ∧
    ((withRegs 0 200 15 100).V 0 + (withRegs 0 200 15 100).V 15) % 256 = 44 := by
  refine ⟨by decide, by rfl, by decide⟩

/-- Evaluation for C4: `10 - 3` by `8015` leaves `V[0] = 7` and the flag
`V[15] = 0`, because the flag is computed as `V[y] > V[x]`. -/
theorem sub_8XY5_flag_at_10_3 :
    DecodeAndExecute 0 0x8015 (withRegs 0 10 1 3) = some (_8XY5 0x8015 (withRegs 0 10 1 3)) ∧
    (_8XY5 0x8015 (withRegs 0 10 1 3)).V 0 = 7 ∧
    (_8XY5 0x8015 (withRegs 0 10 1 3)).V 15 = 0 := by
  refine ⟨by rfl, by decide, by decide⟩

/-! ## Sprite drawing -/

theorem write_write {α : Type} (a : Nat → α) (i : Nat) (v w : α) :
    write (write a i v) i w = write a i w := by
  funext j
  simp only [write]
  split <;> rfl

theorem write_self {α : Type} (a : Nat → α) (i : Nat) : write a i (a i) = a := by
  funext j
  simp only [write]
  split
  · subst_vars; rfl
  · rfl

theorem setDraw_self (s : State) : setDraw s (s.V 15) s.display = s := by
  simp [setDraw, write_self]

theorem setDraw_setDraw (s : State) (a b : Nat) (d e : Nat → Nat → Nat) :
    setDraw (setDraw s a d) b e = setDraw s b e := by
  simp [setDraw, write_write]

theorem setDraw_V (s : State) (vf : Nat) (d : Nat → Nat → Nat) (i : Nat) (h : i ≠ 15) :
    (setDraw s vf d).V i = s.V i := by
  simp [setDraw, write, h]

theorem colHit_succ (vx r k px : Nat) :
    colHit vx r (k + 1) px ↔
      colHit vx r k px ∨ ((vx + k) % 256 = px ∧ px < 64 ∧ r &&& (0x80 >>> k) ≠ 0) := by
  constructor
  · rintro ⟨j, hj, h1, h2, h3⟩
    rcases Nat.lt_succ_iff_lt_or_eq.mp hj with h | h
    · exact Or.inl ⟨j, h, h1, h2, h3⟩
    · subst h; exact Or.inr ⟨h1, h2, h3⟩
  · rintro (⟨j, hj, h1, h2, h3⟩ | ⟨h1, h2, h3⟩)
    · exact ⟨j, Nat.lt_succ_of_lt hj, h1, h2, h3⟩
    · exact ⟨k, Nat.lt_succ_self k, h1, h2, h3⟩

theorem colHit_fresh (vx r k : Nat) (hk : k ≤ 255) : ¬ colHit vx r k ((vx + k) % 256) := by
  rintro ⟨j, hj, h1, _, _⟩
  omega

theorem lor_le_one (a b : Nat) (ha : a ≤ 1) (hb : b ≤ 1) :
    a ||| b ≤ 1 ∧ (a ||| b = 1 ↔ a = 1 ∨ b = 1) := by
  interval_cases a <;> interval_cases b <;> decide

theorem flipPix_le_one (v : Nat) : flipPix v ≤ 1 := by
  unfold flipPix; split <;> decide

theorem flipPix_flipPix (v : Nat) (h : v ≤ 1) : flipPix (flipPix v) = v := by
  interval_cases v <;> decide

/-- The inner loop of a draw whose column register is not `V[15]`: the cells of
row `sy` reached by a set bit are negated, each once, and `V[15]` collects the
old values of those cells. -/
theorem drawCols_spec (x sy r : Nat) (hx : x ≠ 15) (s : State) :
    ∀ k, k ≤ 256 → ∃ vf d, drawCols x sy r k s = setDraw s vf d ∧
      (∀ px py, (py = sy ∧ colHit (s.V x) r k px) → d px py = flipPix (s.display px py)) ∧
      (∀ px py, ¬ (py = sy ∧ colHit (s.V x) r k px) → d px py = s.display px py) ∧
      (s.V 15 ≤ 1 → (∀ px, px < 64 → s.display px sy ≤ 1) →
        vf ≤ 1 ∧ (vf = 1 ↔ s.V 15 = 1 ∨ ∃ px, colHit (s.V x) r k px ∧ s.display px sy = 1)) := by
  intro k
  induction k with
  | zero =>
    intro _
    refine ⟨s.V 15, s.display, (setDraw_self s).symm, ?_, ?_, ?_⟩
    · rintro px py ⟨_, j, hj, _⟩
      omega
    · intro px py _
      rfl
    · intro h15 _
      refine ⟨h15, ?_⟩
      constructor
      · intro h; exact Or.inl h
      · rintro (h | ⟨px, ⟨j, hj, _⟩, _⟩)
        · exact h
        · omega
  | succ k ih =>
    intro hk
    obtain ⟨vf, d, hrun, hhit, hmiss, hflag⟩ := ih (by omega)
    have hfresh : ¬ colHit (s.V x) r k ((s.V x + k) % 256) := colHit_fresh _ _ _ (by omega)
    have hVx : (setDraw s vf d).V x = s.V x := setDraw_V s vf d x hx
    by_cases hdraw : (s.V x + k) % 256 < 64 ∧ r &&& (0x80 >>> k) ≠ 0
    · -- the pixel is negated
      obtain ⟨h64, hbit⟩ := hdraw
      have hold : d ((s.V x + k) % 256) sy = s.display ((s.V x + k) % 256) sy :=
        hmiss _ _ (fun h => hfresh h.2)
      refine ⟨vf ||| s.display ((s.V x + k) % 256) sy,
        write2 d ((s.V x + k) % 256) sy (flipPix (s.display ((s.V x + k) % 256) sy)),
        ?_, ?_, ?_, ?_⟩
      · have h64n : ¬ (s.V x + k) % 256 ≥ DISPLAY_WIDTH := by
          simp only [DISPLAY_WIDTH]; omega
        simp only [drawCols, hrun, drawPixel, hVx, h64n, if_false, hbit, ne_eq,
          not_false_eq_true, if_true]
        have e1 : (setDraw s vf d).display = d := rfl
        have e2 : (setDraw s vf d).V 15 = vf := by simp [setDraw, write]
        simp only [e1, e2, hold]
        simp [setDraw, write_write, flipPix]
      · rintro px py ⟨hpy, hc⟩
        rcases (colHit_succ _ _ _ _).mp hc with hc | ⟨h1, _, _⟩
        · have hne : px ≠ (s.V x + k) % 256 := fun e => hfresh (e ▸ hc)
          simp only [write2, hne, false_and, if_false]
          exact hhit px py ⟨hpy, hc⟩
        · subst hpy
          simp [write2, h1.symm]
      · intro px py hn
        have hn1 : ¬ (py = sy ∧ colHit (s.V x) r k px) :=
          fun h => hn ⟨h.1, (colHit_succ _ _ _ _).mpr (Or.inl h.2)⟩
        have hne : ¬ (px = (s.V x + k) % 256 ∧ py = sy) := by
          rintro ⟨e1, e2⟩
          exact hn ⟨e2, (colHit_succ _ _ _ _).mpr (Or.inr ⟨e1.symm, e1 ▸ h64, hbit⟩)⟩
        simp only [write2, hne, if_false]
        exact hmiss px py hn1
      · intro h15 hb
        obtain ⟨hle, hiff⟩ := hflag h15 hb
        obtain ⟨hle2, hiff2⟩ := lor_le_one vf _ hle (hb _ h64)
        refine ⟨hle2, ?_⟩
        rw [hiff2, hiff]
        constructor
        · rintro ((h | ⟨px, hc, hp⟩) | h)
          · exact Or.inl h
          · exact Or.inr ⟨px, (colHit_succ _ _ _ _).mpr (Or.inl hc), hp⟩
          · exact Or.inr ⟨_, (colHit_succ _ _ _ _).mpr (Or.inr ⟨rfl, h64, hbit⟩), h⟩
        · rintro (h | ⟨px, hc, hp⟩)
          · exact Or.inl (Or.inl h)
          · rcases (colHit_succ _ _ _ _).mp hc with hc | ⟨h1, _, _⟩
            · exact Or.inl (Or.inr ⟨px, hc, hp⟩)
            · subst h1; exact Or.inr hp
    · -- the column is skipped or the sprite bit is clear
      have hsame : ∀ px, colHit (s.V x) r (k + 1) px ↔ colHit (s.V x) r k px := by
        intro px
        rw [colHit_succ]
        constructor
        · rintro (h | ⟨h1, h2, h3⟩)
          · exact h
          · exact absurd ⟨h1 ▸ h2, h3⟩ hdraw
        · intro h; exact Or.inl h
      refine ⟨vf, d, ?_, ?_, ?_, ?_⟩
      · simp only [drawCols, hrun, drawPixel, hVx, DISPLAY_WIDTH]
        by_cases h64 : (s.V x + k) % 256 ≥ 64
        · simp [h64]
        · have hbit : r &&& (0x80 >>> k) = 0 := by
            by_contra hb
            exact hdraw ⟨by omega, hb⟩
          simp [h64, hbit]
      · intro px py h
        exact hhit px py ⟨h.1, (hsame px).mp h.2⟩
      · intro px py h
        exact hmiss px py (fun h2 => h ⟨h2.1, (hsame px).mpr h2.2⟩)
      · intro h15 hb
        obtain ⟨hle, hiff⟩ := hflag h15 hb
        refine ⟨hle, ?_⟩
        rw [hiff]
        constructor
        · rintro (h | ⟨px, hc, hp⟩)
          · exact Or.inl h
          · exact Or.inr ⟨px, (hsame px).mpr hc, hp⟩
        · rintro (h | ⟨px, hc, hp⟩)
          · exact Or.inl h
          · exact Or.inr ⟨px, (hsame px).mp hc, hp⟩

theorem spriteHit_succ (mem : Nat → Nat) (i0 vx vy k px py : Nat) :
    spriteHit mem i0 vx vy (k + 1) px py ↔
      spriteHit mem i0 vx vy k px py ∨
        ((vy + k) % 256 = py ∧ py < 32 ∧ colHit vx (mem (i0 + k)) 8 px) := by
  constructor
  · rintro ⟨i, hi, h1, h2, h3⟩
    rcases Nat.lt_succ_iff_lt_or_eq.mp hi with h | h
    · exact Or.inl ⟨i, h, h1, h2, h3⟩
    · subst h; exact Or.inr ⟨h1, h2, h3⟩
  · rintro (⟨i, hi, h1, h2, h3⟩ | ⟨h1, h2, h3⟩)
    · exact ⟨i, Nat.lt_succ_of_lt hi, h1, h2, h3⟩
    · exact ⟨k, Nat.lt_succ_self k, h1, h2, h3⟩

theorem spriteHit_fresh (mem : Nat → Nat) (i0 vx vy k px : Nat) (hk : k ≤ 255) :
    ¬ spriteHit mem i0 vx vy k px ((vy + k) % 256) := by
  rintro ⟨i, hi, h1, _, _⟩
  omega

/-- The outer loop of a draw whose registers are not `V[15]` and whose sprite
rows lie in memory: it returns, the cells reached by a set sprite bit are
negated, each once, and `V[15]` collects the old values of those cells. -/
theorem drawRows_spec (x y : Nat) (hx : x ≠ 15) (hy : y ≠ 15) (s : State) :
    ∀ k, k ≤ 256 → (∀ i, i < k → s.I + i < 4096) →
      ∃ vf d, drawRows x y k s = some (setDraw s vf d) ∧
      (∀ px py, spriteHit s.memory s.I (s.V x) (s.V y) k px py →
        d px py = flipPix (s.display px py)) ∧
      (∀ px py, ¬ spriteHit s.memory s.I (s.V x) (s.V y) k px py →
        d px py = s.display px py) ∧
      (s.V 15 ≤ 1 → (∀ px py, px < 64 → py < 32 → s.display px py ≤ 1) →
        vf ≤ 1 ∧ (vf = 1 ↔ s.V 15 = 1 ∨
          ∃ px py, spriteHit s.memory s.I (s.V x) (s.V y) k px py ∧ s.display px py = 1)) := by
  intro k
  induction k with
  | zero =>
    intro _ _
    refine ⟨s.V 15, s.display, by rw [setDraw_self]; rfl, ?_, ?_, ?_⟩
    · rintro px py ⟨i, hi, _⟩
      omega
    · intro px py _
      rfl
    · intro h15 _
      refine ⟨h15, ?_⟩
      constructor
      · intro h; exact Or.inl h
      · rintro (h | ⟨px, py, ⟨i, hi, _⟩, _⟩)
        · exact h
        · omega
  | succ k ih =>
    intro hk hmem
    obtain ⟨vf, d, hrun, hhit, hmiss, hflag⟩ := ih (by omega) (fun i hi => hmem i (by omega))
    have hfresh : ∀ px, ¬ spriteHit s.memory s.I (s.V x) (s.V y) k px ((s.V y + k) % 256) :=
      fun px => spriteHit_fresh _ _ _ _ _ _ (by omega)
    have hVx : (setDraw s vf d).V x = s.V x := setDraw_V s vf d x hx
    have hVy : (setDraw s vf d).V y = s.V y := setDraw_V s vf d y hy
    have hI : (setDraw s vf d).I = s.I := rfl
    have hM : (setDraw s vf d).memory = s.memory := rfl
    have hstep : drawRows x y (k + 1) s = drawRow x y k (setDraw s vf d) := by
      simp only [drawRows, hrun, Option.bind]
    by_cases h32 : (s.V y + k) % 256 < 32
    · have hin : s.I + k < MEMORY_SIZE := hmem k (by omega)
      obtain ⟨vf2, d2, hrun2, hhit2, hmiss2, hflag2⟩ :=
        drawCols_spec x ((s.V y + k) % 256) (s.memory (s.I + k)) hx (setDraw s vf d) 8 (by omega)
      rw [hVx] at hhit2 hmiss2 hflag2
      have hD : (setDraw s vf d).display = d := rfl
      have h15 : (setDraw s vf d).V 15 = vf := by simp [setDraw, write]
      rw [hD] at hhit2 hmiss2 hflag2
      rw [h15] at hflag2
      have hrow : ∀ px, d px ((s.V y + k) % 256) = s.display px ((s.V y + k) % 256) :=
        fun px => hmiss px _ (hfresh px)
      refine ⟨vf2, d2, ?_, ?_, ?_, ?_⟩
      · have h32n : ¬ (s.V y + k) % 256 ≥ DISPLAY_HEIGHT := by
          simp only [DISPLAY_HEIGHT]; omega
        rw [hstep]
        simp only [drawRow, hVy, hI, hM, h32n, if_false, hin, if_true, hrun2, setDraw_setDraw]
      · intro px py hh
        rcases (spriteHit_succ _ _ _ _ _ _ _).mp hh with hh | ⟨h1, _, h3⟩
        · have hne : ¬ (py = (s.V y + k) % 256 ∧
              colHit (s.V x) (s.memory (s.I + k)) 8 px) := by
            rintro ⟨e, _⟩
            exact hfresh px (e ▸ hh)
          rw [hmiss2 px py hne]
          exact hhit px py hh
        · rw [hhit2 px py ⟨h1.symm, h3⟩, ← h1, hrow px]
      · intro px py hn
        have hn1 : ¬ spriteHit s.memory s.I (s.V x) (s.V y) k px py :=
          fun h => hn ((spriteHit_succ _ _ _ _ _ _ _).mpr (Or.inl h))
        have hn2 : ¬ (py = (s.V y + k) % 256 ∧
            colHit (s.V x) (s.memory (s.I + k)) 8 px) := by
          rintro ⟨e, hc⟩
          exact hn ((spriteHit_succ _ _ _ _ _ _ _).mpr (Or.inr ⟨e.symm, e ▸ h32, hc⟩))
        rw [hmiss2 px py hn2]
        exact hmiss px py hn1
      · intro hs15 hb
        obtain ⟨hle, hiff⟩ := hflag hs15 hb
        obtain ⟨hle2, hiff2⟩ := hflag2 hle (fun px hpx => by rw [hrow px]; exact hb px _ hpx h32)
        refine ⟨hle2, ?_⟩
        rw [hiff2, hiff]
        constructor
        · rintro ((h | ⟨px, py, hh, hp⟩) | ⟨px, hc, hp⟩)
          · exact Or.inl h
          · exact Or.inr ⟨px, py, (spriteHit_succ _ _ _ _ _ _ _).mpr (Or.inl hh), hp⟩
          · exact Or.inr ⟨px, _, (spriteHit_succ _ _ _ _ _ _ _).mpr (Or.inr ⟨rfl, h32, hc⟩),
              by rw [← hrow px]; exact hp⟩
        · rintro (h | ⟨px, py, hh, hp⟩)
          · exact Or.inl (Or.inl h)
          · rcases (spriteHit_succ _ _ _ _ _ _ _).mp hh with hh | ⟨h1, _, h3⟩
            · exact Or.inl (Or.inr ⟨px, py, hh, hp⟩)
            · subst h1
              exact Or.inr ⟨px, h3, by rw [hrow px]; exact hp⟩
    · -- the row is skipped
      have hsame : ∀ px py, spriteHit s.memory s.I (s.V x) (s.V y) (k + 1) px py ↔
          spriteHit s.memory s.I (s.V x) (s.V y) k px py := by
        intro px py
        rw [spriteHit_succ]
        constructor
        · rintro (h | ⟨h1, h2, _⟩)
          · exact h
          · exact absurd (h1 ▸ h2) h32
        · intro h; exact Or.inl h
      refine ⟨vf, d, ?_, ?_, ?_, ?_⟩
      · have h32n : (s.V y + k) % 256 ≥ DISPLAY_HEIGHT := by
          simp only [DISPLAY_HEIGHT]; omega
        rw [hstep]
        simp only [drawRow, hVy, h32n, if_true]
      · intro px py h
        exact hhit px py ((hsame px py).mp h)
      · intro px py h
        exact hmiss px py (fun h2 => h ((hsame px py).mpr h2))
      · intro hs15 hb
        obtain ⟨hle, hiff⟩ := hflag hs15 hb
        refine ⟨hle, ?_⟩
        rw [hiff]
        constructor
        · rintro (h | ⟨px, py, hh, hp⟩)
          · exact Or.inl h
          · exact Or.inr ⟨px, py, (hsame px py).mpr hh, hp⟩
        · rintro (h | ⟨px, py, hh, hp⟩)
          · exact Or.inl h
          · exact Or.inr ⟨px, py, (hsame px py).mp hh, hp⟩

theorem spriteHit_range (mem : Nat → Nat) (i0 vx vy k px py : Nat)
    (h : spriteHit mem i0 vx vy k px py) : px < 64 ∧ py < 32 := by
  obtain ⟨i, _, _, h32, j, _, _, h64, _⟩ := h
  exact ⟨h64, h32⟩

/-- The draw handler with registers other than `V[15]` and its `n` sprite rows
in memory: it returns a state that differs from the old one in `V[15]` and the
display only; the cells reached by a set sprite bit are negated and the others
kept; on a 0/1 display `V[15]` is 1 when a reached cell was on and 0 otherwise. -/
theorem _DXYN_spec (inst : Nat) (s : State)
    (hx : (inst &&& 0x0F00) >>> 8 ≠ 15) (hy : (inst &&& 0x00F0) >>> 4 ≠ 15)
    (hmem : ∀ i, i < inst &&& 0xF → s.I + i < 4096) :
    ∃ vf d, _DXYN inst s = some (setDraw s vf d) ∧
      (∀ px py, spriteHit s.memory s.I (s.V ((inst &&& 0x0F00) >>> 8))
          (s.V ((inst &&& 0x00F0) >>> 4)) (inst &&& 0xF) px py →
        d px py = flipPix (s.display px py)) ∧
      (∀ px py, ¬ spriteHit s.memory s.I (s.V ((inst &&& 0x0F00) >>> 8))
          (s.V ((inst &&& 0x00F0) >>> 4)) (inst &&& 0xF) px py →
        d px py = s.display px py) ∧
      (DisplayBool s.display →
        vf ≤ 1 ∧ (vf = 1 ↔
          ∃ px py, spriteHit s.memory s.I (s.V ((inst &&& 0x0F00) >>> 8))
            (s.V ((inst &&& 0x00F0) >>> 4)) (inst &&& 0xF) px py ∧ s.display px py = 1)) := by
  have hn : inst &&& 0xF ≤ 256 := by rw [field_n]; omega
  have e0 : ({ s with V := write s.V 15 0 } : State) = setDraw s 0 s.display := rfl
  obtain ⟨vf, d, hrun, hhit, hmiss, hflag⟩ :=
    drawRows_spec _ _ hx hy (setDraw s 0 s.display) (inst &&& 0xF) hn hmem
  rw [setDraw_V s 0 s.display _ hx, setDraw_V s 0 s.display _ hy] at hhit hmiss hflag
  have hM : (setDraw s 0 s.display).memory = s.memory := rfl
  have hI : (setDraw s 0 s.display).I = s.I := rfl
  have hD : (setDraw s 0 s.display).display = s.display := rfl
  have h15 : (setDraw s 0 s.display).V 15 = 0 := by simp [setDraw, write]
  rw [hM, hI, hD] at hhit hmiss hflag
  rw [h15] at hflag
  refine ⟨vf, d, ?_, hhit, hmiss, ?_⟩
  · simp only [_DXYN, e0, hrun, setDraw_setDraw]
  · intro hb
    obtain ⟨hle, hiff⟩ := hflag (by omega) hb
    refine ⟨hle, ?_⟩
    rw [hiff]
    constructor
    · rintro (h | h)
      · omega
      · exact h
    · intro h; exact Or.inr h

/-- C5: after a draw `DXYN` with `X`, `Y` in 0..14 whose `N` sprite rows lie
in memory, on a display of 0/1 cells, `V[15]` is 1 if some pixel that was on
before the draw is off after it and 0 otherwise; on a blank display it is 0. -/
theorem draw_flag (r X Y N : Nat) (s : State) (hX : X ≤ 14) (hY : Y ≤ 14) (hN : N ≤ 15)
    (hmem : ∀ i, i < N → s.I + i < 4096) (hb : DisplayBool s.display) :
    ∃ t, DecodeAndExecute r (0xD000 + 0x100 * X + 0x10 * Y + N) s = some t ∧
      ((∃ px py, px < 64 ∧ py < 32 ∧ s.display px py ≠ 0 ∧ t.display px py = 0) →
        t.V 15 = 1) ∧
      (¬ (∃ px py, px < 64 ∧ py < 32 ∧ s.display px py ≠ 0 ∧ t.display px py = 0) →
        t.V 15 = 0) ∧
      ((∀ px py, px < 64 → py < 32 → s.display px py = 0) → t.V 15 = 0) := by
  have hop : ((0xD000 + 0x100 * X + 0x10 * Y + N) &&& 0xF000) >>> 12 = 13 := by
    rw [field_op]; omega
  have hn : (0xD000 + 0x100 * X + 0x10 * Y + N) &&& 0xF = N := by
    rw [field_n]; omega
  have hx : ((0xD000 + 0x100 * X + 0x10 * Y + N) &&& 0x0F00) >>> 8 = X := by
    rw [field_x]; omega
  have hy : ((0xD000 + 0x100 * X + 0x10 * Y + N) &&& 0x00F0) >>> 4 = Y := by
    rw [field_y]; omega
  obtain ⟨vf, d, hrun, hhit, hmiss, hflag⟩ :=
    _DXYN_spec (0xD000 + 0x100 * X + 0x10 * Y + N) s (by rw [hx]; omega) (by rw [hy]; omega)
      (by rw [hn]; exact hmem)
  rw [hx, hy, hn] at hhit hmiss hflag
  obtain ⟨hle, hiff⟩ := hflag hb
  have hV : (setDraw s vf d).V 15 = vf := by simp [setDraw, write]
  have hD : (setDraw s vf d).display = d := rfl
  have key : vf = 1 ↔ ∃ px py, px < 64 ∧ py < 32 ∧ s.display px py ≠ 0 ∧ d px py = 0 := by
    rw [hiff]
    constructor
    · rintro ⟨px, py, hh, hp⟩
      obtain ⟨h64, h32⟩ := spriteHit_range _ _ _ _ _ _ _ hh
      refine ⟨px, py, h64, h32, by omega, ?_⟩
      rw [hhit px py hh, hp]; rfl
    · rintro ⟨px, py, h64, h32, hon, hoff⟩
      by_cases hh : spriteHit s.memory s.I (s.V X) (s.V Y) N px py
      · have := hb px py h64 h32
        exact ⟨px, py, hh, by omega⟩
      · rw [hmiss px py hh] at hoff
        exact absurd hoff hon
  refine ⟨setDraw s vf d, ?_, ?_, ?_, ?_⟩
  · simp [DecodeAndExecute, hop, hrun]
  · rw [hV, hD]; exact key.mpr
  · rw [hV, hD]
    intro h
    have : vf ≠ 1 := fun e => h (key.mp e)
    omega
  · rw [hV]
    intro hblank
    have : vf ≠ 1 := by
      intro e
      obtain ⟨px, py, h64, h32, hon, _⟩ := key.mp e
      exact hon (hblank px py h64 h32)
    omega

/-! The display holds only 0 and 1: `Reset` and `00E0` zero it, and a draw
stores `!display[x][y]`; no other code writes it. -/

theorem ClearDisplay_bool (s : State) : DisplayBool (ClearDisplay s).display := by
  intro px py h64 h32
  simp [ClearDisplay, DISPLAY_WIDTH, DISPLAY_HEIGHT, h64, h32]

theorem Reset_bool (s : State) : DisplayBool (Reset s).display :=
  ClearDisplay_bool _

theorem drawPixel_bool (x sy r j : Nat) (s : State) (h : DisplayBool s.display) :
    DisplayBool (drawPixel x sy r j s).display := by
  unfold drawPixel
  simp only
  split
  · exact h
  · split
    · intro px py h64 h32
      simp only [write2]
      split
      · split <;> decide
      · exact h px py h64 h32
    · exact h

theorem drawCols_bool (x sy r : Nat) :
    ∀ (k : Nat) (s : State), DisplayBool s.display → DisplayBool (drawCols x sy r k s).display
  | 0, _, h => h
  | k + 1, s, h => drawPixel_bool x sy r k _ (drawCols_bool x sy r k s h)

theorem drawRows_bool (x y : Nat) :
    ∀ (k : Nat) (s t : State), DisplayBool s.display → drawRows x y k s = some t →
      DisplayBool t.display := by
  intro k
  induction k with
  | zero =>
    intro s t h hrun
    cases hrun
    exact h
  | succ k ih =>
    intro s t h hrun
    simp only [drawRows] at hrun
    cases hk : drawRows x y k s with
    | none => rw [hk] at hrun; cases hrun
    | some u =>
      rw [hk] at hrun
      have hu := ih s u h hk
      simp only [Option.bind, drawRow] at hrun
      split at hrun
      · cases hrun; exact hu
      · split at hrun
        · have e := Option.some.inj hrun
          rw [← e]
          exact drawCols_bool x ((u.V y + k) % 256) (u.memory (u.I + k)) 8 u hu
        · cases hrun

theorem _DXYN_bool (inst : Nat) (s t : State) (h : DisplayBool s.display)
    (hrun : _DXYN inst s = some t) : DisplayBool t.display :=
  drawRows_bool ((inst &&& 0x0F00) >>> 8) ((inst &&& 0x00F0) >>> 4) (inst &&& 0xF)
    { s with V := write s.V 15 0 } t h hrun

theorem _0NNN_display (inst : Nat) (s : State) : (_0NNN inst s).display = s.display := rfl

theorem _1NNN_display (inst : Nat) (s : State) : (_1NNN inst s).display = s.display := rfl

theorem _3XNN_display (inst : Nat) (s : State) : (_3XNN inst s).display = s.display := by
  unfold _3XNN
  simp only
  split <;> rfl

theorem _4XNN_display (inst : Nat) (s : State) : (_4XNN inst s).display = s.display := by
  unfold _4XNN
  simp only
  split <;> rfl

theorem _5XY0_display (inst : Nat) (s : State) : (_5XY0 inst s).display = s.display := by
  unfold _5XY0
  simp only
  split <;> rfl

theorem _6XNN_display (inst : Nat) (s : State) : (_6XNN inst s).display = s.display := rfl

theorem _7XNN_display (inst : Nat) (s : State) : (_7XNN inst s).display = s.display := rfl

theorem _8XY0_display (inst : Nat) (s : State) : (_8XY0 inst s).display = s.display := rfl

theorem _8XY1_display (inst : Nat) (s : State) : (_8XY1 inst s).display = s.display := rfl

theorem _8XY2_display (inst : Nat) (s : State) : (_8XY2 inst s).display = s.display := rfl

theorem _8XY3_display (inst : Nat) (s : State) : (_8XY3 inst s).display = s.display := rfl

theorem _8XY4_display (inst : Nat) (s : State) : (_8XY4 inst s).display = s.display := rfl

theorem _8XY5_display (inst : Nat) (s : State) : (_8XY5 inst s).display = s.display := rfl

theorem _8XY6_display (inst : Nat) (s : State) : (_8XY6 inst s).display = s.display := rfl

theorem _8XY7_display (inst : Nat) (s : State) : (_8XY7 inst s).display = s.display := rfl

theorem _8XYE_display (inst : Nat) (s : State) : (_8XYE inst s).display = s.display := rfl

theorem _9XY0_display (inst : Nat) (s : State) : (_9XY0 inst s).display = s.display := by
  unfold _9XY0
  simp only
  split <;> rfl

theorem _ANNN_display (inst : Nat) (s : State) : (_ANNN inst s).display = s.display := rfl

theorem _BNNN_display (inst : Nat) (s : State) : (_BNNN inst s).display = s.display := rfl

theorem _EX9E_display (inst : Nat) (s : State) : (_EX9E inst s).display = s.display := by
  unfold _EX9E
  simp only
  split <;> rfl

theorem _EXA1_display (inst : Nat) (s : State) : (_EXA1 inst s).display = s.display := by
  unfold _EXA1
  simp only
  split <;> rfl

theorem _FX07_display (inst : Nat) (s : State) : (_FX07 inst s).display = s.display := rfl

theorem _FX0A_display (inst : Nat) (s : State) : (_FX0A inst s).display = s.display := by
  unfold _FX0A
  simp only
  split <;> rfl

theorem _FX15_display (inst : Nat) (s : State) : (_FX15 inst s).display = s.display := rfl

theorem _FX18_display (inst : Nat) (s : State) : (_FX18 inst s).display = s.display := rfl

theorem _FX1E_display (inst : Nat) (s : State) : (_FX1E inst s).display = s.display := rfl

theorem _FX29_display (inst : Nat) (s : State) : (_FX29 inst s).display = s.display := rfl

theorem InvalidOpcode_display (inst : Nat) (s : State) : (InvalidOpcode inst s).display = s.display := rfl

theorem _CXNN_display (r inst : Nat) (s : State) : (_CXNN r inst s).display = s.display := rfl

theorem _00EE_display (inst : Nat) (s t : State) (h : _00EE inst s = some t) :
    t.display = s.display := by
  unfold _00EE at h
  simp only at h
  split at h
  · cases h; rfl
  · split at h
    · cases h; rfl
    · cases h

theorem _2NNN_display (inst : Nat) (s t : State) (h : _2NNN inst s = some t) :
    t.display = s.display := by
  unfold _2NNN at h
  simp only at h
  split at h
  · cases h; rfl
  · split at h
    · cases h; rfl
    · cases h

theorem _FX33_display (inst : Nat) (s t : State) (h : _FX33 inst s = some t) :
    t.display = s.display := by
  unfold _FX33 at h
  simp only at h
  split at h
  · cases h; rfl
  · cases h

theorem dumpRegs_display : ∀ (k : Nat) (s t : State), dumpRegs k s = some t →
    t.display = s.display := by
  intro k
  induction k with
  | zero => intro s t h; cases h; rfl
  | succ k ih =>
    intro s t h
    simp only [dumpRegs] at h
    cases hk : dumpRegs k s with
    | none => rw [hk] at h; cases h
    | some u =>
      rw [hk] at h
      simp only [Option.bind] at h
      split at h
      · cases h; exact ih s u hk
      · cases h

theorem loadRegs_display : ∀ (k : Nat) (s t : State), loadRegs k s = some t →
    t.display = s.display := by
  intro k
  induction k with
  | zero => intro s t h; cases h; rfl
  | succ k ih =>
    intro s t h
    simp only [loadRegs] at h
    cases hk : loadRegs k s with
    | none => rw [hk] at h; cases h
    | some u =>
      rw [hk] at h
      simp only [Option.bind] at h
      split at h
      · cases h; exact ih s u hk
      · cases h

theorem DecodeAndExecute0_bool (inst : Nat) (s t : State) (h : DisplayBool s.display)
    (hrun : DecodeAndExecute0 inst s = some t) : DisplayBool t.display := by
  unfold DecodeAndExecute0 at hrun
  dsimp only at hrun
  split at hrun
  · cases hrun; exact ClearDisplay_bool s
  · split at hrun
    · rw [_00EE_display inst s t hrun]; exact h
    · cases hrun; exact h

theorem DecodeAndExecute8_display (inst : Nat) (s t : State)
    (hrun : DecodeAndExecute8 inst s = some t) : t.display = s.display := by
  unfold DecodeAndExecute8 at hrun
  dsimp only at hrun
  split_ifs at hrun <;> cases hrun
  · exact _8XY0_display inst s
  · exact _8XY1_display inst s
  · exact _8XY2_display inst s
  · exact _8XY3_display inst s
  · exact _8XY4_display inst s
  · exact _8XY5_display inst s
  · exact _8XY6_display inst s
  · exact _8XY7_display inst s
  · exact _8XYE_display inst s
  · exact InvalidOpcode_display inst s

theorem DecodeAndExecuteE_display (inst : Nat) (s t : State)
    (hrun : DecodeAndExecuteE inst s = some t) : t.display = s.display := by
  unfold DecodeAndExecuteE at hrun
  dsimp only at hrun
  split_ifs at hrun <;> cases hrun
  · exact _EX9E_display inst s
  · exact _EXA1_display inst s
  · exact InvalidOpcode_display inst s

theorem DecodeAndExecuteF_display (inst : Nat) (s t : State)
    (hrun : DecodeAndExecuteF inst s = some t) : t.display = s.display := by
  unfold DecodeAndExecuteF at hrun
  dsimp only at hrun
  split_ifs at hrun
  · cases hrun; exact _FX07_display inst s
  · cases hrun; exact _FX0A_display inst s
  · cases hrun; exact _FX15_display inst s
  · cases hrun; exact _FX18_display inst s
  · cases hrun; exact _FX1E_display inst s
  · cases hrun; exact _FX29_display inst s
  · exact _FX33_display inst s t hrun
  · exact dumpRegs_display _ s t hrun
  · exact loadRegs_display _ s t hrun
  · cases hrun; exact InvalidOpcode_display inst s

/-- Every instruction keeps the display cells in 0/1. -/
theorem DecodeAndExecute_bool (r inst : Nat) (s t : State) (h : DisplayBool s.display)
    (hrun : DecodeAndExecute r inst s = some t) : DisplayBool t.display := by
  have keep : ∀ u : State, u.display = s.display → DisplayBool u.display :=
    fun u e => by rw [e]; exact h
  unfold DecodeAndExecute at hrun
  dsimp only at hrun
  generalize (inst &&& 0xF000) >>> 12 = op at hrun
  by_cases h0 : op = 0
  · rw [if_pos h0] at hrun
    exact DecodeAndExecute0_bool inst s t h hrun
  rw [if_neg h0] at hrun
  by_cases h1 : op = 1
  · rw [if_pos h1] at hrun
    cases hrun; exact keep _ (_1NNN_display inst s)
  rw [if_neg h1] at hrun
  by_cases h2 : op = 2
  · rw [if_pos h2] at hrun
    exact keep t (_2NNN_display inst s t hrun)
  rw [if_neg h2] at hrun
  by_cases h3 : op = 3
  · rw [if_pos h3] at hrun
    cases hrun; exact keep _ (_3XNN_display inst s)
  rw [if_neg h3] at hrun
  by_cases h4 : op = 4
  · rw [if_pos h4] at hrun
    cases hrun; exact keep _ (_4XNN_display inst s)
  rw [if_neg h4] at hrun
  by_cases h5 : op = 5
  · rw [if_pos h5] at hrun
    cases hrun; exact keep _ (_5XY0_display inst s)
  rw [if_neg h5] at hrun
  by_cases h6 : op = 6
  · rw [if_pos h6] at hrun
    cases hrun; exact keep _ (_6XNN_display inst s)
  rw [if_neg h6] at hrun
  by_cases h7 : op = 7
  · rw [if_pos h7] at hrun
    cases hrun; exact keep _ (_7XNN_display inst s)
  rw [if_neg h7] at hrun
  by_cases h8 : op = 8
  · rw [if_pos h8] at hrun
    exact keep t (DecodeAndExecute8_display inst s t hrun)
  rw [if_neg h8] at hrun
  by_cases h9 : op = 9
  · rw [if_pos h9] at hrun
    cases hrun; exact keep _ (_9XY0_display inst s)
  rw [if_neg h9] at hrun
  by_cases h10 : op = 10
  · rw [if_pos h10] at hrun
    cases hrun; exact keep _ (_ANNN_display inst s)
  rw [if_neg h10] at hrun
  by_cases h11 : op = 11
  · rw [if_pos h11] at hrun
    cases hrun; exact keep _ (_BNNN_display inst s)
  rw [if_neg h11] at hrun
  by_cases h12 : op = 12
  · rw [if_pos h12] at hrun
    cases hrun; exact keep _ (_CXNN_display r inst s)
  rw [if_neg h12] at hrun
  by_cases h13 : op = 13
  · rw [if_pos h13] at hrun
    exact _DXYN_bool inst s t h hrun
  rw [if_neg h13] at hrun
  by_cases h14 : op = 14
  · rw [if_pos h14] at hrun
    exact keep t (DecodeAndExecuteE_display inst s t hrun)
  rw [if_neg h14] at hrun
  by_cases h15 : op = 15
  · rw [if_pos h15] at hrun
    exact keep t (DecodeAndExecuteF_display inst s t hrun)
  rw [if_neg h15] at hrun
  cases hrun; exact h

/-- Every cycle keeps the display cells in 0/1. -/
theorem ExecuteNextInstruction_bool (r : Nat) (s t : State) (h : DisplayBool s.display)
    (hrun : ExecuteNextInstruction r s = some t) : DisplayBool t.display := by
  unfold ExecuteNextInstruction at hrun
  simp only at hrun
  split at hrun
  · exact DecodeAndExecute_bool r _ { s with PC := (s.PC + 2) % 65536 } t h hrun
  · cases hrun

theorem spriteState_display (vx vy px py : Nat) (h64 : px < 64) (h32 : py < 32) :
    (spriteState vx vy).display px py = 0 := by
  simp [spriteState, loaded, LoadROM, toSizeT, MEMORY_SIZE, PROGRAM_START, Reset, ClearDisplay,
    DISPLAY_WIDTH, DISPLAY_HEIGHT, h64, h32]

theorem spriteState_blank (vx vy : Nat) : DisplayBool (spriteState vx vy).display := by
  intro px py h64 h32
  rw [spriteState_display vx vy px py h64 h32]
  exact Nat.zero_le 1

theorem spriteState_I (vx vy : Nat) : (spriteState vx vy).I = 0x200 := rfl

/-- Witness of C5: one row `0xFF` drawn at (0, 0) on the blank display of a
freshly loaded machine leaves the flag at 0. -/
theorem draw_flag_witness :
    ∃ t, DecodeAndExecute 0 0xD011 (spriteState 0 0) = some t ∧ t.V 15 = 0 := by
  obtain ⟨t, h1, _, _, h4⟩ :=
    draw_flag 0 0 1 1 (spriteState 0 0) (by decide) (by decide) (by decide)
      (fun i hi => by rw [spriteState_I]; omega) (spriteState_blank 0 0)
  exact ⟨t, h1, h4 (spriteState_display 0 0)⟩

/-- Evaluation for C6: with `V[0] = 250`, `V[1] = 0` and the sprite row `0xFF`,
the draw `D011` on a blank display turns on the pixels (0, 0) and (1, 0): the
8-bit column `V[x] + j` wraps from 255 to 0 and passes the test against the
display width. -/
theorem draw_wraps_at_256 :
    (DecodeAndExecute 0 0xD011 (spriteState 250 0)).map
        (fun t => (t.display 0 0, t.display 1 0, t.display 2 0, t.display 63 0)) =
      some (1, 1, 0, 0) ∧
    (spriteState 250 0).display 0 0 = 0 ∧ (spriteState 250 0).display 1 0 = 0 ∧
    (spriteState 250 0).V 0 = 250 ∧ (spriteState 250 0).V 1 = 0 ∧
    (spriteState 250 0).memory (spriteState 250 0).I = 0xFF := by
  refine ⟨by decide, by decide, by decide, by decide, by decide, by decide⟩

/-- C7, as the code has it: for `X`, `Y` in 0..14, a draw `DXYN` whose sprite
rows lie in memory, executed twice in succession on a display of 0/1 cells,
leaves the display as it was before the first draw, and the second draw sets
`V[15]` to 1 whenever the first turned on at least one pixel. -/
theorem draw_twice (r1 r2 X Y N : Nat) (s : State) (hX : X ≤ 14) (hY : Y ≤ 14) (hN : N ≤ 15)
    (hmem : ∀ i, i < N → s.I + i < 4096) (hb : DisplayBool s.display) :
    ∃ t1 t2, DecodeAndExecute r1 (0xD000 + 0x100 * X + 0x10 * Y + N) s = some t1 ∧
      DecodeAndExecute r2 (0xD000 + 0x100 * X + 0x10 * Y + N) t1 = some t2 ∧
      t2.display = s.display ∧
      ((∃ px py, px < 64 ∧ py < 32 ∧ s.display px py = 0 ∧ t1.display px py ≠ 0) →
        t2.V 15 = 1) := by
  have hop : ((0xD000 + 0x100 * X + 0x10 * Y + N) &&& 0xF000) >>> 12 = 13 := by
    rw [field_op]; omega
  have hn : (0xD000 + 0x100 * X + 0x10 * Y + N) &&& 0xF = N := by
    rw [field_n]; omega
  have hx : ((0xD000 + 0x100 * X + 0x10 * Y + N) &&& 0x0F00) >>> 8 = X := by
    rw [field_x]; omega
  have hy : ((0xD000 + 0x100 * X + 0x10 * Y + N) &&& 0x00F0) >>> 4 = Y := by
    rw [field_y]; omega
  have hX15 : X ≠ 15 := by omega
  have hY15 : Y ≠ 15 := by omega
  obtain ⟨vf, d, hrun, hhit, hmiss, _⟩ :=
    _DXYN_spec (0xD000 + 0x100 * X + 0x10 * Y + N) s (by rw [hx]; exact hX15)
      (by rw [hy]; exact hY15) (by rw [hn]; exact hmem)
  obtain ⟨vf2, d2, hrun2, hhit2, hmiss2, hflag2⟩ :=
    _DXYN_spec (0xD000 + 0x100 * X + 0x10 * Y + N) (setDraw s vf d) (by rw [hx]; exact hX15)
      (by rw [hy]; exact hY15) (by rw [hn]; exact hmem)
  rw [hx, hy, hn] at hhit hmiss hhit2 hmiss2 hflag2
  rw [setDraw_V s vf d X hX15, setDraw_V s vf d Y hY15] at hhit2 hmiss2 hflag2
  have hM : (setDraw s vf d).memory = s.memory := rfl
  have hI : (setDraw s vf d).I = s.I := rfl
  have hD : (setDraw s vf d).display = d := rfl
  rw [hM, hI, hD] at hhit2 hmiss2 hflag2
  have hb1 : DisplayBool d := by
    intro px py h64 h32
    by_cases hh : spriteHit s.memory s.I (s.V X) (s.V Y) N px py
    · rw [hhit px py hh]; exact flipPix_le_one _
    · rw [hmiss px py hh]; exact hb px py h64 h32
  obtain ⟨_, hiff2⟩ := hflag2 hb1
  refine ⟨setDraw s vf d, setDraw (setDraw s vf d) vf2 d2, ?_, ?_, ?_, ?_⟩
  · simp [DecodeAndExecute, hop, hrun]
  · simp [DecodeAndExecute, hop, hrun2]
  · show d2 = s.display
    funext px py
    by_cases hh : spriteHit s.memory s.I (s.V X) (s.V Y) N px py
    · obtain ⟨h64, h32⟩ := spriteHit_range _ _ _ _ _ _ _ hh
      rw [hhit2 px py hh, hhit px py hh]
      exact flipPix_flipPix _ (hb px py h64 h32)
    · rw [hmiss2 px py hh, hmiss px py hh]
  · rintro ⟨px, py, h64, h32, hoff, hon⟩
    have hV : (setDraw (setDraw s vf d) vf2 d2).V 15 = vf2 := by simp [setDraw, write]
    rw [hV, hiff2]
    rw [hD] at hon
    by_cases hh : spriteHit s.memory s.I (s.V X) (s.V Y) N px py
    · refine ⟨px, py, hh, ?_⟩
      rw [hhit px py hh, hoff]; rfl
    · rw [hmiss px py hh] at hon
      exact absurd hoff hon

/-- Witness of C7: the row `0xFF` drawn twice at (0, 0) on a blank display
leaves the display blank, with `V[15] = 1` after the second draw. -/
theorem draw_twice_witness :
    ∃ t1 t2, DecodeAndExecute 0 0xD011 (spriteState 0 0) = some t1 ∧
      DecodeAndExecute 0 0xD011 t1 = some t2 ∧
      t2.display = (spriteState 0 0).display ∧ t2.V 15 = 1 := by
  obtain ⟨t1, t2, h1, h2, h3, h4⟩ :=
    draw_twice 0 0 0 1 1 (spriteState 0 0) (by decide) (by decide) (by decide)
      (fun i hi => by rw [spriteState_I]; omega) (spriteState_blank 0 0)
  refine ⟨t1, t2, h1, h2, h3, h4 ⟨0, 0, by decide, by decide, by decide, ?_⟩⟩
  have hc : (DecodeAndExecute 0 0xD011 (spriteState 0 0)).map (fun t => t.display 0 0) =
      some 1 := by decide
  rw [h1] at hc
  simp only [Option.map_some', Option.some.injEq] at hc
  omega

set_option maxRecDepth 8192 in
/-- C7 as stated fails for `X = 15`: the row `0xFF` drawn twice by `DF01` on a
blank display leaves the pixels (1, 0) and (8, 0) on.  The first draw has
`V[15] = 0` throughout and fills columns 0..7; in the second the collision at
column 0 sets `V[15] = 1`, which is the column register, so the remaining bits
land on columns 2..8. -/
theorem draw_twice_flag_origin :
    ((DecodeAndExecute 0 0xDF01 (spriteState 0 0)).bind (DecodeAndExecute 0 0xDF01)).map
        (fun t => (t.display 0 0, t.display 1 0, t.display 2 0, t.display 7 0,
          t.display 8 0, t.V 15)) =
      some (0, 1, 0, 0, 1, 1) ∧
    (spriteState 0 0).display 1 0 = 0 ∧ (spriteState 0 0).display 8 0 = 0 := by
  refine ⟨by decide, by decide, by decide⟩

/-! ## Host calls -/

theorem runCalls_append (a b : List HostCall) (s : State) :
    runCalls (a ++ b) s = (runCalls a s).bind (runCalls b) := by
  induction a generalizing s with
  | nil => rfl
  | cons c cs ih =>
    simp only [List.cons_append, runCalls]
    cases c.apply s with
    | none => rfl
    | some t => exact ih t

theorem fetch_word (hi lo : Nat) (hhi : hi < 256) (hlo : lo < 256) :
    ((hi <<< 8) ||| lo) % 65536 = 256 * hi + lo := by
  have h := Nat.mul_add_lt_is_or (show lo < 2 ^ 8 from hlo) hi
  rw [Nat.shiftLeft_eq, Nat.mul_comm hi (2 ^ 8), ← h]
  omega

theorem fetch_FX0A (r X p : Nat) (s : State) (hX : X ≤ 15) (hp : p + 1 < 4096)
    (h : AtKeyWait X p s) :
    ExecuteNextInstruction r s = some (_FX0A (0xF00A + 0x100 * X) { s with PC := p + 2 }) := by
  obtain ⟨hPC, hm0, hm1⟩ := h
  have hw : ((s.memory s.PC <<< 8) ||| s.memory (s.PC + 1)) % 65536 = 0xF00A + 0x100 * X := by
    rw [hPC, hm0, hm1, fetch_word _ _ (by omega) (by omega)]
    omega
  have hop : ((0xF00A + 0x100 * X) &&& 0xF000) >>> 12 = 15 := by
    rw [field_op]; omega
  have hnn : (0xF00A + 0x100 * X) &&& 0xFF = 0x0A := by
    rw [field_nn]; omega
  have hin : s.PC + 1 < MEMORY_SIZE := by rw [hPC]; exact hp
  have hpc : (s.PC + 2) % 65536 = p + 2 := by rw [hPC]; omega
  simp only [ExecuteNextInstruction, hin, if_true, hw, hpc]
  simp [DecodeAndExecute, DecodeAndExecuteF, hop, hnn]

/-- A cycle on `FX0A` while no key has been received keeps the machine on the
instruction and leaves it `Waiting`. -/
theorem cycle_waiting (r X p : Nat) (s : State) (hX : X ≤ 15) (hp : p + 1 < 4096)
    (h : AtKeyWait X p s) (hw : s.keyWaitState ≠ KeyWaitState.KeyRecieved) :
    ExecuteNextInstruction r s = some { s with keyWaitState := KeyWaitState.Waiting } := by
  rw [fetch_FX0A r X p s hX hp h]
  have hback : toU16 (p : Int) = s.PC := by
    rw [h.1]; unfold toU16; omega
  cases hs : s.keyWaitState with
  | NotWaiting => simp [_FX0A, hs, hback]
  | Waiting => simp [_FX0A, hs, hback]
  | KeyRecieved => exact absurd hs hw

/-- A cycle on `FX0A` after a key has been received stores the key in `V[X]`,
moves on to the next instruction and returns to `NotWaiting`. -/
theorem cycle_received (r X p : Nat) (s : State) (hX : X ≤ 15) (hp : p + 1 < 4096)
    (h : AtKeyWait X p s) (hw : s.keyWaitState = KeyWaitState.KeyRecieved) :
    ExecuteNextInstruction r s =
      some { s with PC := p + 2, V := write s.V X s.recievedKey,
                    keyWaitState := KeyWaitState.NotWaiting } := by
  rw [fetch_FX0A r X p s hX hp h]
  have hx : ((0xF00A + 0x100 * X) &&& 0x0F00) >>> 8 = X := by
    rw [field_x]; omega
  simp [_FX0A, hw, hx]

/-- Cycles and key releases on a machine stalled on `FX0A` keep it stalled: the
program counter and the registers stay, and after the first cycle the wait
state is `Waiting`. -/
theorem runCalls_noPress (X p : Nat) (hX : X ≤ 15) (hp : p + 1 < 4096) :
    ∀ (cs : List HostCall), (∀ c ∈ cs, c.noPress) → ∀ s : State, AtKeyWait X p s →
      s.keyWaitState ≠ KeyWaitState.KeyRecieved →
      ∃ t, runCalls cs s = some t ∧ AtKeyWait X p t ∧ t.V = s.V ∧
        t.keyWaitState ≠ KeyWaitState.KeyRecieved ∧
        ((s.keyWaitState = KeyWaitState.Waiting ∨ ∃ r, HostCall.cycle r ∈ cs) →
          t.keyWaitState = KeyWaitState.Waiting) := by
  intro cs
  induction cs with
  | nil =>
    intro _ s hs hw
    refine ⟨s, rfl, hs, rfl, hw, ?_⟩
    rintro (h | ⟨r, hr⟩)
    · exact h
    · cases hr
  | cons c cs ih =>
    intro hall s hs hw
    have hc : c.noPress := hall c (List.mem_cons_self c cs)
    have hrest : ∀ c2 ∈ cs, c2.noPress := fun c2 h2 => hall c2 (List.mem_cons_of_mem c h2)
    cases c with
    | cycle r =>
      have hstep := cycle_waiting r X p s hX hp hs hw
      obtain ⟨t, hrun, hat, hV, hne, hwait⟩ :=
        ih hrest { s with keyWaitState := KeyWaitState.Waiting } hs (by simp)
      refine ⟨t, ?_, hat, hV, hne, fun _ => hwait (Or.inl rfl)⟩
      simp only [runCalls, HostCall.apply, hstep, Option.bind]
      exact hrun
    | pressed key => exact absurd hc (by simp [HostCall.noPress])
    | released key =>
      have hkey : 0 ≤ key ∧ key < 16 := hc
      obtain ⟨t, hrun, hat, hV, hne, hwait⟩ :=
        ih hrest { s with keys := write s.keys key.toNat false } hs hw
      refine ⟨t, ?_, hat, hV, hne, ?_⟩
      · simp only [runCalls, HostCall.apply, KeyReleased, hkey, and_self, if_true, Option.bind]
        exact hrun
      · rintro (h | ⟨r, hr⟩)
        · exact hwait (Or.inl h)
        · refine hwait (Or.inr ⟨r, ?_⟩)
          rcases List.mem_cons.mp hr with h | h
          · cases h
          · exact h

theorem KeyPressed_received (key : Int) (s : State) (hkey : 0 ≤ key ∧ key < 16)
    (hw : s.keyWaitState = KeyWaitState.KeyRecieved) :
    KeyPressed key s = some { s with keys := write s.keys key.toNat true } := by
  simp only [KeyPressed, hkey, and_self, if_true]
  split
  · rename_i h
    rw [show ({ s with keys := write s.keys key.toNat true } : State).keyWaitState =
      s.keyWaitState from rfl, hw] at h
    cases h
  · rfl

/-- Key presses and releases after a key has been received change neither the
received key nor the wait state. -/
theorem runCalls_keyOnly :
    ∀ (cs : List HostCall), (∀ c ∈ cs, c.keyOnly) → ∀ s : State,
      s.keyWaitState = KeyWaitState.KeyRecieved →
      ∃ u, runCalls cs s = some u ∧ u.keyWaitState = KeyWaitState.KeyRecieved ∧
        u.recievedKey = s.recievedKey ∧ u.PC = s.PC ∧ u.memory = s.memory ∧ u.V = s.V := by
  intro cs
  induction cs with
  | nil =>
    intro _ s hw
    exact ⟨s, rfl, hw, rfl, rfl, rfl, rfl⟩
  | cons c cs ih =>
    intro hall s hw
    have hc : c.keyOnly := hall c (List.mem_cons_self c cs)
    have hrest : ∀ c2 ∈ cs, c2.keyOnly := fun c2 h2 => hall c2 (List.mem_cons_of_mem c h2)
    cases c with
    | cycle r => exact absurd hc (by simp [HostCall.keyOnly])
    | pressed key =>
      have hkey : 0 ≤ key ∧ key < 16 := hc
      obtain ⟨u, hrun, h1, h2, h3, h4, h5⟩ :=
        ih hrest { s with keys := write s.keys key.toNat true } hw
      refine ⟨u, ?_, h1, h2, h3, h4, h5⟩
      simp only [runCalls, HostCall.apply, KeyPressed_received key s hkey hw, Option.bind]
      exact hrun
    | released key =>
      have hkey : 0 ≤ key ∧ key < 16 := hc
      obtain ⟨u, hrun, h1, h2, h3, h4, h5⟩ :=
        ih hrest { s with keys := write s.keys key.toNat false } hw
      refine ⟨u, ?_, h1, h2, h3, h4, h5⟩
      simp only [runCalls, HostCall.apply, KeyReleased, hkey, and_self, if_true, Option.bind]
      exact hrun

/-- C8: on a machine in `NotWaiting` about to fetch `FX0A` at `p`, any calls
`before` made of cycles (at least one) and key releases leave `PC = p`, the
registers unchanged and the wait state `Waiting`; after a press of key `k` in
0..15, whatever presses and releases `later` follow, the next cycle sets
`V[X] = k`, `PC = p + 2` and the wait state `NotWaiting`. -/
theorem key_wait_protocol (X p k r : Nat) (s : State) (before later : List HostCall)
    (hX : X ≤ 15) (hp : p + 1 < 4096) (hs : AtKeyWait X p s)
    (hw : s.keyWaitState = KeyWaitState.NotWaiting)
    (hbefore : ∀ c ∈ before, c.noPress) (hcycle : ∃ r0, HostCall.cycle r0 ∈ before)
    (hk : k < 16) (hlater : ∀ c ∈ later, c.keyOnly) :
    (∃ t, runCalls before s = some t ∧ t.PC = p ∧ t.V = s.V ∧
      t.keyWaitState = KeyWaitState.Waiting) ∧
    (∃ u, runCalls (before ++ [HostCall.pressed (k : Int)] ++ later ++ [HostCall.cycle r]) s
        = some u ∧
      u.V X = k ∧ u.PC = p + 2 ∧ u.keyWaitState = KeyWaitState.NotWaiting) := by
  obtain ⟨t, hrun, hat, hV, _, hwait⟩ :=
    runCalls_noPress X p hX hp before hbefore s hs (by rw [hw]; simp)
  have hW : t.keyWaitState = KeyWaitState.Waiting := hwait (Or.inr hcycle)
  refine ⟨⟨t, hrun, hat.1, hV, hW⟩, ?_⟩
  have hkey : (0 : Int) ≤ (k : Int) ∧ (k : Int) < 16 := by omega
  have hk8 : toU8 (k : Int) = k := by unfold toU8; omega
  have hpress : KeyPressed (k : Int) t =
      some { t with keys := write t.keys (k : Int).toNat true,
                    keyWaitState := KeyWaitState.KeyRecieved, recievedKey := k } := by
    simp only [KeyPressed, hkey, and_self, if_true, hW, hk8]
  obtain ⟨u, hrun2, h1, h2, h3, h4, h5⟩ :=
    runCalls_keyOnly later hlater
      { t with keys := write t.keys (k : Int).toNat true,
               keyWaitState := KeyWaitState.KeyRecieved, recievedKey := k } rfl
  have hatu : AtKeyWait X p u := by
    obtain ⟨a1, a2, a3⟩ := hat
    refine ⟨?_, ?_, ?_⟩
    · rw [h3]; exact a1
    · rw [h4]; exact a2
    · rw [h4]; exact a3
  have hfin := cycle_received r X p u hX hp hatu h1
  refine ⟨{ u with PC := p + 2, V := write u.V X u.recievedKey,
                     keyWaitState := KeyWaitState.NotWaiting }, ?_, ?_, ?_, ?_⟩
  · simp only [runCalls_append, runCalls, HostCall.apply, hrun, hpress, hrun2, hfin,
      Option.bind]
  · simp [write, h2]
  · rfl
  · rfl

/-- Witness of C8: the program `F30A` on a freshly loaded machine; two cycles
and a release, then key 7, then a press of key 9 and a release of key 7, then a
cycle: `V[3] = 7` and execution is at `0x202`. -/
theorem key_wait_protocol_witness :
    (∃ t, runCalls [HostCall.cycle 0, HostCall.released 2, HostCall.cycle 1]
        (loaded [0xF3, 0x0A]) = some t ∧
      t.PC = 0x200 ∧ t.V = (loaded [0xF3, 0x0A]).V ∧ t.keyWaitState = KeyWaitState.Waiting) ∧
    (∃ u, runCalls ([HostCall.cycle 0, HostCall.released 2, HostCall.cycle 1] ++
          [HostCall.pressed ((7 : Nat) : Int)] ++ [HostCall.pressed 9, HostCall.released 7] ++
          [HostCall.cycle 5]) (loaded [0xF3, 0x0A]) = some u ∧
      u.V 3 = 7 ∧ u.PC = 0x200 + 2 ∧ u.keyWaitState = KeyWaitState.NotWaiting) :=
  key_wait_protocol 3 0x200 7 5 (loaded [0xF3, 0x0A])
    [HostCall.cycle 0, HostCall.released 2, HostCall.cycle 1]
    [HostCall.pressed 9, HostCall.released 7]
    (by decide) (by decide) ⟨by rfl, by decide, by decide⟩ (by rfl)
    (by simp [HostCall.noPress]) ⟨0, by simp⟩ (by decide) (by simp [HostCall.keyOnly])

/-! ## Call and return -/

theorem fetch_call (r p NNN : Nat) (s : State) (hp : p + 1 < 4096) (hN : NNN < 4096)
    (hPC : s.PC = p) (h0 : s.memory p = 0x20 + NNN / 256) (h1 : s.memory (p + 1) = NNN % 256) :
    ExecuteNextInstruction r s = _2NNN (0x2000 + NNN) { s with PC := p + 2 } := by
  have hw : ((s.memory s.PC <<< 8) ||| s.memory (s.PC + 1)) % 65536 = 0x2000 + NNN := by
    rw [hPC, h0, h1, fetch_word _ _ (by omega) (by omega)]
    omega
  have hop : ((0x2000 + NNN) &&& 0xF000) >>> 12 = 2 := by
    rw [field_op]; omega
  have hin : s.PC + 1 < MEMORY_SIZE := by rw [hPC]; exact hp
  have hpc : (s.PC + 2) % 65536 = p + 2 := by rw [hPC]; omega
  simp only [ExecuteNextInstruction, hin, if_true, hw, hpc]
  simp [DecodeAndExecute, hop]

theorem fetch_return (r p : Nat) (s : State) (hp : p + 1 < 4096)
    (hPC : s.PC = p) (h0 : s.memory p = 0x00) (h1 : s.memory (p + 1) = 0xEE) :
    ExecuteNextInstruction r s = _00EE 0x00EE { s with PC := p + 2 } := by
  have hw : ((s.memory s.PC <<< 8) ||| s.memory (s.PC + 1)) % 65536 = 0x00EE := by
    rw [hPC, h0, h1]
    decide
  have hin : s.PC + 1 < MEMORY_SIZE := by rw [hPC]; exact hp
  have hpc : (s.PC + 2) % 65536 = p + 2 := by rw [hPC]; omega
  simp only [ExecuteNextInstruction, hin, if_true, hw, hpc]
  simp [DecodeAndExecute, DecodeAndExecute0, field_op, field_nn]

/-- C9: with `0 ≤ SP < 128`, a call `2NNN` fetched at `p` whose target holds
`00EE`, followed by the cycle that executes that return, leaves `PC = p + 2`,
`SP` as before the call and the stack entries below `SP` unchanged. -/
theorem call_then_return (r1 r2 p NNN : Nat) (s : State) (hp : p + 1 < 4096)
    (hN : NNN + 1 < 4096) (hPC : s.PC = p)
    (hc0 : s.memory p = 0x20 + NNN / 256) (hc1 : s.memory (p + 1) = NNN % 256)
    (hr0 : s.memory NNN = 0x00) (hr1 : s.memory (NNN + 1) = 0xEE)
    (hsp0 : 0 ≤ s.SP) (hsp : s.SP < 128) :
    ∃ t1 t2, ExecuteNextInstruction r1 s = some t1 ∧ t1.PC = NNN ∧
      ExecuteNextInstruction r2 t1 = some t2 ∧
      t2.PC = p + 2 ∧ t2.SP = s.SP ∧ ∀ i : Nat, (i : Int) < s.SP → t2.stack i = s.stack i := by
  have hnnn : (0x2000 + NNN) &&& 0xFFF = NNN := by rw [field_nnn]; omega
  have hfull : ¬ s.SP ≥ (128 : Int) := by omega
  have h1 : ExecuteNextInstruction r1 s =
      some { s with stack := write s.stack s.SP.toNat (p + 2), SP := s.SP + 1, PC := NNN } := by
    rw [fetch_call r1 p NNN s hp (by omega) hPC hc0 hc1]
    simp [_2NNN, STACK_MAX, hfull, hsp0, hnnn]
  have hpos : ¬ s.SP + 1 ≤ 0 := by omega
  have h2 : ExecuteNextInstruction r2
      { s with stack := write s.stack s.SP.toNat (p + 2), SP := s.SP + 1, PC := NNN } =
      some { s with stack := write s.stack s.SP.toNat (p + 2), SP := s.SP + 1 - 1,
                    PC := p + 2 } := by
    rw [fetch_return r2 NNN
      { s with stack := write s.stack s.SP.toNat (p + 2), SP := s.SP + 1, PC := NNN }
      hN rfl hr0 hr1]
    simp [_00EE, STACK_MAX, hpos, hsp, write]
  refine ⟨_, _, h1, rfl, h2, rfl, ?_, ?_⟩
  · show s.SP + 1 - 1 = s.SP
    omega
  · intro i hi
    have : i ≠ s.SP.toNat := by omega
    simp [write, this]

/-- Witness of C9: `2204` at `0x200` calls `0x204`, which holds `00EE`; after
the two cycles execution is at `0x202` with an empty stack. -/
theorem call_then_return_witness :
    ∃ t1 t2, ExecuteNextInstruction 0 (loaded [0x22, 0x04, 0x00, 0x00, 0x00, 0xEE]) = some t1 ∧
      t1.PC = 0x204 ∧ ExecuteNextInstruction 0 t1 = some t2 ∧ t2.PC = 0x200 + 2 ∧
      t2.SP = (loaded [0x22, 0x04, 0x00, 0x00, 0x00, 0xEE]).SP ∧
      ∀ i : Nat, (i : Int) < (loaded [0x22, 0x04, 0x00, 0x00, 0x00, 0xEE]).SP →
        t2.stack i = (loaded [0x22, 0x04, 0x00, 0x00, 0x00, 0xEE]).stack i :=
  call_then_return 0 0 0x200 0x204 (loaded [0x22, 0x04, 0x00, 0x00, 0x00, 0xEE])
    (by decide) (by decide) (by rfl) (by decide) (by decide) (by decide) (by decide)
    (by decide) (by decide)

/-- C10: a call `2NNN` fetched at `p` with `SP = 128`, and a return `00EE`
fetched at `p` with `SP = 0`, each change the program counter to `p + 2` and
nothing else: no jump, and `SP`, the stack and every other member stay. -/
theorem stack_bound_noops (r p NNN : Nat) (s : State) (hp : p + 1 < 4096) (hPC : s.PC = p) :
    (s.SP = 128 → NNN < 4096 → s.memory p = 0x20 + NNN / 256 →
      s.memory (p + 1) = NNN % 256 →
      ExecuteNextInstruction r s = some { s with PC := p + 2 }) ∧
    (s.SP = 0 → s.memory p = 0x00 → s.memory (p + 1) = 0xEE →
      ExecuteNextInstruction r s = some { s with PC := p + 2 }) := by
  constructor
  · intro hsp hN h0 h1
    rw [fetch_call r p NNN s hp hN hPC h0 h1]
    simp [_2NNN, STACK_MAX, hsp]
  · intro hsp h0 h1
    rw [fetch_return r p s hp hPC h0 h1]
    simp [_00EE, hsp]

/-- Witness of C10: the call `2345` on a machine with a full stack and the
return `00EE` on a freshly loaded machine both only step to `0x202`. -/
theorem stack_bound_noops_witness :
    ExecuteNextInstruction 0 (fullStack [0x23, 0x45]) =
      some { fullStack [0x23, 0x45] with PC := 0x200 + 2 } ∧
    ExecuteNextInstruction 0 (loaded [0x00, 0xEE]) =
      some { loaded [0x00, 0xEE] with PC := 0x200 + 2 } :=
  ⟨(stack_bound_noops 0 0x200 0x345 (fullStack [0x23, 0x45]) (by decide) (by rfl)).1
      (by rfl) (by decide) (by decide) (by decide),
   (stack_bound_noops 0 0x200 0 (loaded [0x00, 0xEE]) (by decide) (by rfl)).2
      (by rfl) (by decide) (by decide)⟩

/-! ## Fetch -/

theorem fetch_at (r p hi lo : Nat) (s : State) (hp : p + 1 < 4096) (hPC : s.PC = p)
    (hhi : hi < 256) (hlo : lo < 256) (h0 : s.memory p = hi) (h1 : s.memory (p + 1) = lo) :
    ExecuteNextInstruction r s = DecodeAndExecute r (256 * hi + lo) { s with PC := p + 2 } := by
  have hw : ((s.memory s.PC <<< 8) ||| s.memory (s.PC + 1)) % 65536 = 256 * hi + lo := by
    rw [hPC, h0, h1, fetch_word _ _ hhi hlo]
  have hin : s.PC + 1 < MEMORY_SIZE := by rw [hPC]; exact hp
  have hpc : (s.PC + 2) % 65536 = p + 2 := by rw [hPC]; omega
  simp only [ExecuteNextInstruction, hin, if_true, hw, hpc]

/-! ## Key skips -/

/-- C11, as the code has it: with `V[X] ≥ 16` neither key-skip instruction
skips; after `EX9E` and after `EXA1` fetched at `p` the machine is as before
with `PC = p + 2`. -/
theorem key_skip_out_of_range (r X p : Nat) (s : State) (hX : X ≤ 15) (hp : p + 1 < 4096)
    (hPC : s.PC = p) (hV : 16 ≤ s.V X) (h0 : s.memory p = 0xE0 + X) :
    (s.memory (p + 1) = 0x9E → ExecuteNextInstruction r s = some { s with PC := p + 2 }) ∧
    (s.memory (p + 1) = 0xA1 → ExecuteNextInstruction r s = some { s with PC := p + 2 }) := by
  have hnot : ¬ s.V X < 16 := by omega
  constructor
  · intro h1
    rw [fetch_at r p (0xE0 + X) 0x9E s hp hPC (by omega) (by decide) h0 h1]
    have hop : ((256 * (0xE0 + X) + 0x9E) &&& 0xF000) >>> 12 = 14 := by rw [field_op]; omega
    have hnn : (256 * (0xE0 + X) + 0x9E) &&& 0xFF = 0x9E := by rw [field_nn]; omega
    have hx : ((256 * (0xE0 + X) + 0x9E) &&& 0x0F00) >>> 8 = X := by rw [field_x]; omega
    simp [DecodeAndExecute, DecodeAndExecuteE, hop, hnn, _EX9E, hx, hnot]
  · intro h1
    rw [fetch_at r p (0xE0 + X) 0xA1 s hp hPC (by omega) (by decide) h0 h1]
    have hop : ((256 * (0xE0 + X) + 0xA1) &&& 0xF000) >>> 12 = 14 := by rw [field_op]; omega
    have hnn : (256 * (0xE0 + X) + 0xA1) &&& 0xFF = 0xA1 := by rw [field_nn]; omega
    have hx : ((256 * (0xE0 + X) + 0xA1) &&& 0x0F00) >>> 8 = X := by rw [field_x]; omega
    simp [DecodeAndExecute, DecodeAndExecuteE, hop, hnn, _EXA1, hx, hnot]

/-- Witness of C11: `E09E` and `E0A1` on freshly loaded machines with
`V[0] = 16`. -/
theorem key_skip_out_of_range_witness :
    ExecuteNextInstruction 0 (keyProbe 0x9E 16) = some { keyProbe 0x9E 16 with PC := 0x200 + 2 } ∧
    ExecuteNextInstruction 0 (keyProbe 0xA1 16) = some { keyProbe 0xA1 16 with PC := 0x200 + 2 } :=
  ⟨(key_skip_out_of_range 0 0 0x200 (keyProbe 0x9E 16) (by decide) (by decide) (by rfl)
      (by decide) (by decide)).1 (by decide),
   (key_skip_out_of_range 0 0 0x200 (keyProbe 0xA1 16) (by decide) (by decide) (by rfl)
      (by decide) (by decide)).2 (by decide)⟩

/-- C11 as stated fails for `EXA1`: with `V[0] = 16` the instruction `E0A1`
fetched at `0x200` leaves `PC = 0x202`, not `0x204`: it does not skip. -/
theorem skip_not_pressed_out_of_range :
    (ExecuteNextInstruction 0 (keyProbe 0xA1 16)).map (fun t => t.PC) = some 0x202 ∧
    (keyProbe 0xA1 16).V 0 = 16 ∧ (keyProbe 0xA1 16).PC = 0x200 ∧
    (keyProbe 0xA1 16).memory 0x200 = 0xE0 ∧ (keyProbe 0xA1 16).memory 0x201 = 0xA1 := by
  refine ⟨by decide, by decide, by rfl, by decide, by decide⟩

/-! ## Memory instructions -/

/-- C12: with `V[X] ≤ 255` and `I + 2 ≤ 4095`, `FX33` changes memory only,
at `I`, `I + 1`, `I + 2`, where it stores `V[X] / 100`, `(V[X] / 10) mod 10`
and `V[X] mod 10`: three digits, each at most 9, whose decimal value is
`V[X]`.  No register, `I` or other member changes. -/
theorem store_bcd (r X : Nat) (s : State) (hX : X ≤ 15) (hv : s.V X ≤ 255)
    (hI : s.I + 2 ≤ 4095) :
    ∃ m, DecodeAndExecute r (0xF033 + 0x100 * X) s = some { s with memory := m } ∧
      m s.I = s.V X / 100 ∧ m (s.I + 1) = s.V X / 10 % 10 ∧ m (s.I + 2) = s.V X % 10 ∧
      m s.I ≤ 9 ∧ m (s.I + 1) ≤ 9 ∧ m (s.I + 2) ≤ 9 ∧
      100 * m s.I + 10 * m (s.I + 1) + m (s.I + 2) = s.V X ∧
      ∀ a, a ≠ s.I → a ≠ s.I + 1 → a ≠ s.I + 2 → m a = s.memory a := by
  have hop : ((0xF033 + 0x100 * X) &&& 0xF000) >>> 12 = 15 := by rw [field_op]; omega
  have hnn : (0xF033 + 0x100 * X) &&& 0xFF = 0x33 := by rw [field_nn]; omega
  have hx : ((0xF033 + 0x100 * X) &&& 0x0F00) >>> 8 = X := by rw [field_x]; omega
  have hin : s.I + 2 < MEMORY_SIZE := by simp only [MEMORY_SIZE]; omega
  have hh : s.V X / 100 % 10 = s.V X / 100 := by omega
  refine ⟨write (write (write s.memory s.I (s.V X / 100)) (s.I + 1) (s.V X / 10 % 10))
    (s.I + 2) (s.V X % 10), ?_, ?_, ?_, ?_, ?_, ?_, ?_, ?_, ?_⟩
  · simp [DecodeAndExecute, DecodeAndExecuteF, hop, hnn, _FX33, hx, hin, hh]
  · simp [write]
  · simp [write]
  · simp [write]
  · simp only [write]; simp; omega
  · simp only [write]; simp; omega
  · simp only [write]; simp; omega
  · simp only [write]; simp; omega
  · intro a h0 h1 h2
    simp [write, h0, h1, h2]

/-- Witness of C12: `V[0] = 234` stored by `F033` at `I = 0x300` gives the
bytes 2, 3, 4. -/
theorem store_bcd_witness :
    ∃ m, DecodeAndExecute 0 0xF033 (withRegI 0 234 0x300) =
        some { withRegI 0 234 0x300 with memory := m } ∧
      m 0x300 = 2 ∧ m 0x301 = 3 ∧ m 0x302 = 4 := by
  obtain ⟨m, h, h0, h1, h2, _⟩ :=
    store_bcd 0 0 (withRegI 0 234 0x300) (by decide) (by decide) (by decide)
  exact ⟨m, h, h0, h1, h2⟩

theorem dumpRegs_spec : ∀ (k : Nat) (s : State), s.I + k ≤ 4096 →
    ∃ m, dumpRegs k s = some { s with memory := m } ∧
      (∀ i, i < k → m (s.I + i) = s.V i) ∧
      (∀ a, (a < s.I ∨ s.I + k ≤ a) → m a = s.memory a) := by
  intro k
  induction k with
  | zero =>
    intro s _
    exact ⟨s.memory, rfl, fun i hi => absurd hi (Nat.not_lt_zero i), fun _ _ => rfl⟩
  | succ k ih =>
    intro s hI
    obtain ⟨m, hrun, hin, hout⟩ := ih s (by omega)
    have hlt : s.I + k < MEMORY_SIZE := by simp only [MEMORY_SIZE]; omega
    refine ⟨write m (s.I + k) (s.V k), ?_, ?_, ?_⟩
    · simp [dumpRegs, hrun, hlt]
    · intro i hi
      rcases Nat.lt_succ_iff_lt_or_eq.mp hi with h | h
      · have hne : s.I + i ≠ s.I + k := by omega
        simp only [write, hne, if_false]
        exact hin i h
      · subst h; simp [write]
    · intro a ha
      have hne : a ≠ s.I + k := by omega
      simp only [write, hne, if_false]
      exact hout a (by omega)

theorem loadRegs_spec : ∀ (k : Nat) (s : State), s.I + k ≤ 4096 →
    ∃ v, loadRegs k s = some { s with V := v } ∧
      (∀ i, i < k → v i = s.memory (s.I + i)) ∧
      (∀ j, k ≤ j → v j = s.V j) := by
  intro k
  induction k with
  | zero =>
    intro s _
    exact ⟨s.V, rfl, fun i hi => absurd hi (Nat.not_lt_zero i), fun _ _ => rfl⟩
  | succ k ih =>
    intro s hI
    obtain ⟨v, hrun, hin, hout⟩ := ih s (by omega)
    have hlt : s.I + k < MEMORY_SIZE := by simp only [MEMORY_SIZE]; omega
    refine ⟨write v k (s.memory (s.I + k)), ?_, ?_, ?_⟩
    · simp [loadRegs, hrun, hlt]
    · intro i hi
      rcases Nat.lt_succ_iff_lt_or_eq.mp hi with h | h
      · have hne : i ≠ k := by omega
        simp only [write, hne, if_false]
        exact hin i h
      · subst h; simp [write]
    · intro j hj
      have hne : j ≠ k := by omega
      simp only [write, hne, if_false]
      exact hout j (by omega)

/-- C13: with `I + X ≤ 4095`, `FX55` changes memory only, storing `V[0..X]`
at `I .. I + X` and no other byte; and on any later state with that memory and
that `I`, whatever its registers, `FX65` changes registers only, setting
`V[0..X]` to the dumped values and keeping `V[X+1..15]`. -/
theorem dump_then_load (r1 r2 X : Nat) (s : State) (hX : X ≤ 15) (hI : s.I + X ≤ 4095) :
    ∃ m, DecodeAndExecute r1 (0xF055 + 0x100 * X) s = some { s with memory := m } ∧
      (∀ i, i ≤ X → m (s.I + i) = s.V i) ∧
      (∀ a, (a < s.I ∨ s.I + X < a) → m a = s.memory a) ∧
      ∀ u : State, u.memory = m → u.I = s.I →
        ∃ v, DecodeAndExecute r2 (0xF065 + 0x100 * X) u = some { u with V := v } ∧
          (∀ i, i ≤ X → v i = s.V i) ∧ (∀ j, X < j → v j = u.V j) := by
  have hop : ((0xF055 + 0x100 * X) &&& 0xF000) >>> 12 = 15 := by rw [field_op]; omega
  have hnn : (0xF055 + 0x100 * X) &&& 0xFF = 0x55 := by rw [field_nn]; omega
  have hx : ((0xF055 + 0x100 * X) &&& 0x0F00) >>> 8 = X := by rw [field_x]; omega
  have hop2 : ((0xF065 + 0x100 * X) &&& 0xF000) >>> 12 = 15 := by rw [field_op]; omega
  have hnn2 : (0xF065 + 0x100 * X) &&& 0xFF = 0x65 := by rw [field_nn]; omega
  have hx2 : ((0xF065 + 0x100 * X) &&& 0x0F00) >>> 8 = X := by rw [field_x]; omega
  obtain ⟨m, hrun, hin, hout⟩ := dumpRegs_spec (X + 1) s (by omega)
  refine ⟨m, ?_, fun i hi => hin i (by omega), fun a ha => hout a (by omega), ?_⟩
  · simp [DecodeAndExecute, DecodeAndExecuteF, hop, hnn, _FX55, hx, hrun]
  · intro u hm hu
    obtain ⟨v, hrun2, hin2, hout2⟩ := loadRegs_spec (X + 1) u (by omega)
    refine ⟨v, ?_, ?_, fun j hj => hout2 j (by omega)⟩
    · simp [DecodeAndExecute, DecodeAndExecuteF, hop2, hnn2, _FX65, hx2, hrun2]
    · intro i hi
      rw [hin2 i (by omega), hm, hu]
      exact hin i (by omega)

/-- Witness of C13: `F155` at `I = 0x300` with `V[0] = 7`, then `F165` after
the registers have been cleared, gives `V[0] = 7` again. -/
theorem dump_then_load_witness :
    ∃ m v, DecodeAndExecute 0 0xF155 (withRegI 0 7 0x300) =
        some { withRegI 0 7 0x300 with memory := m } ∧ m 0x300 = 7 ∧
      DecodeAndExecute 0 0xF165 { withRegI 0 7 0x300 with memory := m, V := fun _ => 0 } =
        some { withRegI 0 7 0x300 with memory := m, V := v } ∧ v 0 = 7 := by
  obtain ⟨m, h1, h2, _, h4⟩ :=
    dump_then_load 0 0 1 (withRegI 0 7 0x300) (by decide) (by decide)
  obtain ⟨v, h5, h6, _⟩ :=
    h4 { withRegI 0 7 0x300 with memory := m, V := fun _ => 0 } rfl rfl
  exact ⟨m, v, h1, h2 0 (by decide), h5, h6 0 (by decide)⟩

/-! ## Invalid opcodes -/

/-- C14: a cycle that fetches at `p` a word of the groups `8`, `E`, `F`
whose low-order field matches no handler changes the program counter to
`p + 2` and nothing else. -/
theorem invalid_opcode_noop (r inst p : Nat) (s : State) (hinst : inst < 65536)
    (hp : p + 1 < 4096) (hPC : s.PC = p) (h0 : s.memory p = inst / 256)
    (h1 : s.memory (p + 1) = inst % 256) (hbad : InvalidWord inst) :
    ExecuteNextInstruction r s = some { s with PC := p + 2 } := by
  rw [fetch_at r p (inst / 256) (inst % 256) s hp hPC (by omega) (by omega) h0 h1]
  have hw : 256 * (inst / 256) + inst % 256 = inst := by omega
  rw [hw]
  simp only [InvalidWord, List.mem_cons, List.mem_singleton, List.not_mem_nil, or_false,
    not_or] at hbad
  rcases hbad with ⟨hg, hn⟩ | ⟨hg, hn⟩ | ⟨hg, hn⟩
  · have hop : (inst &&& 0xF000) >>> 12 = 8 := by rw [field_op]; omega
    have hd : ∃ d, inst &&& 0xF = d ∧ (d = 8 ∨ d = 9 ∨ d = 10 ∨ d = 11 ∨ d = 12 ∨ d = 13 ∨ d = 15) :=
      ⟨_, rfl, by rw [field_n]; exact hn⟩
    obtain ⟨d, hd, hcase⟩ := hd
    simp only [DecodeAndExecute, hop, DecodeAndExecute8, hd]
    rcases hcase with h | h | h | h | h | h | h <;> subst h <;> simp [InvalidOpcode]
  · have hop : (inst &&& 0xF000) >>> 12 = 14 := by rw [field_op]; omega
    obtain ⟨d, hd⟩ : ∃ d, inst &&& 0xFF = d := ⟨_, rfl⟩
    have hn2 : d ≠ 0x9E ∧ d ≠ 0xA1 := by rw [← hd, field_nn]; exact hn
    simp [DecodeAndExecute, hop, DecodeAndExecuteE, hd, hn2.1, hn2.2, InvalidOpcode]
  · have hop : (inst &&& 0xF000) >>> 12 = 15 := by rw [field_op]; omega
    obtain ⟨d, hd⟩ : ∃ d, inst &&& 0xFF = d := ⟨_, rfl⟩
    have hn2 : d ≠ 0x07 ∧ d ≠ 0x0A ∧ d ≠ 0x15 ∧ d ≠ 0x18 ∧ d ≠ 0x1E ∧ d ≠ 0x29 ∧ d ≠ 0x33 ∧
        d ≠ 0x55 ∧ d ≠ 0x65 := by rw [← hd, field_nn]; exact hn
    obtain ⟨n1, n2, n3, n4, n5, n6, n7, n8, n9⟩ := hn2
    simp [DecodeAndExecute, hop, DecodeAndExecuteF, hd, n1, n2, n3, n4, n5, n6, n7, n8, n9,
      InvalidOpcode]

/-- Witness of C14: the words `8128`, `E1FF` and `F1FF` at `0x200`. -/
theorem invalid_opcode_noop_witness :
    ExecuteNextInstruction 0 (loaded [0x81, 0x28]) = some { loaded [0x81, 0x28] with PC := 0x200 + 2 } ∧
    ExecuteNextInstruction 0 (loaded [0xE1, 0xFF]) = some { loaded [0xE1, 0xFF] with PC := 0x200 + 2 } ∧
    ExecuteNextInstruction 0 (loaded [0xF1, 0xFF]) = some { loaded [0xF1, 0xFF] with PC := 0x200 + 2 } :=
  ⟨invalid_opcode_noop 0 0x8128 0x200 (loaded [0x81, 0x28]) (by decide) (by decide) (by rfl)
      (by decide) (by decide) (Or.inl ⟨by decide, by decide⟩),
   invalid_opcode_noop 0 0xE1FF 0x200 (loaded [0xE1, 0xFF]) (by decide) (by decide) (by rfl)
      (by decide) (by decide) (Or.inr (Or.inl ⟨by decide, by decide⟩)),
   invalid_opcode_noop 0 0xF1FF 0x200 (loaded [0xF1, 0xFF]) (by decide) (by decide) (by rfl)
      (by decide) (by decide) (Or.inr (Or.inr ⟨by decide, by decide⟩))⟩

/-! ## Timers -/

theorem TickTimers_eq (s : State) :
    TickTimers s =
      { s with delayTimer := s.delayTimer - 1, soundTimer := s.soundTimer - 1 } := by
  unfold TickTimers
  by_cases hd : s.delayTimer > 0 <;> by_cases hs : s.soundTimer > 0
  · simp [hd, hs]
  · have : s.soundTimer = 0 := by omega
    simp [hd, this]
  · have : s.delayTimer = 0 := by omega
    simp [hs, this]
  · have h1 : s.delayTimer = 0 := by omega
    have h2 : s.soundTimer = 0 := by omega
    simp [h1, h2]
    conv_lhs =>
      rw [show s = { s with delayTimer := s.delayTimer, soundTimer := s.soundTimer } from rfl]
    rw [h1, h2]

/-- C16: `TickTimers` changes the two timers only, each to one less than
before unless it is 0, which stays 0: as integers the new values are
`max (d - 1) 0` and `max (s - 1) 0`. -/
theorem TickTimers_spec (s : State) :
    TickTimers s =
      { s with delayTimer := s.delayTimer - 1, soundTimer := s.soundTimer - 1 } ∧
    ((TickTimers s).delayTimer : Int) = max ((s.delayTimer : Int) - 1) 0 ∧
    ((TickTimers s).soundTimer : Int) = max ((s.soundTimer : Int) - 1) 0 ∧
    (s.delayTimer = 0 → (TickTimers s).delayTimer = 0) ∧
    (s.soundTimer = 0 → (TickTimers s).soundTimer = 0) := by
  have e := TickTimers_eq s
  refine ⟨e, ?_, ?_, ?_, ?_⟩
  · rw [e]; show ((s.delayTimer - 1 : Nat) : Int) = _; omega
  · rw [e]; show ((s.soundTimer - 1 : Nat) : Int) = _; omega
  · intro h; rw [e]; show s.delayTimer - 1 = 0; omega
  · intro h; rw [e]; show s.soundTimer - 1 = 0; omega

/-- Witness of C16: a machine with `delayTimer = 0` and `soundTimer = 5`. -/
theorem TickTimers_spec_witness :
    (TickTimers { powerOn with soundTimer := 5 }).delayTimer = 0 ∧
    (TickTimers { powerOn with soundTimer := 5 }).soundTimer = 4 :=
  ⟨(TickTimers_spec { powerOn with soundTimer := 5 }).2.2.2.1 (by rfl),
   by rw [(TickTimers_spec { powerOn with soundTimer := 5 }).1]; rfl⟩

/-! ## Font and memory after a load -/

theorem LoadROM_low_memory (romData : Nat → Nat) (romSize : Int) (s : State) (a : Nat)
    (ha : a < 0x200) : (LoadROM romData romSize s).memory a = s.memory a := by
  unfold LoadROM
  split
  · rfl
  · have h1 : ¬ (PROGRAM_START ≤ a ∧ a < PROGRAM_START + toSizeT romSize) := by
      simp only [PROGRAM_START]; omega
    have h2 : ¬ (PROGRAM_START ≤ a ∧ a < MEMORY_SIZE) := by
      simp only [PROGRAM_START]; omega
    simp [Reset, ClearDisplay, h1, h2]

theorem fontData_glyph (d k : Nat) (hd : d < 16) (hk : k < 5) :
    fontData.getD (5 * d + k) 0 = (canonicalGlyph d).getD k 0 := by
  interval_cases d <;> interval_cases k <;> rfl

/-- C17: on a machine that has been constructed and then had `LoadROM`
called, the five bytes at `5 * d` are the glyph of the hex digit `d`; and
`FX29` changes `I` only, to `5 * (V[X] & 0xF)`. -/
theorem font_glyphs (cps : F32) (s0 : State) (romData : Nat → Nat) (romSize : Int)
    (r X : Nat) (u : State) (hX : X ≤ 15) :
    (∀ d k, d < 16 → k < 5 →
      (LoadROM romData romSize (construct cps s0)).memory (5 * d + k) =
        (canonicalGlyph d).getD k 0) ∧
    canonicalGlyph 0 = [0xF0, 0x90, 0x90, 0x90, 0xF0] ∧
    DecodeAndExecute r (0xF029 + 0x100 * X) u = some { u with I := 5 * (u.V X &&& 0xF) } := by
  refine ⟨?_, rfl, ?_⟩
  · intro d k hd hk
    rw [LoadROM_low_memory _ _ _ _ (by omega)]
    have hlt : 5 * d + k < 5 * 16 := by omega
    simp only [construct, LoadFont, hlt, if_true]
    exact fontData_glyph d k hd hk
  · have hop : ((0xF029 + 0x100 * X) &&& 0xF000) >>> 12 = 15 := by rw [field_op]; omega
    have hnn : (0xF029 + 0x100 * X) &&& 0xFF = 0x29 := by rw [field_nn]; omega
    have hx : ((0xF029 + 0x100 * X) &&& 0x0F00) >>> 8 = X := by rw [field_x]; omega
    have e : DecodeAndExecute r (0xF029 + 0x100 * X) u =
        some { u with I := (u.V X &&& 0xF) * 5 } := by
      simp [DecodeAndExecute, DecodeAndExecuteF, hop, hnn, _FX29, hx]
    rw [e, Nat.mul_comm]

/-- Witness of C17: the glyph of `A` starts at address 50 with the byte
`0xF0`, and `F029` with `V[0] = 0x1A` sets `I = 50`. -/
theorem font_glyphs_witness :
    (loaded [0x12, 0x00]).memory (5 * 10 + 0) = 0xF0 ∧
    DecodeAndExecute 0 0xF029 (withRegI 0 0x1A 0) = some { withRegI 0 0x1A 0 with I := 50 } :=
  ⟨(font_glyphs ⟨0x447A0000⟩ zeroState (romOfList [0x12, 0x00]) 2 0 0 (withRegI 0 0x1A 0)
      (by decide)).1 10 0 (by decide) (by decide),
   (font_glyphs ⟨0x447A0000⟩ zeroState (romOfList [0x12, 0x00]) 2 0 0 (withRegI 0 0x1A 0)
      (by decide)).2.2⟩

/-- C18, as the code has it: after `LoadROM` of `romSize ≤ 3584` bytes every
byte from `0x200 + romSize` up to `0xFFF` is 0, and every byte below `0x200`
has the value it had before the load. -/
theorem LoadROM_memory_outside (romData : Nat → Nat) (romSize : Int) (s : State)
    (hlo : 0 ≤ romSize) (hhi : romSize ≤ 3584) :
    (∀ a, 0x200 + romSize.toNat ≤ a → a ≤ 0xFFF →
      (LoadROM romData romSize s).memory a = 0) ∧
    (∀ a, a < 0x200 → (LoadROM romData romSize s).memory a = s.memory a) := by
  refine ⟨?_, fun a ha => LoadROM_low_memory romData romSize s a ha⟩
  intro a h1 h2
  have hsz : toSizeT romSize = romSize.toNat := toSizeT_of_nonneg romSize hlo (by omega)
  have hfit : ¬ romSize.toNat > 3584 := by omega
  have hA : ¬ (512 ≤ a ∧ a < 512 + romSize.toNat) := by omega
  have hB : 512 ≤ a ∧ a < 4096 := by omega
  simp only [LoadROM, hsz, MEMORY_SIZE, PROGRAM_START, Reset, ClearDisplay]
  have hC : ¬ a < 512 + romSize.toNat := by omega
  simp [hfit, hB, hC]

/-- Witness of C18: after a two-byte load into a fresh machine the byte at
`0x202` is 0 and the byte at `0x100` is as the constructor left it. -/
theorem LoadROM_memory_outside_witness :
    (loaded [0x12, 0x00]).memory 0x202 = 0 ∧
    (loaded [0x12, 0x00]).memory 0x100 = powerOn.memory 0x100 :=
  ⟨(LoadROM_memory_outside (romOfList [0x12, 0x00]) 2 powerOn (by decide) (by decide)).1
      0x202 (by decide) (by decide),
   (LoadROM_memory_outside (romOfList [0x12, 0x00]) 2 powerOn (by decide) (by decide)).2
      0x100 (by decide)⟩

/-- C18 as stated fails below `0x200`: after the program `A100 6007 F055` has
stored 7 at address `0x100`, a `LoadROM` of an empty program leaves that byte
at 7. -/
theorem LoadROM_keeps_low_memory :
    afterLowWrite.map (fun u => u.memory 0x100) = some 7 ∧
    afterLowWrite.map (fun u => (LoadROM (romOfList []) 0 u).memory 0x100) = some 7 := by
  refine ⟨by decide, by decide⟩

/-! ## Members that instructions leave alone

Only `_2NNN` and `_00EE` write `SP`, and no instruction writes the members of
the timing driver. -/

theorem Kept.refl (s : State) : Kept s s := ⟨rfl, rfl, rfl, rfl⟩

theorem Kept.trans {s u t : State} (h1 : Kept s u) (h2 : Kept u t) : Kept s t :=
  ⟨h2.1.trans h1.1, h2.2.1.trans h1.2.1, h2.2.2.1.trans h1.2.2.1, h2.2.2.2.trans h1.2.2.2⟩

theorem _0NNN_kept (inst : Nat) (s : State) : Kept s (_0NNN inst s) :=
  ⟨rfl, rfl, rfl, rfl⟩

theorem _00E0_kept (inst : Nat) (s : State) : Kept s (_00E0 inst s) :=
  ⟨rfl, rfl, rfl, rfl⟩

theorem _1NNN_kept (inst : Nat) (s : State) : Kept s (_1NNN inst s) :=
  ⟨rfl, rfl, rfl, rfl⟩

theorem _3XNN_kept (inst : Nat) (s : State) : Kept s (_3XNN inst s) := by
  unfold _3XNN
  simp only
  split <;> exact ⟨rfl, rfl, rfl, rfl⟩

theorem _4XNN_kept (inst : Nat) (s : State) : Kept s (_4XNN inst s) := by
  unfold _4XNN
  simp only
  split <;> exact ⟨rfl, rfl, rfl, rfl⟩

theorem _5XY0_kept (inst : Nat) (s : State) : Kept s (_5XY0 inst s) := by
  unfold _5XY0
  simp only
  split <;> exact ⟨rfl, rfl, rfl, rfl⟩

theorem _6XNN_kept (inst : Nat) (s : State) : Kept s (_6XNN inst s) :=
  ⟨rfl, rfl, rfl, rfl⟩

theorem _7XNN_kept (inst : Nat) (s : State) : Kept s (_7XNN inst s) :=
  ⟨rfl, rfl, rfl, rfl⟩

theorem _8XY0_kept (inst : Nat) (s : State) : Kept s (_8XY0 inst s) :=
  ⟨rfl, rfl, rfl, rfl⟩

theorem _8XY1_kept (inst : Nat) (s : State) : Kept s (_8XY1 inst s) :=
  ⟨rfl, rfl, rfl, rfl⟩

theorem _8XY2_kept (inst : Nat) (s : State) : Kept s (_8XY2 inst s) :=
  ⟨rfl, rfl, rfl, rfl⟩

theorem _8XY3_kept (inst : Nat) (s : State) : Kept s (_8XY3 inst s) :=
  ⟨rfl, rfl, rfl, rfl⟩

theorem _8XY4_kept (inst : Nat) (s : State) : Kept s (_8XY4 inst s) :=
  ⟨rfl, rfl, rfl, rfl⟩

theorem _8XY5_kept (inst : Nat) (s : State) : Kept s (_8XY5 inst s) :=
  ⟨rfl, rfl, rfl, rfl⟩

theorem _8XY6_kept (inst : Nat) (s : State) : Kept s (_8XY6 inst s) :=
  ⟨rfl, rfl, rfl, rfl⟩

theorem _8XY7_kept (inst : Nat) (s : State) : Kept s (_8XY7 inst s) :=
  ⟨rfl, rfl, rfl, rfl⟩

theorem _8XYE_kept (inst : Nat) (s : State) : Kept s (_8XYE inst s) :=
  ⟨rfl, rfl, rfl, rfl⟩

theorem _9XY0_kept (inst : Nat) (s : State) : Kept s (_9XY0 inst s) := by
  unfold _9XY0
  simp only
  split <;> exact ⟨rfl, rfl, rfl, rfl⟩

theorem _ANNN_kept (inst : Nat) (s : State) : Kept s (_ANNN inst s) :=
  ⟨rfl, rfl, rfl, rfl⟩

theorem _BNNN_kept (inst : Nat) (s : State) : Kept s (_BNNN inst s) :=
  ⟨rfl, rfl, rfl, rfl⟩

theorem _EX9E_kept (inst : Nat) (s : State) : Kept s (_EX9E inst s) := by
  unfold _EX9E
  simp only
  split <;> exact ⟨rfl, rfl, rfl, rfl⟩

theorem _EXA1_kept (inst : Nat) (s : State) : Kept s (_EXA1 inst s) := by
  unfold _EXA1
  simp only
  split <;> exact ⟨rfl, rfl, rfl, rfl⟩

theorem _FX07_kept (inst : Nat) (s : State) : Kept s (_FX07 inst s) :=
  ⟨rfl, rfl, rfl, rfl⟩

theorem _FX0A_kept (inst : Nat) (s : State) : Kept s (_FX0A inst s) := by
  unfold _FX0A
  simp only
  split <;> exact ⟨rfl, rfl, rfl, rfl⟩

theorem _FX15_kept (inst : Nat) (s : State) : Kept s (_FX15 inst s) :=
  ⟨rfl, rfl, rfl, rfl⟩

theorem _FX18_kept (inst : Nat) (s : State) : Kept s (_FX18 inst s) :=
  ⟨rfl, rfl, rfl, rfl⟩

theorem _FX1E_kept (inst : Nat) (s : State) : Kept s (_FX1E inst s) :=
  ⟨rfl, rfl, rfl, rfl⟩

theorem _FX29_kept (inst : Nat) (s : State) : Kept s (_FX29 inst s) :=
  ⟨rfl, rfl, rfl, rfl⟩

theorem InvalidOpcode_kept (inst : Nat) (s : State) : Kept s (InvalidOpcode inst s) :=
  ⟨rfl, rfl, rfl, rfl⟩

theorem _CXNN_kept (r inst : Nat) (s : State) : Kept s (_CXNN r inst s) :=
  ⟨rfl, rfl, rfl, rfl⟩

theorem _00EE_timing (inst : Nat) (s t : State) (h : _00EE inst s = some t) :
    Timing s t ∧ (StackOk s → StackOk t) := by
  unfold _00EE at h
  simp only at h
  split at h
  · cases h; exact ⟨⟨rfl, rfl, rfl⟩, id⟩
  · split at h
    · cases h
      refine ⟨⟨rfl, rfl, rfl⟩, ?_⟩
      rintro ⟨h0, h1⟩
      constructor <;> simp only <;> omega
    · cases h

theorem _2NNN_timing (inst : Nat) (s t : State) (h : _2NNN inst s = some t) :
    Timing s t ∧ (StackOk s → StackOk t) := by
  unfold _2NNN at h
  simp only at h
  split at h
  · cases h; exact ⟨⟨rfl, rfl, rfl⟩, id⟩
  · rename_i hfull
    split at h
    · cases h
      refine ⟨⟨rfl, rfl, rfl⟩, ?_⟩
      rintro ⟨h0, h1⟩
      simp only [STACK_MAX] at hfull
      constructor <;> simp only <;> omega
    · cases h

theorem _00EE_returns (inst : Nat) (s : State) (h : StackOk s) : ∃ t, _00EE inst s = some t := by
  unfold _00EE
  simp only
  split
  · exact ⟨_, rfl⟩
  · have : s.SP - 1 < (STACK_MAX : Int) := by
      have := h.2
      simp only [STACK_MAX]; omega
    simp only [this, if_true]
    exact ⟨_, rfl⟩

theorem _2NNN_returns (inst : Nat) (s : State) (h : StackOk s) : ∃ t, _2NNN inst s = some t := by
  unfold _2NNN
  simp only
  split
  · exact ⟨_, rfl⟩
  · simp only [h.1, if_true]
    exact ⟨_, rfl⟩

theorem _FX33_kept (inst : Nat) (s t : State) (h : _FX33 inst s = some t) : Kept s t := by
  unfold _FX33 at h
  simp only at h
  split at h
  · cases h; exact ⟨rfl, rfl, rfl, rfl⟩
  · cases h

theorem dumpRegs_kept : ∀ (k : Nat) (s t : State), dumpRegs k s = some t → Kept s t := by
  intro k
  induction k with
  | zero => intro s t h; cases h; exact Kept.refl s
  | succ k ih =>
    intro s t h
    simp only [dumpRegs] at h
    cases hk : dumpRegs k s with
    | none => rw [hk] at h; cases h
    | some u =>
      rw [hk] at h
      simp only [Option.bind] at h
      split at h
      · cases h; exact (ih s u hk).trans ⟨rfl, rfl, rfl, rfl⟩
      · cases h

theorem loadRegs_kept : ∀ (k : Nat) (s t : State), loadRegs k s = some t → Kept s t := by
  intro k
  induction k with
  | zero => intro s t h; cases h; exact Kept.refl s
  | succ k ih =>
    intro s t h
    simp only [loadRegs] at h
    cases hk : loadRegs k s with
    | none => rw [hk] at h; cases h
    | some u =>
      rw [hk] at h
      simp only [Option.bind] at h
      split at h
      · cases h; exact (ih s u hk).trans ⟨rfl, rfl, rfl, rfl⟩
      · cases h

theorem drawPixel_kept (x sy r j : Nat) (s : State) :
    Kept s (drawPixel x sy r j s) ∧ (drawPixel x sy r j s).I = s.I := by
  unfold drawPixel
  simp only
  split
  · exact ⟨Kept.refl s, rfl⟩
  · split
    · exact ⟨⟨rfl, rfl, rfl, rfl⟩, rfl⟩
    · exact ⟨Kept.refl s, rfl⟩

theorem drawCols_kept (x sy r : Nat) : ∀ (k : Nat) (s : State),
    Kept s (drawCols x sy r k s) ∧ (drawCols x sy r k s).I = s.I
  | 0, s => ⟨Kept.refl s, rfl⟩
  | k + 1, s =>
    ⟨(drawCols_kept x sy r k s).1.trans (drawPixel_kept x sy r k _).1,
     (drawPixel_kept x sy r k _).2.trans (drawCols_kept x sy r k s).2⟩

theorem drawRows_kept (x y : Nat) : ∀ (k : Nat) (s t : State), drawRows x y k s = some t →
    Kept s t ∧ t.I = s.I := by
  intro k
  induction k with
  | zero => intro s t h; cases h; exact ⟨Kept.refl s, rfl⟩
  | succ k ih =>
    intro s t h
    simp only [drawRows] at h
    cases hk : drawRows x y k s with
    | none => rw [hk] at h; cases h
    | some u =>
      rw [hk] at h
      obtain ⟨hu, hI⟩ := ih s u hk
      simp only [Option.bind, drawRow] at h
      split at h
      · cases h; exact ⟨hu, hI⟩
      · split at h
        · have e := Option.some.inj h
          rw [← e]
          have hc := drawCols_kept x ((u.V y + k) % 256) (u.memory (u.I + k)) 8 u
          exact ⟨hu.trans hc.1, hc.2.trans hI⟩
        · cases h

theorem drawRows_returns (x y : Nat) : ∀ (k : Nat) (s : State),
    (∀ i, i < k → s.I + i < 4096) → ∃ t, drawRows x y k s = some t := by
  intro k
  induction k with
  | zero => intro s _; exact ⟨s, rfl⟩
  | succ k ih =>
    intro s hmem
    obtain ⟨u, hu⟩ := ih s (fun i hi => hmem i (by omega))
    have hI := (drawRows_kept x y k s u hu).2
    have hin : u.I + k < MEMORY_SIZE := by
      rw [hI]; exact hmem k (by omega)
    simp only [drawRows, hu, Option.bind, drawRow, hin, if_true]
    split
    · exact ⟨_, rfl⟩
    · exact ⟨_, rfl⟩

theorem _DXYN_kept (inst : Nat) (s t : State) (h : _DXYN inst s = some t) : Kept s t :=
  (Kept.trans (s := s) (u := { s with V := write s.V 15 0 }) ⟨rfl, rfl, rfl, rfl⟩
    (drawRows_kept ((inst &&& 0x0F00) >>> 8) ((inst &&& 0x00F0) >>> 4) (inst &&& 0xF)
      { s with V := write s.V 15 0 } t h).1)

/-- What every instruction keeps: the timing members, and the bounds of the
stack index. -/
theorem Kept.step {s t : State} (h : Kept s t) : Timing s t ∧ (StackOk s → StackOk t) :=
  ⟨h.2, fun hs => by unfold StackOk at *; rw [h.1]; exact hs⟩

theorem DecodeAndExecute0_step (inst : Nat) (s t : State)
    (hrun : DecodeAndExecute0 inst s = some t) : Timing s t ∧ (StackOk s → StackOk t) := by
  unfold DecodeAndExecute0 at hrun
  dsimp only at hrun
  split at hrun
  · cases hrun; exact (_00E0_kept inst s).step
  · split at hrun
    · exact _00EE_timing inst s t hrun
    · cases hrun; exact (_0NNN_kept inst s).step

theorem DecodeAndExecute8_kept (inst : Nat) (s t : State)
    (hrun : DecodeAndExecute8 inst s = some t) : Kept s t := by
  unfold DecodeAndExecute8 at hrun
  dsimp only at hrun
  split_ifs at hrun <;> cases hrun
  · exact _8XY0_kept inst s
  · exact _8XY1_kept inst s
  · exact _8XY2_kept inst s
  · exact _8XY3_kept inst s
  · exact _8XY4_kept inst s
  · exact _8XY5_kept inst s
  · exact _8XY6_kept inst s
  · exact _8XY7_kept inst s
  · exact _8XYE_kept inst s
  · exact InvalidOpcode_kept inst s

theorem DecodeAndExecuteE_kept (inst : Nat) (s t : State)
    (hrun : DecodeAndExecuteE inst s = some t) : Kept s t := by
  unfold DecodeAndExecuteE at hrun
  dsimp only at hrun
  split_ifs at hrun <;> cases hrun
  · exact _EX9E_kept inst s
  · exact _EXA1_kept inst s
  · exact InvalidOpcode_kept inst s

theorem DecodeAndExecuteF_kept (inst : Nat) (s t : State)
    (hrun : DecodeAndExecuteF inst s = some t) : Kept s t := by
  unfold DecodeAndExecuteF at hrun
  dsimp only at hrun
  split_ifs at hrun
  · cases hrun; exact _FX07_kept inst s
  · cases hrun; exact _FX0A_kept inst s
  · cases hrun; exact _FX15_kept inst s
  · cases hrun; exact _FX18_kept inst s
  · cases hrun; exact _FX1E_kept inst s
  · cases hrun; exact _FX29_kept inst s
  · exact _FX33_kept inst s t hrun
  · exact dumpRegs_kept _ s t hrun
  · exact loadRegs_kept _ s t hrun
  · cases hrun; exact InvalidOpcode_kept inst s

/-- Every instruction keeps the timing members and the bounds of the stack
index. -/
theorem DecodeAndExecute_step (r inst : Nat) (s t : State)
    (hrun : DecodeAndExecute r inst s = some t) : Timing s t ∧ (StackOk s → StackOk t) := by
  unfold DecodeAndExecute at hrun
  dsimp only at hrun
  generalize (inst &&& 0xF000) >>> 12 = op at hrun
  by_cases h0 : op = 0
  · rw [if_pos h0] at hrun
    exact DecodeAndExecute0_step inst s t hrun
  rw [if_neg h0] at hrun
  by_cases h1 : op = 1
  · rw [if_pos h1] at hrun
    cases hrun; exact (_1NNN_kept inst s).step
  rw [if_neg h1] at hrun
  by_cases h2 : op = 2
  · rw [if_pos h2] at hrun
    exact _2NNN_timing inst s t hrun
  rw [if_neg h2] at hrun
  by_cases h3 : op = 3
  · rw [if_pos h3] at hrun
    cases hrun; exact (_3XNN_kept inst s).step
  rw [if_neg h3] at hrun
  by_cases h4 : op = 4
  · rw [if_pos h4] at hrun
    cases hrun; exact (_4XNN_kept inst s).step
  rw [if_neg h4] at hrun
  by_cases h5 : op = 5
  · rw [if_pos h5] at hrun
    cases hrun; exact (_5XY0_kept inst s).step
  rw [if_neg h5] at hrun
  by_cases h6 : op = 6
  · rw [if_pos h6] at hrun
    cases hrun; exact (_6XNN_kept inst s).step
  rw [if_neg h6] at hrun
  by_cases h7 : op = 7
  · rw [if_pos h7] at hrun
    cases hrun; exact (_7XNN_kept inst s).step
  rw [if_neg h7] at hrun
  by_cases h8 : op = 8
  · rw [if_pos h8] at hrun
    exact (DecodeAndExecute8_kept inst s t hrun).step
  rw [if_neg h8] at hrun
  by_cases h9 : op = 9
  · rw [if_pos h9] at hrun
    cases hrun; exact (_9XY0_kept inst s).step
  rw [if_neg h9] at hrun
  by_cases h10 : op = 10
  · rw [if_pos h10] at hrun
    cases hrun; exact (_ANNN_kept inst s).step
  rw [if_neg h10] at hrun
  by_cases h11 : op = 11
  · rw [if_pos h11] at hrun
    cases hrun; exact (_BNNN_kept inst s).step
  rw [if_neg h11] at hrun
  by_cases h12 : op = 12
  · rw [if_pos h12] at hrun
    cases hrun; exact (_CXNN_kept r inst s).step
  rw [if_neg h12] at hrun
  by_cases h13 : op = 13
  · rw [if_pos h13] at hrun
    exact (_DXYN_kept inst s t hrun).step
  rw [if_neg h13] at hrun
  by_cases h14 : op = 14
  · rw [if_pos h14] at hrun
    exact (DecodeAndExecuteE_kept inst s t hrun).step
  rw [if_neg h14] at hrun
  by_cases h15 : op = 15
  · rw [if_pos h15] at hrun
    exact (DecodeAndExecuteF_kept inst s t hrun).step
  rw [if_neg h15] at hrun
  cases hrun; exact (Kept.refl s).step

/-- Every cycle keeps the timing members and the bounds of the stack index. -/
theorem ExecuteNextInstruction_step (r : Nat) (s t : State)
    (hrun : ExecuteNextInstruction r s = some t) : Timing s t ∧ (StackOk s → StackOk t) := by
  unfold ExecuteNextInstruction at hrun
  dsimp only at hrun
  split at hrun
  · exact DecodeAndExecute_step r _ { s with PC := (s.PC + 2) % 65536 } t hrun
  · cases hrun

/-! ## Addresses -/

theorem DecodeAndExecute0_returns (inst : Nat) (s : State) (hs : StackOk s) :
    ∃ t, DecodeAndExecute0 inst s = some t := by
  unfold DecodeAndExecute0
  dsimp only
  split
  · exact ⟨_, rfl⟩
  · split
    · exact _00EE_returns inst s hs
    · exact ⟨_, rfl⟩

theorem DecodeAndExecute8_returns (inst : Nat) (s : State) :
    ∃ t, DecodeAndExecute8 inst s = some t := by
  unfold DecodeAndExecute8
  dsimp only
  split_ifs <;> exact ⟨_, rfl⟩

theorem DecodeAndExecuteE_returns (inst : Nat) (s : State) :
    ∃ t, DecodeAndExecuteE inst s = some t := by
  unfold DecodeAndExecuteE
  dsimp only
  split_ifs <;> exact ⟨_, rfl⟩

theorem DecodeAndExecuteF_returns (inst : Nat) (s : State) (hI : s.I + 15 < 4096) :
    ∃ t, DecodeAndExecuteF inst s = some t := by
  have hx : (inst &&& 0x0F00) >>> 8 ≤ 15 := by rw [field_x]; omega
  unfold DecodeAndExecuteF
  dsimp only
  split_ifs
  · exact ⟨_, rfl⟩
  · exact ⟨_, rfl⟩
  · exact ⟨_, rfl⟩
  · exact ⟨_, rfl⟩
  · exact ⟨_, rfl⟩
  · exact ⟨_, rfl⟩
  · have hin : s.I + 2 < MEMORY_SIZE := by simp only [MEMORY_SIZE]; omega
    simp only [_FX33, hin, if_true]
    exact ⟨_, rfl⟩
  · obtain ⟨m, hm, _⟩ := dumpRegs_spec ((inst &&& 0x0F00) >>> 8 + 1) s (by omega)
    exact ⟨_, hm⟩
  · obtain ⟨v, hv, _⟩ := loadRegs_spec ((inst &&& 0x0F00) >>> 8 + 1) s (by omega)
    exact ⟨_, hv⟩
  · exact ⟨_, rfl⟩

theorem _DXYN_returns (inst : Nat) (s : State) (hI : s.I + 15 < 4096) :
    ∃ t, _DXYN inst s = some t := by
  have hn : inst &&& 0xF ≤ 15 := by rw [field_n]; omega
  exact drawRows_returns ((inst &&& 0x0F00) >>> 8) ((inst &&& 0x00F0) >>> 4) (inst &&& 0xF)
    { s with V := write s.V 15 0 } (fun i hi => by show s.I + i < 4096; omega)

/-- An instruction returns when the stack index is in bounds and the fifteen
bytes after `I` are in memory. -/
theorem DecodeAndExecute_returns (r inst : Nat) (s : State) (hI : s.I + 15 < 4096)
    (hs : StackOk s) : ∃ t, DecodeAndExecute r inst s = some t := by
  unfold DecodeAndExecute
  dsimp only
  generalize (inst &&& 0xF000) >>> 12 = op
  by_cases h0 : op = 0
  · rw [if_pos h0]
    exact DecodeAndExecute0_returns inst s hs
  rw [if_neg h0]
  by_cases h1 : op = 1
  · rw [if_pos h1]
    exact ⟨_, rfl⟩
  rw [if_neg h1]
  by_cases h2 : op = 2
  · rw [if_pos h2]
    exact _2NNN_returns inst s hs
  rw [if_neg h2]
  by_cases h3 : op = 3
  · rw [if_pos h3]
    exact ⟨_, rfl⟩
  rw [if_neg h3]
  by_cases h4 : op = 4
  · rw [if_pos h4]
    exact ⟨_, rfl⟩
  rw [if_neg h4]
  by_cases h5 : op = 5
  · rw [if_pos h5]
    exact ⟨_, rfl⟩
  rw [if_neg h5]
  by_cases h6 : op = 6
  · rw [if_pos h6]
    exact ⟨_, rfl⟩
  rw [if_neg h6]
  by_cases h7 : op = 7
  · rw [if_pos h7]
    exact ⟨_, rfl⟩
  rw [if_neg h7]
  by_cases h8 : op = 8
  · rw [if_pos h8]
    exact DecodeAndExecute8_returns inst s
  rw [if_neg h8]
  by_cases h9 : op = 9
  · rw [if_pos h9]
    exact ⟨_, rfl⟩
  rw [if_neg h9]
  by_cases h10 : op = 10
  · rw [if_pos h10]
    exact ⟨_, rfl⟩
  rw [if_neg h10]
  by_cases h11 : op = 11
  · rw [if_pos h11]
    exact ⟨_, rfl⟩
  rw [if_neg h11]
  by_cases h12 : op = 12
  · rw [if_pos h12]
    exact ⟨_, rfl⟩
  rw [if_neg h12]
  by_cases h13 : op = 13
  · rw [if_pos h13]
    exact _DXYN_returns inst s hI
  rw [if_neg h13]
  by_cases h14 : op = 14
  · rw [if_pos h14]
    exact DecodeAndExecuteE_returns inst s
  rw [if_neg h14]
  by_cases h15 : op = 15
  · rw [if_pos h15]
    exact DecodeAndExecuteF_returns inst s hI
  rw [if_neg h15]
  exact ⟨_, rfl⟩

/-- C19, as the code has it: from a state with `PC + 1 ≤ 0xFFF`,
`I + 15 ≤ 0xFFF` and `0 ≤ SP ≤ 128` a cycle returns, that is, every address
it reads or writes (the fetch at `PC`, `PC + 1`; sprite rows, BCD bytes and
dumped or loaded registers at `I + i`, `i ≤ 15`) is inside `memory[4096]`. -/
theorem cycle_in_range (r : Nat) (s : State) (hPC : s.PC + 1 ≤ 0xFFF) (hI : s.I + 15 ≤ 0xFFF)
    (hSP : 0 ≤ s.SP ∧ s.SP ≤ 128) : ∃ t, ExecuteNextInstruction r s = some t := by
  have hin : s.PC + 1 < MEMORY_SIZE := by simp only [MEMORY_SIZE]; omega
  simp only [ExecuteNextInstruction, hin, if_true]
  exact DecodeAndExecute_returns r _ { s with PC := (s.PC + 2) % 65536 }
    (by show s.I + 15 < 4096; omega) hSP

/-- Witness of C19: the first cycle of a freshly loaded machine. -/
theorem cycle_in_range_witness :
    ∃ t, ExecuteNextInstruction 0 (loaded [0x1F, 0xFF]) = some t :=
  cycle_in_range 0 (loaded [0x1F, 0xFF]) (by decide) (by decide) ⟨by decide, by decide⟩

/-- C19 as stated fails: after a successful load of the program `1FFF` one
cycle jumps to `0xFFF`, and the next cycle fetches the bytes at `0xFFF` and
`0x1000`, the second of which is outside `memory[4096]`. -/
theorem fetch_past_memory :
    (ExecuteNextInstruction 0 (loaded [0x1F, 0xFF])).map (fun t => (t.PC, t.PC + 1)) =
      some (0xFFF, 0x1000) ∧
    ((ExecuteNextInstruction 0 (loaded [0x1F, 0xFF])).bind
      (ExecuteNextInstruction 0)).isNone = true := by
  refine ⟨by decide, by decide⟩

/-! ## Stack index -/

/-- C20, as the code has it: the constructor and `LoadROM` leave
`0 ≤ SP ≤ 128` (a load that is refused keeps the `SP` it found); from a state
with `0 ≤ SP ≤ 128` whatever state an instruction returns has `0 ≤ SP ≤ 128`,
and when moreover `I + 15 ≤ 0xFFF` the instruction does return such a state,
for every instruction word; and from a state with `0 ≤ SP ≤ 128` the call and
the return handlers do return, that is, their accesses `stack[SP++]` and
`stack[--SP]` are inside `stack[128]`. -/
theorem stack_index_invariant (cps : F32) (s0 : State) (romData : Nat → Nat) (romSize : Int)
    (r inst : Nat) (s : State) (hs : 0 ≤ s.SP ∧ s.SP ≤ 128) :
    (construct cps s0).SP = 0 ∧
    (0 ≤ (LoadROM romData romSize s).SP ∧ (LoadROM romData romSize s).SP ≤ 128) ∧
    (∀ t, DecodeAndExecute r inst s = some t → 0 ≤ t.SP ∧ t.SP ≤ 128) ∧
    (s.I + 15 ≤ 0xFFF → ∃ t, DecodeAndExecute r inst s = some t ∧ 0 ≤ t.SP ∧ t.SP ≤ 128) ∧
    (∃ t, _2NNN inst s = some t) ∧ (∃ t, _00EE inst s = some t) := by
  refine ⟨rfl, ?_, fun t ht => (DecodeAndExecute_step r inst s t ht).2 hs, ?_,
    _2NNN_returns inst s hs, _00EE_returns inst s hs⟩
  · unfold LoadROM
    split
    · exact hs
    · show (0 : Int) ≤ 0 ∧ (0 : Int) ≤ 128
      exact ⟨by decide, by decide⟩
  · intro hI
    obtain ⟨t, ht⟩ := DecodeAndExecute_returns r inst s (by omega) hs
    exact ⟨t, ht, (DecodeAndExecute_step r inst s t ht).2 hs⟩

/-- Witness of C20: the call `2345` on a machine whose stack is full and whose
`I` is `0`. -/
theorem stack_index_invariant_witness :
    (construct ⟨0x447A0000⟩ zeroState).SP = 0 ∧
    (0 ≤ (LoadROM (romOfList []) 0 (fullStack [0x23, 0x45])).SP ∧
      (LoadROM (romOfList []) 0 (fullStack [0x23, 0x45])).SP ≤ 128) ∧
    (∃ t, DecodeAndExecute 0 0x2345 (fullStack [0x23, 0x45]) = some t ∧
      0 ≤ t.SP ∧ t.SP ≤ 128) ∧
    (∃ t, _2NNN 0x2345 (fullStack [0x23, 0x45]) = some t) ∧
    (∃ t, _00EE 0x2345 (fullStack [0x23, 0x45]) = some t) := by
  obtain ⟨h1, h2, _, h4, h5, h6⟩ :=
    stack_index_invariant ⟨0x447A0000⟩ zeroState (romOfList []) 0 0 0x2345
      (fullStack [0x23, 0x45]) ⟨by decide, by decide⟩
  exact ⟨h1, h2, h4 (by decide), h5, h6⟩

/-- C20 as stated fails: after a successful load of the program
`AFFF 60FF F01E 6116 F11E F055` five cycles leave `SP = 0`, `V[0] = 0xFF` and
`I = 0x1114`, and on that state the word `F055` returns no state, as the sixth
cycle, which fetches it, does not: its store `memory[I + 0] = V[0]` is outside
`memory[4096]`. By the order of the members in `chip8.h`, `memory + 0x1114`
is the first byte of `SP`. -/
theorem dump_past_memory :
    afterIndexAdds.map (fun s => (s.SP, s.I, s.V 0, s.memory s.PC, s.memory (s.PC + 1))) =
      some (0, 0x1114, 0xFF, 0xF0, 0x55) ∧
    (afterIndexAdds.bind (DecodeAndExecute 0 0xF055)).isNone = true ∧
    (afterIndexAdds.bind (ExecuteNextInstruction 0)).isNone = true := by
  refine ⟨by decide, by decide, by decide⟩

/-! ## Timing driver -/

theorem runCycles_timing (rnd : Nat → Nat) : ∀ (n : Nat) (s t : State),
    runCycles rnd n s = some t → Timing s t := by
  intro n
  induction n with
  | zero => intro s t h; cases h; exact ⟨rfl, rfl, rfl⟩
  | succ n ih =>
    intro s t h
    simp only [runCycles] at h
    cases hn : runCycles rnd n s with
    | none => rw [hn] at h; cases h
    | some u =>
      rw [hn] at h
      have h1 := ih s u hn
      have h2 := (ExecuteNextInstruction_step (rnd n) u t h).1
      exact ⟨h2.1.trans h1.1, h2.2.1.trans h1.2.1, h2.2.2.trans h1.2.2⟩

/-- The tick loop is the machine run of the passes its arithmetic decides. -/
theorem advanceLoop_plan (cpt : F32) (rnd : Nat → Nat → Nat) :
    ∀ (fuel : Nat) (s : State) (l : List TickPass),
      tickPlan cpt fuel s.tickTimeAccumulator s.cyclesAccumulator = some l →
      advanceLoop cpt rnd fuel s = runPlan rnd fuel l s := by
  intro fuel
  induction fuel with
  | zero => intro s l h; cases h
  | succ fuel ih =>
    intro s l h
    simp only [tickPlan] at h
    simp only [advanceLoop]
    cases hg : F32.gt s.tickTimeAccumulator tickInterval with
    | none => rw [hg] at h; cases h
    | some b =>
      rw [hg] at h
      cases b with
      | false =>
        cases h
        rfl
      | true =>
        simp only at h
        cases h1 : F32.add s.cyclesAccumulator cpt with
        | none => rw [h1] at h; cases h
        | some c1 =>
          rw [h1] at h
          simp only [Option.bind] at h
          cases h2 : F32.toInt c1 with
          | none => rw [h2] at h; cases h
          | some n =>
            rw [h2] at h
            simp only at h
            cases h3 : F32.ofInt n with
            | none => rw [h3] at h; cases h
            | some fc =>
              rw [h3] at h
              simp only at h
              cases h4 : F32.sub c1 fc with
              | none => rw [h4] at h; cases h
              | some c2 =>
                rw [h4] at h
                simp only at h
                cases h5 : F32.sub s.tickTimeAccumulator tickInterval with
                | none => rw [h5] at h; cases h
                | some a =>
                  rw [h5] at h
                  simp only at h
                  cases h6 : tickPlan cpt fuel a c2 with
                  | none => rw [h6] at h; cases h
                  | some l2 =>
                    rw [h6] at h
                    cases h
                    have hT : (TickTimers s).cyclesAccumulator = s.cyclesAccumulator := by
                      rw [TickTimers_eq s]
                    simp only [advanceBody, hT, h1, h2, h3, h4, Option.bind, runPlan,
                      Nat.add_sub_cancel]
                    cases hc : runCycles (rnd fuel) n.toNat
                        { TickTimers s with cyclesAccumulator := c2 } with
                    | none => rfl
                    | some t =>
                      have ht := runCycles_timing (rnd fuel) _ _ t hc
                      have e1 : t.tickTimeAccumulator = s.tickTimeAccumulator := by
                        rw [ht.2.1, TickTimers_eq s]
                      have e2 : t.cyclesAccumulator = c2 := ht.2.2
                      simp only [e1, h5]
                      exact ih { t with tickTimeAccumulator := a } l2 (by rw [← e2] at h6; exact h6)

theorem runPlan_end (rnd : Nat → Nat → Nat) : ∀ (l : List TickPass) (fuel : Nat) (s t : State),
    runPlan rnd fuel l s = some t →
      t.cyclesPerSecond = s.cyclesPerSecond ∧
      (t.tickTimeAccumulator, t.cyclesAccumulator) =
        planEnd s.tickTimeAccumulator s.cyclesAccumulator l := by
  intro l
  induction l with
  | nil => intro fuel s t h; cases h; exact ⟨rfl, rfl⟩
  | cons p l ih =>
    intro fuel s t h
    simp only [runPlan] at h
    cases hc : runCycles (rnd (fuel - 1)) p.cycles
        { TickTimers s with cyclesAccumulator := p.cyclesAccumulator } with
    | none => rw [hc] at h; cases h
    | some u =>
      rw [hc] at h
      have hu := runCycles_timing (rnd (fuel - 1)) _ _ u hc
      obtain ⟨h1, h2⟩ := ih (fuel - 1) { u with tickTimeAccumulator := p.tickTimeAccumulator } t h
      refine ⟨?_, ?_⟩
      · rw [h1]
        show u.cyclesPerSecond = s.cyclesPerSecond
        rw [hu.1, TickTimers_eq s]
      · rw [h2]
        show planEnd p.tickTimeAccumulator u.cyclesAccumulator l = _
        rw [hu.2.2]
        rfl

/-- One call of `Advance` is the machine run of the passes its arithmetic
decides, and leaves the accumulators that arithmetic gives. -/
theorem Advance_plan (fuel : Nat) (rnd : Nat → Nat → Nat) (dt : F32) (s : State)
    (l : List TickPass) (a c : F32)
    (h : advancePlan fuel s.cyclesPerSecond s.tickTimeAccumulator s.cyclesAccumulator dt =
      some (l, a, c)) :
    ∃ a0, F32.add s.tickTimeAccumulator dt = some a0 ∧
      Advance fuel rnd dt s = runPlan rnd fuel l { s with tickTimeAccumulator := a0 } ∧
      ∀ t, Advance fuel rnd dt s = some t →
        t.cyclesPerSecond = s.cyclesPerSecond ∧ t.tickTimeAccumulator = a ∧
        t.cyclesAccumulator = c := by
  simp only [advancePlan] at h
  cases h1 : F32.mul s.cyclesPerSecond tickInterval with
  | none => rw [h1] at h; cases h
  | some cpt =>
    rw [h1] at h
    simp only [Option.bind] at h
    cases h2 : F32.add s.tickTimeAccumulator dt with
    | none => rw [h2] at h; cases h
    | some a0 =>
      rw [h2] at h
      simp only at h
      cases h3 : tickPlan cpt fuel a0 s.cyclesAccumulator with
      | none => rw [h3] at h; cases h
      | some l2 =>
        rw [h3] at h
        simp only [Option.map, Option.some.injEq, Prod.mk.injEq] at h
        obtain ⟨hl, hac⟩ := h
        subst hl
        have hrun : Advance fuel rnd dt s =
            runPlan rnd fuel l2 { s with tickTimeAccumulator := a0 } := by
          simp only [Advance, h1, h2, Option.bind]
          exact advanceLoop_plan cpt rnd fuel { s with tickTimeAccumulator := a0 } l2 h3
        refine ⟨a0, rfl, hrun, ?_⟩
        intro t ht
        rw [hrun] at ht
        obtain ⟨e1, e2⟩ := runPlan_end rnd l2 fuel _ t ht
        refine ⟨e1, ?_, ?_⟩
        · have := congrArg Prod.fst e2
          simp only at this
          rw [this]
          exact congrArg Prod.fst hac
        · have := congrArg Prod.snd e2
          simp only at this
          rw [this]
          exact congrArg Prod.snd hac

/-- The accumulators after `k` calls of `Advance` are those its arithmetic
gives. -/
theorem AdvanceRepeat_acc (fuel : Nat) (rnd : Nat → Nat → Nat → Nat) (dt : F32) (s : State) :
    ∀ (k : Nat) (u : State) (ac : F32 × F32),
      repeatAcc fuel s.cyclesPerSecond dt s.tickTimeAccumulator s.cyclesAccumulator k =
        some ac →
      AdvanceRepeat fuel rnd dt k s = some u →
      u.cyclesPerSecond = s.cyclesPerSecond ∧ u.tickTimeAccumulator = ac.1 ∧
      u.cyclesAccumulator = ac.2 := by
  intro k
  induction k with
  | zero =>
    intro u ac h1 h2
    cases h1; cases h2
    exact ⟨rfl, rfl, rfl⟩
  | succ k ih =>
    intro u ac h1 h2
    simp only [repeatAcc] at h1
    simp only [AdvanceRepeat] at h2
    cases hk : repeatAcc fuel s.cyclesPerSecond dt s.tickTimeAccumulator s.cyclesAccumulator k with
    | none => rw [hk] at h1; cases h1
    | some ac0 =>
      rw [hk] at h1
      cases hr : AdvanceRepeat fuel rnd dt k s with
      | none => rw [hr] at h2; cases h2
      | some w =>
        rw [hr] at h2
        obtain ⟨e1, e2, e3⟩ := ih w ac0 hk hr
        simp only [Option.bind] at h1 h2
        rw [← e1, ← e2, ← e3] at h1
        cases hp : advancePlan fuel w.cyclesPerSecond w.tickTimeAccumulator
            w.cyclesAccumulator dt with
        | none => rw [hp] at h1; cases h1
        | some r =>
          rw [hp] at h1
          simp only [Option.map, Option.some.injEq] at h1
          obtain ⟨_, _, _, hfin⟩ := Advance_plan fuel (rnd k) dt w r.1 r.2.1 r.2.2 hp
          obtain ⟨f1, f2, f3⟩ := hfin u h2
          rw [← h1]
          exact ⟨f1.trans e1, f2, f3⟩

theorem tickPlan_succ (cpt : F32) : ∀ (fuel : Nat) (acc cyc : F32) (l : List TickPass),
    tickPlan cpt fuel acc cyc = some l → tickPlan cpt (fuel + 1) acc cyc = some l := by
  intro fuel
  induction fuel with
  | zero => intro acc cyc l h; cases h
  | succ fuel ih =>
    intro acc cyc l h
    rw [tickPlan] at h ⊢
    cases hg : F32.gt acc tickInterval with
    | none => rw [hg] at h; cases h
    | some b =>
      rw [hg] at h
      cases b with
      | false => exact h
      | true =>
        simp only at h ⊢
        cases h1 : F32.add cyc cpt with
        | none => rw [h1] at h; cases h
        | some c1 =>
          rw [h1] at h
          simp only [Option.bind] at h ⊢
          cases h2 : F32.toInt c1 with
          | none => rw [h2] at h; cases h
          | some n =>
            rw [h2] at h
            simp only at h ⊢
            cases h3 : F32.ofInt n with
            | none => rw [h3] at h; cases h
            | some fc =>
              rw [h3] at h
              simp only at h ⊢
              cases h4 : F32.sub c1 fc with
              | none => rw [h4] at h; cases h
              | some c2 =>
                rw [h4] at h
                simp only at h ⊢
                cases h5 : F32.sub acc tickInterval with
                | none => rw [h5] at h; cases h
                | some a =>
                  rw [h5] at h
                  simp only at h ⊢
                  cases h6 : tickPlan cpt fuel a c2 with
                  | none => rw [h6] at h; cases h
                  | some l2 =>
                    rw [h6] at h
                    rw [ih a c2 l2 h6]
                    exact h

theorem tickPlan_mono (cpt : F32) (fuel d : Nat) (acc cyc : F32) (l : List TickPass)
    (h : tickPlan cpt fuel acc cyc = some l) : tickPlan cpt (fuel + d) acc cyc = some l := by
  induction d with
  | zero => exact h
  | succ d ih => exact tickPlan_succ cpt (fuel + d) acc cyc l ih

theorem advancePlan_mono (fuel d : Nat) (cps acc cyc dt : F32) (r : List TickPass × F32 × F32)
    (h : advancePlan fuel cps acc cyc dt = some r) :
    advancePlan (fuel + d) cps acc cyc dt = some r := by
  simp only [advancePlan] at h ⊢
  cases h1 : F32.mul cps tickInterval with
  | none => rw [h1] at h; cases h
  | some cpt =>
    rw [h1] at h
    simp only [Option.bind] at h ⊢
    cases h2 : F32.add acc dt with
    | none => rw [h2] at h; cases h
    | some a0 =>
      rw [h2] at h
      simp only at h ⊢
      cases h3 : tickPlan cpt fuel a0 cyc with
      | none => rw [h3] at h; cases h
      | some l =>
        rw [h3] at h
        rw [tickPlan_mono cpt fuel d a0 cyc l h3]
        exact h

theorem repeatAcc_mono (fuel d : Nat) (cps dt acc cyc : F32) :
    ∀ (k : Nat) (ac : F32 × F32), repeatAcc fuel cps dt acc cyc k = some ac →
      repeatAcc (fuel + d) cps dt acc cyc k = some ac := by
  intro k
  induction k with
  | zero => intro ac h; exact h
  | succ k ih =>
    intro ac h
    simp only [repeatAcc] at h ⊢
    cases hk : repeatAcc fuel cps dt acc cyc k with
    | none => rw [hk] at h; cases h
    | some ac0 =>
      rw [hk] at h
      rw [ih ac0 hk]
      simp only [Option.bind] at h ⊢
      cases hp : advancePlan fuel cps ac0.1 ac0.2 dt with
      | none => rw [hp] at h; cases h
      | some r =>
        rw [hp] at h
        rw [advancePlan_mono fuel d cps ac0.1 ac0.2 dt r hp]
        exact h

/-! The arithmetic of the driver at `cyclesPerSecond = 600`. -/

set_option maxRecDepth 100000 in
/-- From accumulators 0, `Advance(1.0)` makes 60 passes of 10 cycles. -/
theorem plan_one_second :
    (advancePlan 61 ⟨0x44160000⟩ F32.zero F32.zero ⟨0x3F800000⟩).map
        (fun r => (r.1.length, r.1.all (fun p => p.cycles == 10))) = some (60, true) := by
  decide

set_option maxRecDepth 100000 in
/-- From accumulators 0, the first of sixty calls `Advance(1/60)` makes no
pass and each of the 59 others makes one pass of 10 cycles. -/
theorem plan_sixtieths :
    ∀ k, k < 60 →
      ((repeatAcc 61 ⟨0x44160000⟩ tickInterval F32.zero F32.zero k).bind fun ac =>
        (advancePlan 61 ⟨0x44160000⟩ ac.1 ac.2 tickInterval).map
          (fun r => (r.1.length, r.1.all (fun p => p.cycles == 10)))) =
        some (if k = 0 then 0 else 1, true) := by
  decide

set_option maxRecDepth 100000 in
/-- The constants of the timing claims: 600 and 1 as `float`, and
`tickInterval` as `8947849 * 2 ^ (-29)`, the binary32 value nearest to `1/60`
(`60 * 8947849` is 28 above `2 ^ 29`, `60 * 8947848` is 32 below). -/
theorem float_constants :
    F32.ofInt 600 = some ⟨0x44160000⟩ ∧ F32.ofInt 1 = some ⟨0x3F800000⟩ ∧
    tickInterval.mant = 8947849 ∧ tickInterval.expo = -29 ∧
    60 * 8947849 - 2 ^ 29 = 28 ∧ 2 ^ 29 - 60 * 8947848 = 32 := by
  decide

set_option maxRecDepth 100000 in
theorem add_zero_one : F32.add F32.zero ⟨0x3F800000⟩ = some ⟨0x3F800000⟩ := by decide

/-- With `cyclesPerSecond = 600` and both accumulators 0, one call
`Advance(1.0)` is the run of 60 passes of 10 cycles. -/
theorem advance_second_plan (fuel : Nat) (rnd : Nat → Nat → Nat) (s : State)
    (hfuel : 61 ≤ fuel) (hcps : s.cyclesPerSecond = ⟨0x44160000⟩)
    (hacc : s.tickTimeAccumulator = F32.zero) (hcyc : s.cyclesAccumulator = F32.zero) :
    ∃ l : List TickPass, l.length = 60 ∧ (∀ p ∈ l, p.cycles = 10) ∧
      Advance fuel rnd ⟨0x3F800000⟩ s =
        runPlan rnd fuel l { s with tickTimeAccumulator := ⟨0x3F800000⟩ } := by
  have hp := plan_one_second
  cases hr : advancePlan 61 ⟨0x44160000⟩ F32.zero F32.zero ⟨0x3F800000⟩ with
  | none => rw [hr] at hp; cases hp
  | some r =>
    rw [hr] at hp
    simp only [Option.map, Option.some.injEq, Prod.mk.injEq] at hp
    obtain ⟨hlen, hall⟩ := hp
    have hr1 := advancePlan_mono 61 (fuel - 61) _ _ _ _ r hr
    rw [show 61 + (fuel - 61) = fuel from by omega] at hr1
    have hr2 : advancePlan fuel s.cyclesPerSecond s.tickTimeAccumulator s.cyclesAccumulator
        ⟨0x3F800000⟩ = some r := by rw [hcps, hacc, hcyc]; exact hr1
    obtain ⟨a0, ha0, hrun, _⟩ := Advance_plan fuel rnd ⟨0x3F800000⟩ s r.1 r.2.1 r.2.2 hr2
    rw [hacc, add_zero_one] at ha0
    cases ha0
    refine ⟨r.1, hlen, ?_, hrun⟩
    intro p hp
    have := List.all_eq_true.mp hall p hp
    simpa using this

/-- With `cyclesPerSecond = 600` and both accumulators 0 at the start, call
number `k + 1` of sixty calls `Advance(1/60)` is the run of no pass when
`k = 0` and of one pass of 10 cycles otherwise. -/
theorem advance_sixtieth_plan (fuel : Nat) (rnds : Nat → Nat → Nat → Nat) (s : State)
    (hfuel : 61 ≤ fuel) (hcps : s.cyclesPerSecond = ⟨0x44160000⟩)
    (hacc : s.tickTimeAccumulator = F32.zero) (hcyc : s.cyclesAccumulator = F32.zero)
    (k : Nat) (u : State) (hk : k < 60)
    (hu : AdvanceRepeat fuel rnds tickInterval k s = some u) :
    ∃ (l : List TickPass) (a : F32), l.length = (if k = 0 then 0 else 1) ∧
      (∀ p ∈ l, p.cycles = 10) ∧
      Advance fuel (rnds k) tickInterval u =
        runPlan (rnds k) fuel l { u with tickTimeAccumulator := a } := by
  have hp := plan_sixtieths k hk
  cases hac : repeatAcc 61 ⟨0x44160000⟩ tickInterval F32.zero F32.zero k with
  | none => rw [hac] at hp; cases hp
  | some ac =>
    rw [hac] at hp
    simp only [Option.bind] at hp
    cases hr : advancePlan 61 ⟨0x44160000⟩ ac.1 ac.2 tickInterval with
    | none => rw [hr] at hp; cases hp
    | some r =>
      rw [hr] at hp
      simp only [Option.map, Option.some.injEq, Prod.mk.injEq] at hp
      obtain ⟨hlen, hall⟩ := hp
      have hac1 := repeatAcc_mono 61 (fuel - 61) _ _ _ _ k ac hac
      have hr1 := advancePlan_mono 61 (fuel - 61) _ _ _ _ r hr
      rw [show 61 + (fuel - 61) = fuel from by omega] at hac1 hr1
      have hac2 : repeatAcc fuel s.cyclesPerSecond tickInterval s.tickTimeAccumulator
          s.cyclesAccumulator k = some ac := by rw [hcps, hacc, hcyc]; exact hac1
      obtain ⟨e1, e2, e3⟩ := AdvanceRepeat_acc fuel rnds tickInterval s k u ac hac2 hu
      have hr2 : advancePlan fuel u.cyclesPerSecond u.tickTimeAccumulator u.cyclesAccumulator
          tickInterval = some r := by rw [e1, e2, e3, hcps]; exact hr1
      obtain ⟨a0, _, hrun, _⟩ := Advance_plan fuel (rnds k) tickInterval u r.1 r.2.1 r.2.2 hr2
      refine ⟨r.1, a0, hlen, ?_, hrun⟩
      intro p hp
      have := List.all_eq_true.mp hall p hp
      simpa using this

/-- C15, as the code has it: with `cyclesPerSecond = 600` and both accumulators
0, one call `Advance(1.0)` makes exactly 60 ticks, each followed by exactly 10
cycles; of sixty calls `Advance(1/60)` in a row the first makes no tick and
each of the 59 others makes exactly one tick followed by exactly 10 cycles. -/
theorem advance_tick_counts (fuel : Nat) (rnd : Nat → Nat → Nat)
    (rnds : Nat → Nat → Nat → Nat) (s : State)
    (hfuel : 61 ≤ fuel) (hcps : s.cyclesPerSecond = ⟨0x44160000⟩)
    (hacc : s.tickTimeAccumulator = F32.zero) (hcyc : s.cyclesAccumulator = F32.zero) :
    (∃ l : List TickPass, l.length = 60 ∧ (∀ p ∈ l, p.cycles = 10) ∧
      Advance fuel rnd ⟨0x3F800000⟩ s =
        runPlan rnd fuel l { s with tickTimeAccumulator := ⟨0x3F800000⟩ }) ∧
    (∀ k u, k < 60 → AdvanceRepeat fuel rnds tickInterval k s = some u →
      ∃ (l : List TickPass) (a : F32), l.length = (if k = 0 then 0 else 1) ∧
        (∀ p ∈ l, p.cycles = 10) ∧
        Advance fuel (rnds k) tickInterval u =
          runPlan (rnds k) fuel l { u with tickTimeAccumulator := a }) :=
  ⟨advance_second_plan fuel rnd s hfuel hcps hacc hcyc,
   fun k u hk hu => advance_sixtieth_plan fuel rnds s hfuel hcps hacc hcyc k u hk hu⟩

/-! The driver on a machine whose program is all no-ops. -/

theorem cycle_noop (r : Nat) (s : State) (hPC : s.PC + 1 < 4096) (h0 : s.memory s.PC = 0)
    (h1 : s.memory (s.PC + 1) = 0) :
    ExecuteNextInstruction r s = some { s with PC := s.PC + 2 } := by
  rw [fetch_at r s.PC 0 0 s hPC rfl (by decide) (by decide) h0 h1]
  have hop : ((256 * 0 + 0) &&& 0xF000) >>> 12 = 0 := by decide
  have hnn : (256 * 0 + 0) &&& 0xFF = 0 := by decide
  simp [DecodeAndExecute, DecodeAndExecute0, hop, hnn, _0NNN]

theorem runCycles_noop (rnd : Nat → Nat) : ∀ (n : Nat) (s : State),
    (∀ a, s.PC ≤ a → a < s.PC + 2 * n → s.memory a = 0) → s.PC + 2 * n ≤ 4096 →
    runCycles rnd n s = some { s with PC := s.PC + 2 * n } := by
  intro n
  induction n with
  | zero => intro s _ _; rfl
  | succ n ih =>
    intro s hz hb
    rw [runCycles, ih s (fun a h1 h2 => hz a h1 (by omega)) (by omega)]
    simp only [Option.bind]
    rw [cycle_noop (rnd n) { s with PC := s.PC + 2 * n } (by show s.PC + 2 * n + 1 < 4096; omega)
      (hz _ (by show s.PC ≤ s.PC + 2 * n; omega) (by show s.PC + 2 * n < _; omega))
      (hz _ (by show s.PC ≤ s.PC + 2 * n + 1; omega) (by show s.PC + 2 * n + 1 < _; omega))]
    show some { s with PC := s.PC + 2 * n + 2 } = _
    rw [show s.PC + 2 * n + 2 = s.PC + 2 * (n + 1) from by omega]

theorem runPlan_noop (rnd : Nat → Nat → Nat) (c : Nat) : ∀ (l : List TickPass) (fuel : Nat)
    (s : State), (∀ p ∈ l, p.cycles = c) →
    (∀ a, s.PC ≤ a → a < s.PC + 2 * c * l.length → s.memory a = 0) →
    s.PC + 2 * c * l.length ≤ 4096 →
    ∃ t, runPlan rnd fuel l s = some t ∧ t.PC = s.PC + 2 * c * l.length ∧
      t.delayTimer = s.delayTimer - l.length ∧ t.soundTimer = s.soundTimer - l.length ∧
      t.memory = s.memory := by
  intro l
  induction l with
  | nil =>
    intro fuel s _ _ _
    exact ⟨s, rfl, rfl, rfl, rfl, rfl⟩
  | cons p l ih =>
    intro fuel s hall hz hb
    have hp : p.cycles = c := hall p (List.mem_cons_self p l)
    have hlen : (p :: l).length = l.length + 1 := rfl
    rw [hlen] at hz hb
    have hexp : 2 * c * (l.length + 1) = 2 * c * l.length + 2 * c := by
      rw [Nat.mul_add, Nat.mul_one]
    rw [hexp] at hz hb
    have hT := TickTimers_eq s
    have hrun : runCycles (rnd (fuel - 1)) p.cycles
        { TickTimers s with cyclesAccumulator := p.cyclesAccumulator } =
        some { { TickTimers s with cyclesAccumulator := p.cyclesAccumulator } with
          PC := s.PC + 2 * c } := by
      rw [hp, hT]
      exact runCycles_noop (rnd (fuel - 1)) c _
        (fun a h1 h2 => hz a h1 (by show a < _; have : a < s.PC + 2 * c := h2; omega))
        (by show s.PC + 2 * c ≤ 4096; omega)
    obtain ⟨t, ht, e1, e2, e3, e4⟩ := ih (fuel - 1)
      { { { TickTimers s with cyclesAccumulator := p.cyclesAccumulator } with
          PC := s.PC + 2 * c } with tickTimeAccumulator := p.tickTimeAccumulator }
      (fun q hq => hall q (List.mem_cons_of_mem p hq))
      (fun a h1 h2 => by
        have h1' : s.PC + 2 * c ≤ a := h1
        have h2' : a < s.PC + 2 * c + 2 * c * l.length := h2
        rw [hT]
        exact hz a (by omega) (by omega))
      (by show s.PC + 2 * c + 2 * c * l.length ≤ 4096; omega)
    refine ⟨t, ?_, ?_, ?_, ?_, ?_⟩
    · simp only [runPlan, hrun, Option.bind]
      exact ht
    · rw [e1, hlen, hexp]
      show s.PC + 2 * c + 2 * c * l.length = _
      omega
    · rw [e2, hlen, hT]
      show s.delayTimer - 1 - l.length = _
      omega
    · rw [e3, hlen, hT]
      show s.soundTimer - 1 - l.length = _
      omega
    · rw [e4, hT]

theorem timed_memory (a : Nat) (h1 : 0x200 ≤ a) (h2 : a < 4096) : timed.memory a = 0 := by
  have hA : 512 ≤ a ∧ a < 4096 := ⟨h1, h2⟩
  have hB : ¬ a < 512 := by omega
  simp [timed, loaded, LoadROM, toSizeT, MEMORY_SIZE, PROGRAM_START, Reset, ClearDisplay, hA, hB]

theorem timed_sixtieths (rnds : Nat → Nat → Nat → Nat) : ∀ k, k ≤ 60 →
    ∃ u, AdvanceRepeat 61 rnds tickInterval k timed = some u ∧
      u.PC = 0x200 + 20 * (k - 1) ∧ u.delayTimer = 200 - (k - 1) ∧
      u.soundTimer = 30 - (k - 1) ∧ u.memory = timed.memory := by
  intro k
  induction k with
  | zero => intro _; exact ⟨timed, rfl, rfl, rfl, rfl, rfl⟩
  | succ k ih =>
    intro hk
    obtain ⟨u, hu, e1, e2, e3, e4⟩ := ih (by omega)
    obtain ⟨l, a, hlen, hall, hrun⟩ :=
      advance_sixtieth_plan 61 rnds timed (le_refl 61) rfl rfl rfl k u (by omega) hu
    have hl : l.length ≤ 1 := by rw [hlen]; split <;> omega
    obtain ⟨t, ht, f1, f2, f3, f4⟩ := runPlan_noop (rnds k) 10 l 61
      { u with tickTimeAccumulator := a } hall
      (fun b h1 h2 => by
        have h1' : u.PC ≤ b := h1
        have h2' : b < u.PC + 2 * 10 * l.length := h2
        show u.memory b = 0
        rw [e4]
        exact timed_memory b (by omega) (by omega))
      (by show u.PC + 2 * 10 * l.length ≤ 4096; omega)
    refine ⟨t, ?_, ?_, ?_, ?_, ?_⟩
    · simp only [AdvanceRepeat, hu, Option.bind, hrun]
      exact ht
    · rw [f1, hlen]
      show u.PC + 2 * 10 * (if k = 0 then 0 else 1) = _
      rw [e1]
      split <;> omega
    · rw [f2, hlen]
      show u.delayTimer - (if k = 0 then 0 else 1) = _
      rw [e2]
      split <;> omega
    · rw [f3, hlen]
      show u.soundTimer - (if k = 0 then 0 else 1) = _
      rw [e3]
      split <;> omega
    · rw [f4]
      exact e4

/-- C15 as stated fails for the sixty calls: on a machine with
`cyclesPerSecond = 600`, a program of no-ops and the timers at 200 and 30, one
call `Advance(1.0)` leaves the delay timer at 140 (60 ticks) and `PC` 600
instructions on, while sixty calls `Advance(1/60)` leave the delay timer at
141 (59 ticks) and `PC` 590 instructions on. -/
theorem sixty_sixtieths_tick_59 :
    (∃ t, Advance 61 (fun _ _ => 0) ⟨0x3F800000⟩ timed = some t ∧
      t.delayTimer = 140 ∧ t.soundTimer = 0 ∧ t.PC = 0x200 + 2 * 600) ∧
    (∃ u, AdvanceRepeat 61 (fun _ _ _ => 0) tickInterval 60 timed = some u ∧
      u.delayTimer = 141 ∧ u.soundTimer = 0 ∧ u.PC = 0x200 + 2 * 590) := by
  constructor
  · obtain ⟨l, hlen, hall, hrun⟩ :=
      advance_second_plan 61 (fun _ _ => 0) timed (le_refl 61) rfl rfl rfl
    obtain ⟨t, ht, f1, f2, f3, _⟩ := runPlan_noop (fun _ _ => 0) 10 l 61
      { timed with tickTimeAccumulator := ⟨0x3F800000⟩ } hall
      (fun b h1 h2 => by
        have h1' : 0x200 ≤ b := h1
        have h2' : b < 0x200 + 2 * 10 * l.length := h2
        show timed.memory b = 0
        exact timed_memory b h1' (by omega))
      (by show 0x200 + 2 * 10 * l.length ≤ 4096; omega)
    refine ⟨t, by rw [hrun]; exact ht, ?_, ?_, ?_⟩
    · rw [f2, hlen]; rfl
    · rw [f3, hlen]; rfl
    · rw [f1, hlen]; rfl
  · obtain ⟨u, hu, e1, e2, e3, _⟩ := timed_sixtieths (fun _ _ _ => 0) 60 (le_refl 60)
    exact ⟨u, hu, e2, e3, e1⟩

/-- Witness of C15: the machine `timed`, with 61 evaluations of the loop
condition allowed. -/
theorem advance_tick_counts_witness :
    (∃ l : List TickPass, l.length = 60 ∧ (∀ p ∈ l, p.cycles = 10) ∧
      Advance 61 (fun _ _ => 0) ⟨0x3F800000⟩ timed =
        runPlan (fun _ _ => 0) 61 l { timed with tickTimeAccumulator := ⟨0x3F800000⟩ }) ∧
    (∀ k u, k < 60 → AdvanceRepeat 61 (fun _ _ _ => 0) tickInterval k timed = some u →
      ∃ (l : List TickPass) (a : F32), l.length = (if k = 0 then 0 else 1) ∧
        (∀ p ∈ l, p.cycles = 10) ∧
        Advance 61 (fun _ _ => 0) tickInterval u =
          runPlan (fun _ _ => 0) 61 l { u with tickTimeAccumulator := a }) :=
  advance_tick_counts 61 (fun _ _ => 0) (fun _ _ _ => 0) timed (le_refl 61) rfl rfl rfl

/-! ## Shift left -/

set_option maxRecDepth 100000 in
theorem and_0x80 : ∀ v, v < 256 → v &&& 0x80 = if 128 ≤ v then 128 else 0 := by
  decide

/-- C21: for `X` in 0..14 and `V[X] ≤ 255`, `8XYE` changes registers only:
`V[X]` becomes `(V[X] * 2) mod 256`, `V[15]` becomes the masked bit
`V[X] & 0x80`, which is 128 when the high bit was set and 0 otherwise, and
every other register is kept. -/
theorem shift_left_8XYE (r X Y : Nat) (s : State) (hX : X ≤ 14) (hY : Y ≤ 15)
    (hv : s.V X ≤ 255) :
    ∃ v, DecodeAndExecute r (0x800E + 0x100 * X + 0x10 * Y) s = some { s with V := v } ∧
      v X = (s.V X * 2) % 256 ∧ v 15 = s.V X &&& 0x80 ∧
      v 15 = (if 128 ≤ s.V X then 128 else 0) ∧
      ∀ i, i ≠ X → i ≠ 15 → v i = s.V i := by
  have hop : ((0x800E + 0x100 * X + 0x10 * Y) &&& 0xF000) >>> 12 = 8 := by
    rw [field_op]; omega
  have hn : (0x800E + 0x100 * X + 0x10 * Y) &&& 0xF = 0xE := by
    rw [field_n]; omega
  have hx : ((0x800E + 0x100 * X + 0x10 * Y) &&& 0x0F00) >>> 8 = X := by
    rw [field_x]; omega
  have hX15 : X ≠ 15 := by omega
  have h15X : (15 : Nat) ≠ X := by omega
  refine ⟨write (write s.V 15 (s.V X &&& 0x80)) X ((s.V X <<< 1) % 256), ?_, ?_, ?_, ?_, ?_⟩
  · simp [DecodeAndExecute, DecodeAndExecute8, hop, hn, _8XYE, hx, write, hX15]
  · simp [write, Nat.shiftLeft_eq]
  · simp [write, h15X]
  · simp only [write, h15X, if_false, if_true]
    exact and_0x80 (s.V X) (by omega)
  · intro i h1 h2
    simp [write, h1, h2]

/-- Witness of C21: `801E` with `V[0] = 0x81` leaves `V[0] = 2` and
`V[15] = 128`. -/
theorem shift_left_8XYE_witness :
    ∃ v, DecodeAndExecute 0 0x801E (withRegs 0 0x81 1 0) =
        some { withRegs 0 0x81 1 0 with V := v } ∧ v 0 = 2 ∧ v 15 = 128 := by
  obtain ⟨v, h, h1, _, h3, _⟩ :=
    shift_left_8XYE 0 0 1 (withRegs 0 0x81 1 0) (by decide) (by decide) (by decide)
  exact ⟨v, h, h1, h3⟩

end CHIP8
